import Mathlib

/-!
Verification of the depviz airtable reconciliation engine
(`src/cmd/cmd_airtable.go`, function `airtableSync`).

The embedding models the control flow of `airtableSync` directly:
credential check, per-kind fetch of the remote tables into a cache,
deduplicated desired-state maps, the classification scan over each kind's
cached table, the create loop over unmatched records, and the
update/delete loop over the cached table.  The record type and the record
builder (`pkg/airtabledb`, `pkg/repo.Feature.ToRecord`) are not part of
the analysed sources; they are modelled from the specification where
noted.  Machine integers do not overflow in any modelled quantity, so
`Nat`/`String` are used directly.
-/

namespace Depviz

/-- Synchronization state of a cached record, as in `pkg/airtabledb`
(`StateUnknown`, `StateChanged`, `StateUnchanged`, `StateNew`).  A record
still in `unknown` at apply time is what the spec calls *Unmatched*. -/
inductive RecState where
  | unknown
  | changed
  | unchanged
  | new
deriving DecidableEq, Repr

/-- Modelled from the spec: the synchronized fields of a record body — the
ExternalID used for matching, a scalar attribute, and one cross-kind link
field holding the referenced row's RemoteInternalID once resolved
(`pkg/airtabledb` record fields are not under the analysed sources). -/
structure Fields where
  id : String
  attr : String
  ref : Option Nat
deriving DecidableEq, Repr

/-- A cached record: remote-assigned internal ID, synchronized fields, and
the synchronization state driven by `SetState`. -/
structure Rec where
  internalID : Nat
  fields : Fields
  state : RecState
deriving DecidableEq, Repr

/-- A row as stored in the remote service: internal ID plus fields. -/
structure Row where
  internalID : Nat
  fields : Fields
deriving DecidableEq, Repr

/-- The remote store: one table of rows per kind, and the next internal ID
the service will assign at creation time. -/
structure Remote where
  tables : List (List Row)
  nextID : Nat
deriving DecidableEq, Repr

/-- Modelled from the spec: a desired entity (`pkg/repo.Feature`, not under
the analysed sources) — stable ExternalID, domain attributes, and an
optional cross-kind reference (kind index, target ExternalID). -/
structure Feature where
  id : String
  attr : String
  refTo : Option (Nat × String)
deriving DecidableEq, Repr

/-- The in-memory cache, one table of records per kind
(`airtabledb.DB`). -/
abbrev DB := List (List Rec)

/-- The options consumed by `airtableSync` (`airtableOptions`): base ID,
token, and the destructive-action flag `airtable-destroy-invalid-records`.
Table names are irrelevant to the model (kinds are identified by index). -/
structure AirtableOptions where
  baseID : String
  token : String
  destroyInvalidRecords : Bool

/-- A remote mutation issued during the run.  `create` carries the
ExternalID sent and the internal ID the service assigned. -/
inductive Call where
  | create (kind : Nat) (id : String) (internalID : Nat)
  | update (kind : Nat) (internalID : Nat)
  | delete (kind : Nat) (internalID : Nat)
deriving DecidableEq, Repr

/-- Number of synchronized kinds (`airtabledb.NumTables`). -/
def NumTables : Nat := 6

/-- Modelled from the spec: reference resolution inside the record builder
(`Feature.ToRecord`, not under the analysed sources) looks up the target
ExternalID in the referenced kind's cached table and substitutes its
RemoteInternalID.  The call site at cmd_airtable.go:177 returns a single
record with no error path, so a missing target leaves the link empty. -/
def resolveRef (db : DB) : Option (Nat × String) → Option Nat
  | none => none
  | some (k, eid) => ((db.getD k []).find? (fun r => r.fields.id = eid)).map (·.internalID)

/-- Modelled from the spec: `Feature.ToRecord(cache)` builds the record
body from a desired entity — scalars copied, the reference resolved
against the cache; the fresh record has no internal ID yet and starts in
state `unknown`. -/
def Feature.toRecord (db : DB) (f : Feature) : Rec :=
  { internalID := 0
    fields := { id := f.id, attr := f.attr, ref := resolveRef db f.refTo }
    state := RecState.unknown }

/-- The matching scan of `airtableSync` (cmd_airtable.go:178-190): walk the
cached table, stop at the first record whose field ID equals the built
body's; mark it `unchanged` when the bodies are equal, otherwise copy the
built fields onto it and mark it `changed`.  `none` means no cached record
matched. -/
def classifyScan (body : Fields) : List Rec → Option (List Rec)
  | [] => none
  | r :: rs =>
    if r.fields.id = body.id then
      if r.fields = body then some ({ r with state := RecState.unchanged } :: rs)
      else some ({ r with fields := body, state := RecState.changed } :: rs)
    else (classifyScan body rs).map (r :: ·)

/-- One iteration of the classification loop (cmd_airtable.go:175-194):
build the record body against the current cache, scan kind `k`'s cached
table; on a match rewrite that table, otherwise append the built record to
the kind's unmatched list. -/
def classifyFeature (k : Nat) (st : DB × List Rec) (f : Feature) : DB × List Rec :=
  let dbRecord := Feature.toRecord st.1 f
  match classifyScan dbRecord.fields (st.1.getD k []) with
  | some rows => (st.1.set k rows, st.2)
  | none => (st.1, st.2 ++ [dbRecord])

/-- Classification of all desired entries of one kind, in map-iteration
order (the Go map order is unspecified; the deduplicated list order stands
in for it). -/
def classifyKind (k : Nat) (fs : List Feature) (st : DB × List Rec) : DB × List Rec :=
  fs.foldl (classifyFeature k) st

/-- The full classification pass (cmd_airtable.go:174-195): kinds in index
order, producing the rewritten cache and the per-kind unmatched lists. -/
def classifyAll (db : DB) (features : List (List Feature)) : DB × List (List Rec) :=
  features.enum.foldl
    (fun st p =>
      let r := classifyKind p.1 p.2 (st.1, [])
      (r.1, st.2 ++ [r.2]))
    (db, [])

/-- Key-replacing insert backing the Go map writes
`features[kind][id] = feature`: a later discovery of the same ExternalID
overwrites the earlier one, everything else is untouched. -/
def upsert (f : Feature) : List Feature → List Feature
  | [] => [f]
  | g :: gs => if g.id = f.id then f :: gs else g :: upsert f gs

/-- The unique-entries pass (cmd_airtable.go:111-150): fold the graph
discoveries, in traversal order, into one deduplicated desired map per
kind.  The issue traversal itself only determines which (kind, feature)
pairs are discovered and in which order, so it is abstracted as the input
list. -/
def buildFeatures (n : Nat) (ds : List (Nat × Feature)) : List (List Feature) :=
  ds.foldl
    (fun fs p => if p.1 < n then fs.set p.1 (upsert p.2 (fs.getD p.1 [])) else fs)
    (List.replicate n [])

/-- Fetch one kind's remote table into the cache
(`cache.Tables[tableKind].Fetch(table)`, cmd_airtable.go:161-166): every
fetched record starts in state `unknown`.  `fetchFails` is the oracle for
a failing fetch, which aborts the run. -/
def fetchTables (fetchFails : Nat → Bool) (remote : Remote) : List Nat → Option DB
  | [] => some []
  | k :: ks =>
    if fetchFails k then none
    else
      (fetchTables fetchFails remote ks).map
        (((remote.tables.getD k []).map
            (fun w => ({ internalID := w.internalID, fields := w.fields,
                         state := RecState.unknown } : Rec))) :: ·)

/-- Remove the row with the given internal ID from a remote table (the
effect of a successful `table.Delete`). -/
def deleteRow (iid : Nat) (rows : List Row) : List Row :=
  rows.filter (fun w => w.internalID != iid)

/-- Overwrite the fields of the row with the given internal ID (the effect
of a successful `table.Update`). -/
def updateRow (iid : Nat) (flds : Fields) (rows : List Row) : List Row :=
  rows.map (fun w => if w.internalID = iid then { w with fields := flds } else w)

/-- The create loop (cmd_airtable.go:204-211): for each unmatched record
issue `table.Create`; on failure the run aborts at once (`return err`); on
success the service assigns the next internal ID, the record is marked
`new` and appended to the kind's cached table.  Returns the issued calls,
the remote state reached, and — unless aborted — the extended cached
table. -/
def applyCreates (createFails : String → Bool) (k : Nat) :
    List Rec → List Rec → Remote → List Call × Remote × Option (List Rec)
  | [], ct, remote => ([], remote, some ct)
  | r :: rs, ct, remote =>
    if createFails r.fields.id then ([], remote, none)
    else
      let iid := remote.nextID
      let created : Rec := { r with internalID := iid, state := RecState.new }
      let remote' : Remote :=
        { tables := remote.tables.set k
            ((remote.tables.getD k []) ++ [{ internalID := iid, fields := r.fields }])
          nextID := remote.nextID + 1 }
      let rest := applyCreates createFails k rs (ct ++ [created]) remote'
      (Call.create k r.fields.id iid :: rest.1, rest.2)

/-- The update/delete loop (cmd_airtable.go:212-228): walk the kind's
cached table; `unknown` records get `table.Delete`, `changed` records get
`table.Update` (both logged, failures non-fatal), `unchanged` and `new`
records get no remote call. -/
def applyUD (k : Nat) : List Rec → Remote → List Call × Remote
  | [], remote => ([], remote)
  | c :: cs, remote =>
    match c.state with
    | RecState.unknown =>
      let rest := applyUD k cs
        { remote with tables := remote.tables.set k (deleteRow c.internalID (remote.tables.getD k [])) }
      (Call.delete k c.internalID :: rest.1, rest.2)
    | RecState.changed =>
      let rest := applyUD k cs
        { remote with tables := remote.tables.set k (updateRow c.internalID c.fields (remote.tables.getD k [])) }
      (Call.update k c.internalID :: rest.1, rest.2)
    | RecState.unchanged => applyUD k cs remote
    | RecState.new => applyUD k cs remote

/-- One kind's apply phase: the create loop, then (unless the run aborted)
the update/delete loop over the extended cached table. -/
def applyKind (createFails : String → Bool) (k : Nat) (um ct : List Rec) (remote : Remote) :
    List Call × Remote × Option (List Rec) :=
  match applyCreates createFails k um ct remote with
  | (calls, remote', none) => (calls, remote', none)
  | (calls, remote', some ct') =>
    let ud := applyUD k ct' remote'
    (calls ++ ud.1, ud.2, some ct')

/-- The apply loop (cmd_airtable.go:200-229): kinds in index order; an
aborted create loop aborts the whole run, keeping the calls already
issued. -/
def applyKinds (createFails : String → Bool) (um : List (List Rec)) :
    List Nat → DB → Remote → List Call × Remote × Option DB
  | [], db, remote => ([], remote, some db)
  | k :: ks, db, remote =>
    match applyKind createFails k (um.getD k []) (db.getD k []) remote with
    | (calls, remote', none) => (calls, remote', none)
    | (calls, remote', some ct') =>
      let rest := applyKinds createFails um ks (db.set k ct') remote'
      (calls ++ rest.1, rest.2)

/-- Result of a run: the remote mutations issued, the final cache (or the
error the run aborted with), and the remote state reached. -/
structure SyncResult where
  calls : List Call
  outcome : Except String DB
  remote : Remote

/-- The reconciliation run `airtableSync` (cmd_airtable.go:93-244):
credential check, fetch of every kind's remote table (any failure fatal),
deduplicated desired maps, classification pass, apply pass.  `n` is the
number of kinds (`NumTables` in the code), `ds` the graph discoveries in
traversal order, `fetchFails`/`createFails` the failure oracles of the
remote service, `remote` its current state.  The `destroyInvalidRecords`
option is carried exactly as far as the code carries it. -/
def airtableSync (opts : AirtableOptions) (n : Nat) (ds : List (Nat × Feature))
    (fetchFails : Nat → Bool) (createFails : String → Bool) (remote : Remote) : SyncResult :=
  if opts.baseID = "" ∨ opts.token = "" then
    { calls := [], outcome := Except.error "missing token or baseid, check '-h'", remote := remote }
  else
    match fetchTables fetchFails remote (List.range n) with
    | none => { calls := [], outcome := Except.error "fetch failed", remote := remote }
    | some cache =>
      let features := buildFeatures n ds
      let cls := classifyAll cache features
      match applyKinds createFails cls.2 (List.range n) cls.1 remote with
      | (calls, remote', none) =>
        { calls := calls, outcome := Except.error "create failed", remote := remote' }
      | (calls, remote', some db) =>
        { calls := calls, outcome := Except.ok db, remote := remote' }

/-! Concrete scenarios shared by several of the theorems below. -/

/-- Options with valid credentials and the destructive flag unset. -/
def exOpts : AirtableOptions := { baseID := "appBase", token := "key", destroyInvalidRecords := false }

/-- Failure oracle under which every remote operation succeeds. -/
def allOk : Nat → Bool := fun _ => false

/-- Create-failure oracle under which every create succeeds. -/
def allCreatesOk : String → Bool := fun _ => false

/-- An account feature with no reference. -/
def exAccount : Feature := { id := "acct", attr := "alice", refTo := none }

/-- A repository feature referencing the account by ExternalID. -/
def exRepository : Feature := { id := "repo", attr := "r1", refTo := some (0, "acct") }

/-- An issue feature referencing the repository by ExternalID. -/
def exIssue : Feature := { id := "iss", attr := "i1", refTo := some (1, "repo") }

/-- Three empty remote tables. -/
def emptyRemote3 : Remote := { tables := [[], [], []], nextID := 1 }

/-- The discoveries of the Account ← Repository ← Issue chain. -/
def chainDS : List (Nat × Feature) := [(0, exAccount), (1, exRepository), (2, exIssue)]

/-- C1: with `airtable-destroy-invalid-records` unset the claim forbids any
Delete call, but `airtableSync` never consults `DestroyInvalidRecords`
(cmd_airtable.go:26,65 define it; lines 212-217 delete every `unknown`
record unconditionally): a run over an empty desired graph against a
remote table holding one cached record still issues the Delete. -/
theorem delete_issued_with_destroy_flag_unset :
    (airtableSync exOpts 1 [] allOk allCreatesOk
        { tables := [[{ internalID := 101, fields := { id := "orphan", attr := "x", ref := none } }]],
          nextID := 200 }).calls = [Call.delete 0 101] := by
  rfl

/-- C2, counterexample: two desired records of one kind against an empty
remote table, the create of the first (ExternalID "a") fails.  The claim
says the other record's create is still executed and the run does not
abort; instead the run issues no call at all and returns an error. -/
theorem create_failure_aborts_run_cex :
    (airtableSync exOpts 1 [(0, { id := "a", attr := "1", refTo := none }),
        (0, { id := "b", attr := "2", refTo := none })] allOk
        (fun s => s == "a") { tables := [[]], nextID := 1 }).calls = []
    ∧ (airtableSync exOpts 1 [(0, { id := "a", attr := "1", refTo := none }),
        (0, { id := "b", attr := "2", refTo := none })] allOk
        (fun s => s == "a") { tables := [[]], nextID := 1 }).outcome.isOk = false := by
  constructor <;> rfl

/-- C2, amended: the create loop (cmd_airtable.go:204-211) aborts the run
at the first failing create (`return err`): creates already issued for
earlier unmatched records stand, and no create is issued for the failing
record or any record after it. -/
theorem create_failure_aborts_remaining (cf : String → Bool) (k : Nat)
    (pre post : List Rec) (x : Rec) (ct : List Rec) (remote : Remote)
    (hpre : ∀ r ∈ pre, cf r.fields.id = false) (hx : cf x.fields.id = true) :
    (applyCreates cf k (pre ++ x :: post) ct remote).2.2 = none
    ∧ (applyCreates cf k (pre ++ x :: post) ct remote).1.length = pre.length
    ∧ ∀ c ∈ (applyCreates cf k (pre ++ x :: post) ct remote).1,
        ∃ r ∈ pre, ∃ iid, c = Call.create k r.fields.id iid := by
  induction pre generalizing ct remote with
  | nil =>
    simp only [List.nil_append, applyCreates, hx]
    simp
  | cons p ps ih =>
    have hp : cf p.fields.id = false := hpre p (by simp)
    have hps : ∀ r ∈ ps, cf r.fields.id = false := fun r hr => hpre r (by simp [hr])
    simp only [List.cons_append, applyCreates, hp, Bool.false_eq_true, if_false]
    obtain ⟨h1, h2, h3⟩ :=
      ih (ct ++ [{ p with internalID := remote.nextID, state := RecState.new }])
        { tables := remote.tables.set k ((remote.tables.getD k []) ++ [{ internalID := remote.nextID, fields := p.fields }]),
          nextID := remote.nextID + 1 } hps
    refine ⟨h1, by simpa using h2, ?_⟩
    intro c hc
    simp only [List.mem_cons] at hc
    rcases hc with hc | hc
    · exact ⟨p, by simp, remote.nextID, hc⟩
    · obtain ⟨r, hr, iid, hciid⟩ := h3 c hc
      exact ⟨r, by simp [hr], iid, hciid⟩

/-- C2, witness for the amended theorem: a concrete two-record create loop
whose second create fails issues exactly the first create and aborts. -/
theorem create_failure_aborts_remaining_witness :
    (applyCreates (fun s => s == "b") 0
        ([{ internalID := 0, fields := { id := "a", attr := "1", ref := none }, state := RecState.unknown }]
          ++ { internalID := 0, fields := { id := "b", attr := "2", ref := none }, state := RecState.unknown }
            :: []) [] { tables := [[]], nextID := 1 }).2.2 = none := by
  exact (create_failure_aborts_remaining (fun s => s == "b") 0
    [{ internalID := 0, fields := { id := "a", attr := "1", ref := none }, state := RecState.unknown }] []
    { internalID := 0, fields := { id := "b", attr := "2", ref := none }, state := RecState.unknown }
    [] { tables := [[]], nextID := 1 } (by decide) (by decide)).1

/-- C3, counterexample: running the Account ← Repository ← Issue chain,
none present remotely, assigns internal ID 2 to the repository (second
create) but stores an empty reference in the issue record, not `some 2`:
record bodies are all built during the classification pass
(cmd_airtable.go:174-195), before the apply loop (lines 200-229) creates
anything. -/
theorem chain_reference_not_fresh_cex :
    (airtableSync exOpts 3 chainDS allOk allCreatesOk emptyRemote3).calls
      = [Call.create 0 "acct" 1, Call.create 1 "repo" 2, Call.create 2 "iss" 3]
    ∧ ((airtableSync exOpts 3 chainDS allOk allCreatesOk emptyRemote3).remote.tables.getD 2 []).map
        (fun w => w.fields.ref) = [none]
    ∧ ¬ ((airtableSync exOpts 3 chainDS allOk allCreatesOk emptyRemote3).remote.tables.getD 2 []).map
        (fun w => w.fields.ref) = [some 2] := by
  refine ⟨by rfl, by rfl, ?_⟩
  intro h
  rw [show ((airtableSync exOpts 3 chainDS allOk allCreatesOk emptyRemote3).remote.tables.getD 2 []).map
      (fun w => w.fields.ref) = [none] from rfl] at h
  simp at h

/-- C3, amended: record bodies for every kind are built before any create
is applied, so a cross-kind reference resolves to the target's internal ID
only when the target was already present in the fetched remote state;
references to records created in the same run are stored empty.  On the
chain with nothing present remotely all three records are created with
empty references; with the account already present under internal ID 7,
the repository's created record does embed `some 7`, while the issue's
reference to the same-run-created repository is still empty. -/
theorem references_resolve_only_prefetched :
    (((airtableSync exOpts 3 chainDS allOk allCreatesOk emptyRemote3).remote.tables.getD 1 []).map
        (fun w => w.fields.ref) = [none]
      ∧ ((airtableSync exOpts 3 chainDS allOk allCreatesOk emptyRemote3).remote.tables.getD 2 []).map
        (fun w => w.fields.ref) = [none])
    ∧ (((airtableSync exOpts 3 chainDS allOk allCreatesOk
          { tables := [[{ internalID := 7, fields := { id := "acct", attr := "alice", ref := none } }], [], []],
            nextID := 100 }).remote.tables.getD 1 []).map (fun w => w.fields.ref) = [some 7]
      ∧ ((airtableSync exOpts 3 chainDS allOk allCreatesOk
          { tables := [[{ internalID := 7, fields := { id := "acct", attr := "alice", ref := none } }], [], []],
            nextID := 100 }).remote.tables.getD 2 []).map (fun w => w.fields.ref) = [none]) := by
  exact ⟨⟨rfl, rfl⟩, ⟨rfl, rfl⟩⟩

/-! Helper lemmas about the embedded list operations. -/

theorem getD_set_self {α : Type} (l : List α) (i : Nat) (v d : α) (h : i < l.length) :
    (l.set i v).getD i d = v := by
  simp [List.getD_eq_getElem?_getD, List.getElem?_set_self', h]

theorem getD_set_ne {α : Type} (l : List α) (i j : Nat) (v d : α) (h : i ≠ j) :
    (l.set i v).getD j d = l.getD j d := by
  simp [List.getD_eq_getElem?_getD, List.getElem?_set_ne h]

theorem getD_replicate_nil {α : Type} (n j : Nat) :
    (List.replicate n ([] : List α)).getD j [] = [] := by
  simp only [List.getD_eq_getElem?_getD, List.getElem?_replicate]
  split <;> rfl

theorem fetchTables_eq_none (ff : Nat → Bool) (remote : Remote) (ks : List Nat)
    (h : ∃ k ∈ ks, ff k = true) : fetchTables ff remote ks = none := by
  induction ks with
  | nil => simp at h
  | cons k ks ih =>
    obtain ⟨j, hj, hfj⟩ := h
    simp only [List.mem_cons] at hj
    by_cases hk : ff k = true
    · simp [fetchTables, hk]
    · rcases hj with rfl | hj
      · exact absurd hfj hk
      · simp [fetchTables, hk, ih ⟨j, hj, hfj⟩]

/-- C7: with a missing base ID or token, or a failing fetch for any kind,
the run returns an error and no create/update/delete call is issued
(cmd_airtable.go:94-96 and 159-166 both return before the apply loop). -/
theorem fatal_precondition_no_calls (opts : AirtableOptions) (n : Nat)
    (ds : List (Nat × Feature)) (ff : Nat → Bool) (cf : String → Bool) (remote : Remote)
    (h : opts.baseID = "" ∨ opts.token = "" ∨ ∃ k, k < n ∧ ff k = true) :
    (airtableSync opts n ds ff cf remote).outcome.isOk = false
    ∧ (airtableSync opts n ds ff cf remote).calls = [] := by
  by_cases hc : opts.baseID = "" ∨ opts.token = ""
  · simp [airtableSync, hc, Except.isOk, Except.toBool]
  · rcases h with h1 | h2 | ⟨k, hk, hfk⟩
    · exact absurd (Or.inl h1) hc
    · exact absurd (Or.inr h2) hc
    · have hf : fetchTables ff remote (List.range n) = none :=
        fetchTables_eq_none ff remote _ ⟨k, by simpa using hk, hfk⟩
      simp [airtableSync, hc, hf, Except.isOk, Except.toBool]

/-- C7, witness: empty base ID with one kind. -/
theorem fatal_precondition_no_calls_witness :
    ((airtableSync { baseID := "", token := "key", destroyInvalidRecords := false } 1 []
        allOk allCreatesOk { tables := [[]], nextID := 1 }).outcome.isOk = false
      ∧ (airtableSync { baseID := "", token := "key", destroyInvalidRecords := false } 1 []
        allOk allCreatesOk { tables := [[]], nextID := 1 }).calls = []) :=
  fatal_precondition_no_calls _ 1 [] allOk allCreatesOk _ (Or.inl rfl)

/-! Lemmas on `upsert`, towards the deduplication property. -/

theorem mem_upsert {b f : Feature} {gs : List Feature} (h : b ∈ upsert f gs) :
    b = f ∨ b ∈ gs := by
  induction gs with
  | nil => simpa [upsert] using h
  | cons g gs ih =>
    by_cases hg : g.id = f.id
    · simp only [upsert, hg, if_true, List.mem_cons] at h
      rcases h with rfl | h
      · exact Or.inl rfl
      · exact Or.inr (List.mem_cons_of_mem g h)
    · simp only [upsert, hg, if_false, List.mem_cons] at h
      rcases h with rfl | h
      · exact Or.inr (List.mem_cons_self b gs)
      · rcases ih h with h' | h'
        · exact Or.inl h'
        · exact Or.inr (List.mem_cons_of_mem g h')

theorem upsert_pairwise (f : Feature) (gs : List Feature)
    (h : gs.Pairwise (fun a b => a.id ≠ b.id)) :
    (upsert f gs).Pairwise (fun a b => a.id ≠ b.id) := by
  induction gs with
  | nil => simp [upsert]
  | cons g gs ih =>
    rw [List.pairwise_cons] at h
    by_cases hg : g.id = f.id
    · simp only [upsert, hg, if_true]
      rw [List.pairwise_cons]
      exact ⟨fun b hb => hg ▸ h.1 b hb, h.2⟩
    · simp only [upsert, hg, if_false]
      rw [List.pairwise_cons]
      refine ⟨fun b hb => ?_, ih h.2⟩
      rcases mem_upsert hb with rfl | hb'
      · exact fun he => hg he
      · exact h.1 b hb'

theorem upsert_filter_self (f : Feature) (gs : List Feature)
    (h : gs.Pairwise (fun a b => a.id ≠ b.id)) :
    (upsert f gs).filter (fun g => g.id == f.id) = [f] := by
  induction gs with
  | nil => simp [upsert]
  | cons g gs ih =>
    rw [List.pairwise_cons] at h
    by_cases hg : g.id = f.id
    · simp only [upsert, hg, if_true]
      rw [List.filter_cons_of_pos (by simp)]
      have hnil : gs.filter (fun g => g.id == f.id) = [] := by
        rw [List.filter_eq_nil_iff]
        intro a ha
        have hfa : f.id ≠ a.id := hg ▸ h.1 a ha
        simp only [beq_iff_eq]
        exact fun he => hfa he.symm
      rw [hnil]
    · simp only [upsert, hg, if_false]
      rw [List.filter_cons_of_neg (by simpa using hg), ih h.2]

theorem upsert_filter_other (f : Feature) (gs : List Feature) (x : String) (hx : x ≠ f.id) :
    (upsert f gs).filter (fun g => g.id == x) = gs.filter (fun g => g.id == x) := by
  induction gs with
  | nil =>
    simp only [upsert]
    rw [List.filter_cons_of_neg (by simp only [beq_iff_eq]; exact fun h => hx h.symm)]
  | cons g gs ih =>
    by_cases hg : g.id = f.id
    · simp only [upsert, hg, if_true]
      rw [List.filter_cons_of_neg (by simp only [beq_iff_eq]; exact fun h => hx h.symm),
        List.filter_cons_of_neg (by simp only [beq_iff_eq, hg]; exact fun h => hx h.symm)]
    · simp only [upsert, hg, if_false]
      by_cases hgx : g.id = x
      · rw [List.filter_cons_of_pos (by simpa using hgx), List.filter_cons_of_pos (by simpa using hgx), ih]
      · rw [List.filter_cons_of_neg (by simpa using hgx), List.filter_cons_of_neg (by simpa using hgx), ih]

theorem buildFeatures_aux (n k : Nat) (x : String) (ds : List (Nat × Feature)) :
    ∀ fs : List (List Feature), fs.length = n →
    (∀ j, ((fs.getD j []).Pairwise (fun a b => a.id ≠ b.id))) →
    k < n →
    ((ds.foldl (fun fs p => if p.1 < n then fs.set p.1 (upsert p.2 (fs.getD p.1 [])) else fs) fs).getD k []).filter
        (fun f => f.id == x)
      = (match (ds.filter (fun p => p.1 == k && p.2.id == x)).getLast? with
          | some p => [p.2]
          | none => (fs.getD k []).filter (fun f => f.id == x)) := by
  induction ds with
  | nil => intro fs _ _ _; rfl
  | cons d ds ih =>
    intro fs hlen hpw hk
    have hlen' : (if d.1 < n then fs.set d.1 (upsert d.2 (fs.getD d.1 [])) else fs).length = n := by
      split <;> simp [hlen]
    have hpw' : ∀ j, (((if d.1 < n then fs.set d.1 (upsert d.2 (fs.getD d.1 [])) else fs).getD j []).Pairwise
        (fun a b => a.id ≠ b.id)) := by
      intro j
      split
      · by_cases hj : d.1 = j
        · subst hj
          rw [getD_set_self _ _ _ _ (by omega)]
          exact upsert_pairwise _ _ (hpw d.1)
        · rw [getD_set_ne _ _ _ _ _ hj]
          exact hpw j
      · exact hpw j
    have step := ih (if d.1 < n then fs.set d.1 (upsert d.2 (fs.getD d.1 [])) else fs) hlen' hpw' hk
    rw [List.foldl_cons, step]
    rcases List.eq_nil_or_concat (ds.filter (fun p => p.1 == k && p.2.id == x)) with hnil | ⟨L, p, hcat⟩
    · rw [hnil]
      by_cases hd : (d.1 == k && d.2.id == x) = true
      · have hfc : (d :: ds).filter (fun q => q.1 == k && q.2.id == x)
            = d :: ds.filter (fun q => q.1 == k && q.2.id == x) := by
          simp [List.filter_cons, hd]
        rw [hfc, hnil, List.getLast?_singleton]
        simp only [Bool.and_eq_true, beq_iff_eq] at hd
        obtain ⟨hd1, hd2⟩ := hd
        subst hd1
        rw [if_pos (by omega), getD_set_self _ _ _ _ (by omega), ← hd2]
        exact upsert_filter_self _ _ (hpw d.1)
      · have hfc : (d :: ds).filter (fun q => q.1 == k && q.2.id == x)
            = ds.filter (fun q => q.1 == k && q.2.id == x) := by
          simp [List.filter_cons, hd]
        rw [hfc, hnil]
        simp only [Bool.and_eq_true, beq_iff_eq, not_and] at hd
        by_cases hd1 : d.1 = k
        · have hd2 : d.2.id ≠ x := hd hd1
          subst hd1
          rw [if_pos (by omega), getD_set_self _ _ _ _ (by omega)]
          exact upsert_filter_other _ _ _ (fun h => hd2 h.symm)
        · have hgd : ((if d.1 < n then fs.set d.1 (upsert d.2 (fs.getD d.1 [])) else fs).getD k [])
              = fs.getD k [] := by
            by_cases hdn : d.1 < n
            · rw [if_pos hdn]
              exact getD_set_ne _ _ _ _ _ hd1
            · rw [if_neg hdn]
          rw [hgd]
    · rw [List.concat_eq_append] at hcat
      rw [hcat]
      by_cases hd : (d.1 == k && d.2.id == x) = true
      · have hfc : (d :: ds).filter (fun q => q.1 == k && q.2.id == x)
            = d :: ds.filter (fun q => q.1 == k && q.2.id == x) := by
          simp [List.filter_cons, hd]
        rw [hfc, hcat]
        rw [show d :: (L ++ [p]) = (d :: L) ++ [p] from rfl]
        rw [List.getLast?_concat, List.getLast?_concat]
      · have hfc : (d :: ds).filter (fun q => q.1 == k && q.2.id == x)
            = ds.filter (fun q => q.1 == k && q.2.id == x) := by
          simp [List.filter_cons, hd]
        rw [hfc, hcat, List.getLast?_concat]

/-- C8: duplicate discoveries of the same ExternalID collapse to exactly
one desired entry whose attributes come from the latest discovery, and
nothing fails: filtering kind `k`'s desired map for an ExternalID `x`
yields exactly the last `(k, feature)` discovery carrying `x` (and nothing
when `x` was never discovered).  Models the Go map writes
`features[kind][id] = feature` at cmd_airtable.go:111-150. -/
theorem desired_map_latest_discovery_wins (n k : Nat) (x : String)
    (ds : List (Nat × Feature)) (hk : k < n) :
    ((buildFeatures n ds).getD k []).filter (fun f => f.id == x)
      = (((ds.filter (fun p => p.1 == k && p.2.id == x)).getLast?).map Prod.snd).toList := by
  have base := buildFeatures_aux n k x ds (List.replicate n []) (by simp)
    (fun j => by rw [getD_replicate_nil]; exact List.Pairwise.nil) hk
  rw [buildFeatures, base]
  rcases List.eq_nil_or_concat (ds.filter (fun p => p.1 == k && p.2.id == x)) with hnil | ⟨L, p, hcat⟩
  · rw [hnil, getD_replicate_nil]
    rfl
  · rw [List.concat_eq_append] at hcat
    rw [hcat, List.getLast?_concat]
    rfl

/-- C8, witness: the account ExternalID discovered twice keeps only the
later attributes. -/
theorem desired_map_latest_discovery_wins_witness :
    0 < 1
    ∧ ((buildFeatures 1 [(0, exAccount), (0, { id := "acct", attr := "alice2", refTo := none })]).getD 0 []).filter
        (fun f => f.id == "acct")
      = ((([(0, exAccount), (0, ({ id := "acct", attr := "alice2", refTo := none } : Feature))].filter
          (fun p => p.1 == 0 && p.2.id == "acct")).getLast?).map Prod.snd).toList :=
  ⟨by decide,
   desired_map_latest_discovery_wins 1 0 "acct"
     [(0, exAccount), (0, { id := "acct", attr := "alice2", refTo := none })] (by decide)⟩

/-! Lemmas about the classification scan. -/

theorem classifyScan_eq_none (body : Fields) (rows : List Rec)
    (h : ∀ r ∈ rows, r.fields.id ≠ body.id) : classifyScan body rows = none := by
  induction rows with
  | nil => rfl
  | cons r rs ih =>
    have hr : r.fields.id ≠ body.id := h r (by simp)
    simp only [classifyScan, hr, if_false]
    rw [ih (fun a ha => h a (by simp [ha]))]
    rfl

theorem classifyScan_match_eq (body : Fields) (pre post : List Rec) (r : Rec)
    (hpre : ∀ p ∈ pre, p.fields.id ≠ body.id) (hid : r.fields.id = body.id)
    (heq : r.fields = body) :
    classifyScan body (pre ++ r :: post)
      = some (pre ++ { r with state := RecState.unchanged } :: post) := by
  induction pre with
  | nil => simp [classifyScan, hid, heq]
  | cons p ps ih =>
    have hp : p.fields.id ≠ body.id := hpre p (by simp)
    simp only [List.cons_append, classifyScan, hp, if_false, List.append_eq]
    rw [ih (fun a ha => hpre a (by simp [ha]))]
    rfl

theorem classifyScan_match_ne (body : Fields) (pre post : List Rec) (r : Rec)
    (hpre : ∀ p ∈ pre, p.fields.id ≠ body.id) (hid : r.fields.id = body.id)
    (hne : r.fields ≠ body) :
    classifyScan body (pre ++ r :: post)
      = some (pre ++ { r with fields := body, state := RecState.changed } :: post) := by
  induction pre with
  | nil => simp [classifyScan, hid, hne]
  | cons p ps ih =>
    have hp : p.fields.id ≠ body.id := hpre p (by simp)
    simp only [List.cons_append, classifyScan, hp, if_false, List.append_eq]
    rw [ih (fun a ha => hpre a (by simp [ha]))]
    rfl

theorem classifyScan_filter_ne (body : Fields) (x : String) (hx : x ≠ body.id) :
    ∀ (rows rows' : List Rec), classifyScan body rows = some rows' →
    rows'.filter (fun r => r.fields.id == x) = rows.filter (fun r => r.fields.id == x) := by
  intro rows
  induction rows with
  | nil => intro rows' h; simp [classifyScan] at h
  | cons r rs ih =>
    intro rows' h
    by_cases hr : r.fields.id = body.id
    · have hrx : ¬ (r.fields.id == x) = true := by
        simp only [beq_iff_eq, hr]
        exact fun he => hx he.symm
      by_cases heq : r.fields = body
      · simp only [classifyScan, hr, if_true, heq, Option.some.injEq] at h
        subst h
        simp only [List.filter_cons]
        rw [if_neg (by simp only [beq_iff_eq]; exact fun he => hx he.symm),
          if_neg (by simpa using hrx)]
      · simp only [classifyScan, hr, if_true, heq, if_false, Option.some.injEq] at h
        subst h
        simp only [List.filter_cons]
        rw [if_neg (by simp only [beq_iff_eq]; exact fun he => hx he.symm),
          if_neg (by simpa using hrx)]
    · simp only [classifyScan, hr, if_false] at h
      cases hscan : classifyScan body rs with
      | none => rw [hscan] at h; simp at h
      | some rs' =>
        rw [hscan] at h
        simp only [Option.map_some', Option.some.injEq] at h
        subst h
        by_cases hrx : r.fields.id = x
        · rw [List.filter_cons_of_pos (by simpa using hrx), List.filter_cons_of_pos (by simpa using hrx),
            ih rs' hscan]
        · rw [List.filter_cons_of_neg (by simpa using hrx), List.filter_cons_of_neg (by simpa using hrx),
            ih rs' hscan]

theorem classifyFeature_other_table (k j : Nat) (hj : j ≠ k) (st : DB × List Rec) (f : Feature) :
    (classifyFeature k st f).1.getD j [] = st.1.getD j [] := by
  cases hscan : classifyScan (Feature.toRecord st.1 f).fields (st.1.getD k []) with
  | none => simp only [classifyFeature, hscan]
  | some rows =>
    simp only [classifyFeature, hscan]
    exact getD_set_ne _ _ _ _ _ (fun h => hj h.symm)

theorem classifyKind_other_table (k j : Nat) (hj : j ≠ k) (fs : List Feature) :
    ∀ st : DB × List Rec, (classifyKind k fs st).1.getD j [] = st.1.getD j [] := by
  induction fs with
  | nil => intro st; rfl
  | cons f fs ih =>
    intro st
    rw [classifyKind, List.foldl_cons, ← classifyKind, ih]
    exact classifyFeature_other_table k j hj st f

theorem classifyFeature_filter_ne (k : Nat) (x : String) (st : DB × List Rec) (f : Feature)
    (hx : x ≠ f.id) :
    ((classifyFeature k st f).1.getD k []).filter (fun r => r.fields.id == x)
      = (st.1.getD k []).filter (fun r => r.fields.id == x) := by
  cases hscan : classifyScan (Feature.toRecord st.1 f).fields (st.1.getD k []) with
  | none => simp only [classifyFeature, hscan]
  | some rows =>
    simp only [classifyFeature, hscan]
    by_cases hk : k < st.1.length
    · rw [getD_set_self _ _ _ _ hk]
      exact classifyScan_filter_ne _ _ hx _ _ hscan
    · have hset : st.1.set k rows = st.1 := List.set_eq_of_length_le (by omega)
      rw [hset]

theorem classifyKind_filter_ne (k : Nat) (x : String) (fs : List Feature)
    (hfs : ∀ f ∈ fs, f.id ≠ x) :
    ∀ st : DB × List Rec,
    ((classifyKind k fs st).1.getD k []).filter (fun r => r.fields.id == x)
      = (st.1.getD k []).filter (fun r => r.fields.id == x) := by
  induction fs with
  | nil => intro st; rfl
  | cons f fs ih =>
    intro st
    rw [classifyKind, List.foldl_cons, ← classifyKind,
      ih (fun a ha => hfs a (by simp [ha]))]
    exact classifyFeature_filter_ne k x st f (fun he => hfs f (by simp) he.symm)

theorem classifyAll_aux_filter (k : Nat) (x : String) :
    ∀ (l : List (List Feature)) (i : Nat) (st : DB × List (List Rec)),
    (∀ p ∈ l.enumFrom i, p.1 = k → ∀ f ∈ p.2, f.id ≠ x) →
    (((l.enumFrom i).foldl
        (fun (st : DB × List (List Rec)) (p : Nat × List Feature) =>
          let r := classifyKind p.1 p.2 (st.1, [])
          (r.1, st.2 ++ [r.2])) st).1.getD k []).filter (fun r => r.fields.id == x)
      = (st.1.getD k []).filter (fun r => r.fields.id == x) := by
  intro l
  induction l with
  | nil => intro i st _; rfl
  | cons fs l ih =>
    intro i st h
    rw [List.enumFrom_cons, List.foldl_cons]
    rw [ih (i + 1) _ (fun p hp => h p (by rw [List.enumFrom_cons]; exact List.mem_cons_of_mem _ hp))]
    by_cases hik : i = k
    · subst hik
      exact classifyKind_filter_ne i x fs (h (i, fs) (by rw [List.enumFrom_cons]; simp) rfl) (st.1, [])
    · rw [classifyKind_other_table i k (fun he => hik he.symm) fs (st.1, [])]

/-- C6: the classification pass assigns states by ExternalID match exactly
as claimed: (1) a desired entry with no cached match goes to the kind's
unmatched list (and is created in state `new` by the apply pass); (2) a
first match with structurally equal fields is marked `unchanged`,
untouched; (3) a first match with differing fields gets the built fields
staged onto it and is marked `changed`; (4) cached records whose
ExternalID no desired entry of the kind carries are left exactly as
fetched — in state `unknown` (Unmatched). -/
theorem classification_case_analysis :
    (∀ (db : DB) (k : Nat) (um : List Rec) (f : Feature),
        (∀ r ∈ db.getD k [], r.fields.id ≠ f.id) →
        classifyFeature k (db, um) f = (db, um ++ [Feature.toRecord db f]))
    ∧ (∀ (db : DB) (k : Nat) (um : List Rec) (f : Feature) (pre post : List Rec) (r : Rec),
        db.getD k [] = pre ++ r :: post →
        (∀ p ∈ pre, p.fields.id ≠ f.id) → r.fields.id = f.id →
        r.fields = (Feature.toRecord db f).fields →
        classifyFeature k (db, um) f
          = (db.set k (pre ++ { r with state := RecState.unchanged } :: post), um))
    ∧ (∀ (db : DB) (k : Nat) (um : List Rec) (f : Feature) (pre post : List Rec) (r : Rec),
        db.getD k [] = pre ++ r :: post →
        (∀ p ∈ pre, p.fields.id ≠ f.id) → r.fields.id = f.id →
        r.fields ≠ (Feature.toRecord db f).fields →
        classifyFeature k (db, um) f
          = (db.set k (pre ++ { r with fields := (Feature.toRecord db f).fields, state := RecState.changed } :: post), um))
    ∧ (∀ (db : DB) (features : List (List Feature)) (k : Nat) (x : String),
        (∀ f ∈ features.getD k [], f.id ≠ x) →
        ((classifyAll db features).1.getD k []).filter (fun r => r.fields.id == x)
          = (db.getD k []).filter (fun r => r.fields.id == x)) := by
  refine ⟨?_, ?_, ?_, ?_⟩
  · intro db k um f h
    have hscan : classifyScan (Feature.toRecord db f).fields (db.getD k []) = none :=
      classifyScan_eq_none _ _ h
    simp only [classifyFeature, hscan]
  · intro db k um f pre post r hrows hpre hid heq
    have hscan : classifyScan (Feature.toRecord db f).fields (db.getD k [])
        = some (pre ++ { r with state := RecState.unchanged } :: post) := by
      rw [hrows]
      exact classifyScan_match_eq _ _ _ _ hpre hid heq
    simp only [classifyFeature, hscan]
  · intro db k um f pre post r hrows hpre hid hne
    have hscan : classifyScan (Feature.toRecord db f).fields (db.getD k [])
        = some (pre ++ { r with fields := (Feature.toRecord db f).fields, state := RecState.changed } :: post) := by
      rw [hrows]
      exact classifyScan_match_ne _ _ _ _ hpre hid hne
    simp only [classifyFeature, hscan]
  · intro db features k x h
    have harg : ∀ p ∈ features.enumFrom 0, p.1 = k → ∀ f ∈ p.2, f.id ≠ x := by
      intro p hp hpk f hf
      have hget : features.getD p.1 [] = p.2 := by
        have hmem : p ∈ features.enum := hp
        have h2 := List.mem_enum_iff_getElem?.mp hmem
        rw [List.getD_eq_getElem?_getD, h2]
        rfl
      rw [hpk] at hget
      exact h f (by rw [hget]; exact hf)
    exact classifyAll_aux_filter k x features 0 (db, []) harg

/-- A cached record of a different ExternalID, for the C6 witness. -/
def c6rOther : Rec :=
  { internalID := 21, fields := { id := "other", attr := "o", ref := none }, state := RecState.unknown }

/-- A cached record field-equal to the built body, for the C6 witness. -/
def c6rEq : Rec :=
  { internalID := 11, fields := { id := "a", attr := "1", ref := none }, state := RecState.unknown }

/-- A cached record with differing fields, for the C6 witness. -/
def c6rNe : Rec :=
  { internalID := 12, fields := { id := "a", attr := "old", ref := none }, state := RecState.unknown }

/-- The desired entry used by the C6 witness. -/
def c6f : Feature := { id := "a", attr := "1", refTo := none }

/-- C6, witness: the four classification cases at concrete records. -/
theorem classification_case_analysis_witness :
    (classifyFeature 0 ([[c6rOther]], []) c6f
      = ([[c6rOther]], [Feature.toRecord [[c6rOther]] c6f]))
    ∧ (classifyFeature 0 ([[c6rEq]], []) c6f
      = ([[c6rEq]].set 0 ([] ++ { c6rEq with state := RecState.unchanged } :: []), []))
    ∧ (classifyFeature 0 ([[c6rNe]], []) c6f
      = ([[c6rNe]].set 0 ([] ++ { c6rNe with fields := (Feature.toRecord [[c6rNe]] c6f).fields, state := RecState.changed } :: []), []))
    ∧ (((classifyAll [[c6rOther]] [[c6f]]).1.getD 0 []).filter (fun r => r.fields.id == "other")
      = ([[c6rOther]].getD 0 []).filter (fun r => r.fields.id == "other")) :=
  ⟨classification_case_analysis.1 [[c6rOther]] 0 [] c6f
      (by
        intro r hr
        rw [show [[c6rOther]].getD 0 [] = [c6rOther] from rfl, List.mem_singleton] at hr
        subst hr
        decide),
   classification_case_analysis.2.1 [[c6rEq]] 0 [] c6f [] [] c6rEq rfl
      (fun p hp => absurd hp (List.not_mem_nil p)) rfl rfl,
   classification_case_analysis.2.2.1 [[c6rNe]] 0 [] c6f [] [] c6rNe rfl
      (fun p hp => absurd hp (List.not_mem_nil p)) rfl (by decide),
   classification_case_analysis.2.2.2 [[c6rOther]] [[c6f]] 0 "other"
      (by intro f hf; rw [List.getD] at hf; simp at hf; subst hf; decide)⟩

/-! Key preservation: classification never changes an ExternalID or an
internal ID, so reference resolution is stable throughout the pass. -/

/-- The (ExternalID, internal ID) projection of a cached table, the only
data reference resolution reads. -/
def tableKey (rows : List Rec) : List (String × Nat) :=
  rows.map (fun r => (r.fields.id, r.internalID))

theorem find_map_tableKey (rows : List Rec) (eid : String) :
    ((rows.find? (fun r => r.fields.id = eid)).map (·.internalID))
      = ((tableKey rows).find? (fun p => p.1 = eid)).map (·.2) := by
  induction rows with
  | nil => rfl
  | cons r rs ih =>
    by_cases hr : r.fields.id = eid
    · rw [List.find?_cons_of_pos _ (by simpa using hr), tableKey, List.map_cons,
        List.find?_cons_of_pos _ (by simpa using hr)]
      rfl
    · rw [List.find?_cons_of_neg _ (by simpa using hr), tableKey, List.map_cons,
        List.find?_cons_of_neg _ (by simpa using hr)]
      exact ih

theorem resolveRef_congr (db db' : DB)
    (h : ∀ j, tableKey (db'.getD j []) = tableKey (db.getD j []))
    (o : Option (Nat × String)) : resolveRef db' o = resolveRef db o := by
  cases o with
  | none => rfl
  | some p =>
    obtain ⟨k, eid⟩ := p
    show ((db'.getD k []).find? (fun r => r.fields.id = eid)).map (·.internalID)
      = ((db.getD k []).find? (fun r => r.fields.id = eid)).map (·.internalID)
    rw [find_map_tableKey, find_map_tableKey, h k]

theorem toRecord_congr (db db' : DB)
    (h : ∀ j, tableKey (db'.getD j []) = tableKey (db.getD j []))
    (f : Feature) : Feature.toRecord db' f = Feature.toRecord db f := by
  unfold Feature.toRecord
  rw [resolveRef_congr db db' h f.refTo]

theorem classifyScan_tableKey (body : Fields) :
    ∀ (rows rows' : List Rec), classifyScan body rows = some rows' →
    tableKey rows' = tableKey rows := by
  intro rows
  induction rows with
  | nil => intro rows' h; simp [classifyScan] at h
  | cons r rs ih =>
    intro rows' h
    by_cases hr : r.fields.id = body.id
    · by_cases heq : r.fields = body
      · simp only [classifyScan, hr, if_true, heq, Option.some.injEq] at h
        subst h
        simp [tableKey, heq]
      · simp only [classifyScan, hr, if_true, heq, if_false, Option.some.injEq] at h
        subst h
        simp only [tableKey, List.map_cons, hr]
    · simp only [classifyScan, hr, if_false] at h
      cases hscan : classifyScan body rs with
      | none => rw [hscan] at h; simp at h
      | some rs' =>
        rw [hscan] at h
        simp only [Option.map_some', Option.some.injEq] at h
        subst h
        have htl := ih rs' hscan
        simp only [tableKey] at htl ⊢
        rw [List.map_cons, List.map_cons, htl]

theorem classifyFeature_tableKey (k : Nat) (st : DB × List Rec) (f : Feature) :
    ∀ j, tableKey ((classifyFeature k st f).1.getD j []) = tableKey (st.1.getD j []) := by
  intro j
  by_cases hj : j = k
  · subst hj
    cases hscan : classifyScan (Feature.toRecord st.1 f).fields (st.1.getD j []) with
    | none => simp only [classifyFeature, hscan]
    | some rows =>
      simp only [classifyFeature, hscan]
      by_cases hk : j < st.1.length
      · rw [getD_set_self _ _ _ _ hk]
        exact classifyScan_tableKey _ _ _ hscan
      · rw [List.set_eq_of_length_le (by omega)]
  · rw [classifyFeature_other_table k j hj st f]

theorem classifyKind_tableKey (k : Nat) (fs : List Feature) :
    ∀ (st : DB × List Rec) (j : Nat),
    tableKey ((classifyKind k fs st).1.getD j []) = tableKey (st.1.getD j []) := by
  induction fs with
  | nil => intro st j; rfl
  | cons f fs ih =>
    intro st j
    rw [classifyKind, List.foldl_cons, ← classifyKind, ih]
    exact classifyFeature_tableKey k st f j

theorem classifyKind_toRecord_congr (k : Nat) (fs : List Feature) (st : DB × List Rec)
    (g : Feature) :
    Feature.toRecord (classifyKind k fs st).1 g = Feature.toRecord st.1 g :=
  toRecord_congr st.1 _ (fun j => classifyKind_tableKey k fs st j) g

/-! Closed forms for the classification and apply passes, used to derive
the run-level properties.  These are proof-side descriptions; the
operational definitions above remain the embedding of the source. -/

/-- The record a built body is materialized as before creation. -/
def recOfBody (b : Fields) : Rec :=
  { internalID := 0, fields := b, state := RecState.unknown }

/-- Closed form of what the classification pass does to one cached record,
given the list of built bodies of the kind (whose ExternalIDs are
distinct): the first body carrying the record's ExternalID marks it
`unchanged` or stages itself onto it as `changed`. -/
def specClassify (bs : List Fields) (r : Rec) : Rec :=
  match bs.find? (fun b => b.id == r.fields.id) with
  | none => r
  | some b =>
    if r.fields = b then { r with state := RecState.unchanged }
    else { r with fields := b, state := RecState.changed }

/-- Closed form of the kind's unmatched bodies: those whose ExternalID
appears on no cached record, in desired order. -/
def specNew (bs : List Fields) (rows : List Rec) : List Fields :=
  bs.filter (fun b => rows.all (fun r => r.fields.id != b.id))

theorem set_getD_self {α : Type} (l : List α) (k : Nat) (d : α) :
    l.set k (l.getD k d) = l := by
  by_cases h : k < l.length
  · rw [List.getD_eq_getElem?_getD, List.getElem?_eq_getElem h]
    apply List.ext_getElem?
    intro i
    by_cases hik : i = k
    · subst hik
      rw [List.getElem?_set_self']
      simp [h, List.getElem?_eq_getElem h]
    · rw [List.getElem?_set_ne (fun he => hik he.symm)]
  · exact List.set_eq_of_length_le (by omega)

theorem specClassify_nil (r : Rec) : specClassify [] r = r := rfl

theorem specClassify_cons_ne (b : Fields) (bs : List Fields) (r : Rec)
    (h : b.id ≠ r.fields.id) : specClassify (b :: bs) r = specClassify bs r := by
  unfold specClassify
  rw [List.find?_cons_of_neg _ (by simpa using h)]

theorem specClassify_not_found (bs : List Fields) (r : Rec)
    (h : ∀ b ∈ bs, b.id ≠ r.fields.id) : specClassify bs r = r := by
  unfold specClassify
  rw [List.find?_eq_none.mpr (fun b hb => by simpa using h b hb)]

theorem specNew_nil (rows : List Rec) : specNew [] rows = [] := rfl

theorem specNew_cons_skip (b : Fields) (bs : List Fields) (rows : List Rec)
    (h : ∃ r ∈ rows, r.fields.id = b.id) :
    specNew (b :: bs) rows = specNew bs rows := by
  unfold specNew
  rw [List.filter_cons_of_neg]
  obtain ⟨r, hr, hid⟩ := h
  simp only [List.all_eq_true, not_forall]
  exact ⟨r, hr, by simp [hid]⟩

theorem specNew_cons_keep (b : Fields) (bs : List Fields) (rows : List Rec)
    (h : ∀ r ∈ rows, r.fields.id ≠ b.id) :
    specNew (b :: bs) rows = b :: specNew bs rows := by
  unfold specNew
  rw [List.filter_cons_of_pos]
  rw [List.all_eq_true]
  intro r hr
  simpa using h r hr

theorem all_map_ids (rows : List Rec) (p : String → Bool) :
    rows.all (fun r => p r.fields.id) = (rows.map (fun r => r.fields.id)).all p := by
  induction rows with
  | nil => rfl
  | cons r rs ih => simp only [List.all_cons, List.map_cons, ih]

theorem specNew_congr_ids (bs : List Fields) (rows rows' : List Rec)
    (h : rows.map (fun r => r.fields.id) = rows'.map (fun r => r.fields.id)) :
    specNew bs rows = specNew bs rows' := by
  unfold specNew
  have hall : ∀ x : String, rows.all (fun r => r.fields.id != x) = rows'.all (fun r => r.fields.id != x) := by
    intro x
    rw [all_map_ids rows (fun s => s != x), all_map_ids rows' (fun s => s != x), h]
  induction bs with
  | nil => rfl
  | cons b bs ih =>
    rw [List.filter_cons, List.filter_cons, hall b.id, ih]

theorem exists_first_match (x : String) (rows : List Rec)
    (h : ∃ r ∈ rows, r.fields.id = x) :
    ∃ pre r post, rows = pre ++ r :: post ∧ (∀ p ∈ pre, p.fields.id ≠ x)
      ∧ r.fields.id = x := by
  induction rows with
  | nil => simp at h
  | cons a rs ih =>
    by_cases ha : a.fields.id = x
    · exact ⟨[], a, rs, by simp, fun p hp => absurd hp (List.not_mem_nil p), ha⟩
    · obtain ⟨r, hr, hid⟩ := h
      simp only [List.mem_cons] at hr
      rcases hr with rfl | hr
      · exact absurd hid ha
      · obtain ⟨pre, r', post, heq, hpre, hid'⟩ := ih ⟨r, hr, hid⟩
        exact ⟨a :: pre, r', post, by simp [heq],
          fun p hp => by
            simp only [List.mem_cons] at hp
            rcases hp with rfl | hp
            · exact ha
            · exact hpre p hp, hid'⟩

/-- Characterization of one kind's classification pass: with distinct
desired ExternalIDs and distinct cached ExternalIDs, the cached table is
rewritten pointwise by `specClassify` and the unmatched list receives
exactly the bodies with no cached match, in desired order. -/
theorem classifyKind_char (k : Nat) :
    ∀ (fs : List Feature) (db : DB) (um : List Rec),
    (fs.map (fun g => g.id)).Nodup →
    ((db.getD k []).map (fun r => r.fields.id)).Nodup →
    classifyKind k fs (db, um)
      = (db.set k ((db.getD k []).map (specClassify (fs.map (fun g => (Feature.toRecord db g).fields)))),
         um ++ (specNew (fs.map (fun g => (Feature.toRecord db g).fields)) (db.getD k [])).map recOfBody) := by
  intro fs
  induction fs with
  | nil =>
    intro db um _ _
    have hmap : (db.getD k []).map (specClassify []) = db.getD k [] := by
      have : ∀ r ∈ db.getD k [], specClassify [] r = r := fun r _ => specClassify_nil r
      rw [List.map_congr_left this, List.map_id']
    show (db, um) = _
    rw [List.map_nil, hmap, specNew_nil, List.map_nil, List.append_nil, set_getD_self]
  | cons f fs ih =>
    intro db um hfs hrows
    rw [List.map_cons, List.nodup_cons] at hfs
    obtain ⟨hfnotin, hfs'⟩ := hfs
    have hfid : ∀ g ∈ fs, g.id ≠ f.id := by
      intro g hg he
      exact hfnotin (by rw [← he]; exact List.mem_map_of_mem _ hg)
    by_cases hmatch : ∃ r ∈ db.getD k [], r.fields.id = f.id
    · -- a cached record matches: the first one is rewritten in place
      obtain ⟨pre, r, post, hsplit, hpre, hid⟩ := exists_first_match f.id (db.getD k []) hmatch
      have hk : k < db.length := by
        by_contra hk
        have hnil : db.getD k [] = [] := by
          rw [List.getD_eq_getElem?_getD, List.getElem?_eq_none (by omega)]
          rfl
        rw [hnil] at hsplit
        exact absurd hsplit.symm (by simp)
      have hpost : ∀ q ∈ post, q.fields.id ≠ f.id := by
        have h1 : ((r :: post).map (fun r => r.fields.id)).Nodup := by
          have := hrows
          rw [hsplit, List.map_append] at this
          exact this.of_append_right
        rw [List.map_cons, List.nodup_cons] at h1
        intro q hq he
        exact h1.1 (by rw [hid, ← he]; exact List.mem_map_of_mem _ hq)
      have hbfid : (Feature.toRecord db f).fields.id = f.id := rfl
      have key : ∀ r' : Rec, r'.fields.id = r.fields.id → r'.internalID = r.internalID →
          classifyFeature k (db, um) f = (db.set k (pre ++ r' :: post), um) →
          specClassify ((f :: fs).map (fun g => (Feature.toRecord db g).fields)) r = r' →
          classifyKind k (f :: fs) (db, um)
            = (db.set k ((db.getD k []).map
                (specClassify ((f :: fs).map (fun g => (Feature.toRecord db g).fields)))),
               um ++ (specNew ((f :: fs).map (fun g => (Feature.toRecord db g).fields))
                 (db.getD k [])).map recOfBody) := by
        intro r' hr'id hr'iid hcf hspecr
        rw [classifyKind, List.foldl_cons, ← classifyKind, hcf]
        have hdb'k : (db.set k (pre ++ r' :: post)).getD k [] = pre ++ r' :: post :=
          getD_set_self _ _ _ _ hk
        have hkeys : ∀ j, tableKey ((db.set k (pre ++ r' :: post)).getD j [])
            = tableKey (db.getD j []) := by
          intro j
          by_cases hj : k = j
          · subst hj
            rw [hdb'k, hsplit]
            unfold tableKey
            rw [List.map_append, List.map_append, List.map_cons, List.map_cons, hr'id, hr'iid]
          · rw [getD_set_ne _ _ _ _ _ hj]
        have hids' : ((db.set k (pre ++ r' :: post)).getD k []).map (fun a => a.fields.id)
            = (db.getD k []).map (fun a => a.fields.id) := by
          rw [hdb'k, hsplit, List.map_append, List.map_append, List.map_cons, List.map_cons, hr'id]
        rw [ih (db.set k (pre ++ r' :: post)) um hfs' (by rw [hids']; exact hrows)]
        have hbs : fs.map (fun g => (Feature.toRecord (db.set k (pre ++ r' :: post)) g).fields)
            = fs.map (fun g => (Feature.toRecord db g).fields) := by
          apply List.map_congr_left
          intro g _
          rw [toRecord_congr db _ hkeys g]
        rw [hbs, hdb'k, List.set_set]
        have hbsid : ∀ b ∈ fs.map (fun g => (Feature.toRecord db g).fields), b.id ≠ f.id := by
          intro b hb
          obtain ⟨g, hg, rfl⟩ := List.mem_map.mp hb
          exact hfid g hg
        have hmain : (pre ++ r' :: post).map
              (specClassify (fs.map (fun g => (Feature.toRecord db g).fields)))
            = (db.getD k []).map
              (specClassify ((f :: fs).map (fun g => (Feature.toRecord db g).fields))) := by
          rw [hsplit]
          simp only [List.map_append, List.map_cons]
          congr 1
          · apply List.map_congr_left
            intro p hp
            rw [specClassify_cons_ne _ _ _
              (by rw [hbfid]; exact fun he => hpre p hp he.symm)]
          · congr 1
            · refine (specClassify_not_found _ _ ?_).trans hspecr.symm
              intro b hb
              rw [hr'id, hid]
              exact hbsid b hb
            · apply List.map_congr_left
              intro q hq
              rw [specClassify_cons_ne _ _ _
                (by rw [hbfid]; exact fun he => hpost q hq he.symm)]
        rw [hmain]
        have hnew2 : specNew (fs.map (fun g => (Feature.toRecord db g).fields)) (pre ++ r' :: post)
            = specNew ((f :: fs).map (fun g => (Feature.toRecord db g).fields)) (db.getD k []) := by
          have hstep : specNew (fs.map (fun g => (Feature.toRecord db g).fields)) (pre ++ r' :: post)
              = specNew (fs.map (fun g => (Feature.toRecord db g).fields)) (db.getD k []) := by
            apply specNew_congr_ids
            rw [← hids', hdb'k]
          rw [hstep, List.map_cons, specNew_cons_skip]
          exact ⟨r, by rw [hsplit]; exact List.mem_append_right pre (List.mem_cons_self r post),
            by rw [hbfid]; exact hid⟩
        rw [hnew2]
      by_cases heq : r.fields = (Feature.toRecord db f).fields
      · refine key { r with state := RecState.unchanged } rfl rfl ?_ ?_
        · have hscan : classifyScan (Feature.toRecord db f).fields (db.getD k [])
              = some (pre ++ { r with state := RecState.unchanged } :: post) := by
            rw [hsplit]
            exact classifyScan_match_eq _ _ _ _ (fun p hp => by rw [hbfid]; exact hpre p hp)
              (by rw [hbfid]; exact hid) heq
          simp only [classifyFeature, hscan]
        · unfold specClassify
          rw [List.map_cons, List.find?_cons_of_pos _ (by simp [hbfid, hid])]
          exact if_pos heq
      · refine key { r with fields := (Feature.toRecord db f).fields, state := RecState.changed }
          (by rw [hbfid]; exact hid.symm) rfl ?_ ?_
        · have hscan : classifyScan (Feature.toRecord db f).fields (db.getD k [])
              = some (pre ++ { r with fields := (Feature.toRecord db f).fields, state := RecState.changed } :: post) := by
            rw [hsplit]
            exact classifyScan_match_ne _ _ _ _ (fun p hp => by rw [hbfid]; exact hpre p hp)
              (by rw [hbfid]; exact hid) heq
          simp only [classifyFeature, hscan]
        · unfold specClassify
          rw [List.map_cons, List.find?_cons_of_pos _ (by simp [hbfid, hid])]
          exact if_neg heq
    · -- no cached record matches: the body goes to the unmatched list
      have hno : ∀ r ∈ db.getD k [], r.fields.id ≠ f.id := by
        intro r hr he
        exact hmatch ⟨r, hr, he⟩
      have hcf : classifyFeature k (db, um) f = (db, um ++ [Feature.toRecord db f]) := by
        have hscan : classifyScan (Feature.toRecord db f).fields (db.getD k []) = none :=
          classifyScan_eq_none _ _ hno
        simp only [classifyFeature, hscan]
      rw [classifyKind, List.foldl_cons, ← classifyKind, hcf,
        ih db (um ++ [Feature.toRecord db f]) hfs' hrows]
      have hmapeq : (db.getD k []).map (specClassify (fs.map (fun g => (Feature.toRecord db g).fields)))
          = (db.getD k []).map (specClassify ((f :: fs).map (fun g => (Feature.toRecord db g).fields))) := by
        apply List.map_congr_left
        intro r hr
        rw [List.map_cons, specClassify_cons_ne _ _ _ (fun he => hno r hr he.symm)]
      have hnew : specNew ((f :: fs).map (fun g => (Feature.toRecord db g).fields)) (db.getD k [])
          = (Feature.toRecord db f).fields
            :: specNew (fs.map (fun g => (Feature.toRecord db g).fields)) (db.getD k []) := by
        rw [List.map_cons]
        exact specNew_cons_keep _ _ _ hno
      rw [hmapeq, hnew, List.map_cons]
      simp only [List.append_assoc, List.singleton_append, List.nil_append]
      rfl

/-- One step of the classification fold over kinds (the lambda of
`classifyAll`). -/
def classifyStep (st : DB × List (List Rec)) (p : Nat × List Feature) : DB × List (List Rec) :=
  let r := classifyKind p.1 p.2 (st.1, [])
  (r.1, st.2 ++ [r.2])

theorem classifyAll_eq_foldl (db : DB) (features : List (List Feature)) :
    classifyAll db features = (features.enumFrom 0).foldl classifyStep (db, []) := rfl

theorem specClassify_key (bs : List Fields) (r : Rec) :
    (specClassify bs r).fields.id = r.fields.id
      ∧ (specClassify bs r).internalID = r.internalID := by
  cases hfind : bs.find? (fun b => b.id == r.fields.id) with
  | none =>
    have hval : specClassify bs r = r := by
      unfold specClassify
      rw [hfind]
    rw [hval]
    exact ⟨rfl, rfl⟩
  | some b =>
    have hb : b.id = r.fields.id := by simpa using List.find?_some hfind
    have hval : specClassify bs r
        = if r.fields = b then { r with state := RecState.unchanged }
          else { r with fields := b, state := RecState.changed } := by
      unfold specClassify
      rw [hfind]
    rw [hval]
    by_cases heq : r.fields = b
    · rw [if_pos heq]
      exact ⟨rfl, rfl⟩
    · rw [if_neg heq]
      exact ⟨hb, rfl⟩

theorem tableKey_map_specClassify (bs : List Fields) (rows : List Rec) :
    tableKey (rows.map (specClassify bs)) = tableKey rows := by
  unfold tableKey
  rw [List.map_map]
  apply List.map_congr_left
  intro r _
  have h := specClassify_key bs r
  show ((specClassify bs r).fields.id, (specClassify bs r).internalID) = _
  rw [h.1, h.2]

theorem ids_map_specClassify (bs : List Fields) (rows : List Rec) :
    (rows.map (specClassify bs)).map (fun r => r.fields.id)
      = rows.map (fun r => r.fields.id) := by
  rw [List.map_map]
  apply List.map_congr_left
  intro r _
  exact (specClassify_key bs r).1

/-- Characterization of the full classification pass, fold form. -/
theorem classifyAll_aux_char (db₀ : DB)
    (hdb : ∀ j, ((db₀.getD j []).map (fun r => r.fields.id)).Nodup) :
    ∀ (l : List (List Feature)) (i : Nat) (dbc : DB) (acc : List (List Rec)),
    (∀ j, tableKey (dbc.getD j []) = tableKey (db₀.getD j [])) →
    (∀ j, i ≤ j → dbc.getD j [] = db₀.getD j []) →
    (∀ fs ∈ l, (fs.map (fun g => g.id)).Nodup) →
    (∀ j, j < i → ((l.enumFrom i).foldl classifyStep (dbc, acc)).1.getD j [] = dbc.getD j [])
    ∧ (∀ m, m < l.length →
        ((l.enumFrom i).foldl classifyStep (dbc, acc)).1.getD (i + m) []
          = (db₀.getD (i + m) []).map
              (specClassify ((l.getD m []).map (fun g => (Feature.toRecord db₀ g).fields))))
    ∧ (∀ j, i + l.length ≤ j →
        ((l.enumFrom i).foldl classifyStep (dbc, acc)).1.getD j [] = db₀.getD j [])
    ∧ (((l.enumFrom i).foldl classifyStep (dbc, acc)).2
        = acc ++ (l.enumFrom i).map (fun p =>
            (specNew (p.2.map (fun g => (Feature.toRecord db₀ g).fields)) (db₀.getD p.1 [])).map recOfBody)) := by
  intro l
  induction l with
  | nil =>
    intro i dbc acc hkeys hup _
    refine ⟨fun j _ => rfl, fun m hm => absurd hm (by simp), fun j hj => ?_, by simp⟩
    exact hup j (by omega)
  | cons fs l ih =>
    intro i dbc acc hkeys hup hnodup
    have hfs : (fs.map (fun g => g.id)).Nodup := hnodup fs (by simp)
    have hrows : ((dbc.getD i []).map (fun r => r.fields.id)).Nodup := by
      rw [hup i (le_refl i)]
      exact hdb i
    have hchar := classifyKind_char i fs dbc [] hfs hrows
    have hbodies : fs.map (fun g => (Feature.toRecord dbc g).fields)
        = fs.map (fun g => (Feature.toRecord db₀ g).fields) := by
      apply List.map_congr_left
      intro g _
      rw [toRecord_congr db₀ dbc hkeys g]
    have hstep : classifyStep (dbc, acc) (i, fs)
        = (dbc.set i ((db₀.getD i []).map
            (specClassify (fs.map (fun g => (Feature.toRecord db₀ g).fields)))),
           acc ++ [(specNew (fs.map (fun g => (Feature.toRecord db₀ g).fields)) (db₀.getD i [])).map recOfBody]) := by
      show (let r := classifyKind i fs (dbc, []); ((r.1, acc ++ [r.2]) : DB × List (List Rec))) = _
      rw [hchar]
      rw [hbodies, hup i (le_refl i)]
      rfl
    set dbc' := dbc.set i ((db₀.getD i []).map
      (specClassify (fs.map (fun g => (Feature.toRecord db₀ g).fields)))) with hdbc'
    have hgetd' : ∀ j, j ≠ i → dbc'.getD j [] = dbc.getD j [] := by
      intro j hj
      exact getD_set_ne _ _ _ _ _ (fun he => hj he.symm)
    have hgetdi : dbc'.getD i [] = (db₀.getD i []).map
        (specClassify (fs.map (fun g => (Feature.toRecord db₀ g).fields))) := by
      by_cases hlen : i < dbc.length
      · exact getD_set_self _ _ _ _ hlen
      · have h0 : dbc.getD i [] = [] := by
          rw [List.getD_eq_getElem?_getD, List.getElem?_eq_none (by omega)]
          rfl
        have h0' : db₀.getD i [] = [] := by rw [← hup i (le_refl i)]; exact h0
        rw [hdbc', List.set_eq_of_length_le (by omega), h0, h0']
        rfl
    have hkeys' : ∀ j, tableKey (dbc'.getD j []) = tableKey (db₀.getD j []) := by
      intro j
      by_cases hj : j = i
      · subst hj
        rw [hgetdi, tableKey_map_specClassify]
      · rw [hgetd' j hj]
        exact hkeys j
    have hup' : ∀ j, i + 1 ≤ j → dbc'.getD j [] = db₀.getD j [] := by
      intro j hj
      rw [hgetd' j (by omega)]
      exact hup j (by omega)
    have hnodup' : ∀ gs ∈ l, (gs.map (fun g => g.id)).Nodup :=
      fun gs hgs => hnodup gs (by simp [hgs])
    obtain ⟨ih1, ih2, ih3, ih4⟩ :=
      ih (i + 1) dbc' (acc ++ [(specNew (fs.map (fun g => (Feature.toRecord db₀ g).fields)) (db₀.getD i [])).map recOfBody])
        hkeys' hup' hnodup'
    rw [List.enumFrom_cons, List.foldl_cons, hstep]
    refine ⟨?_, ?_, ?_, ?_⟩
    · intro j hj
      rw [ih1 j (by omega)]
      exact hgetd' j (by omega)
    · intro m hm
      cases m with
      | zero =>
        simp only [Nat.add_zero]
        rw [ih1 i (by omega), hgetdi]
        rfl
      | succ m' =>
        have := ih2 m' (by simpa using hm)
        rw [show i + (m' + 1) = i + 1 + m' from by omega, this]
        rfl
    · intro j hj
      exact ih3 j (by simp at hj ⊢; omega)
    · rw [ih4, List.map_cons]
      simp only [List.append_assoc, List.singleton_append]

/-! Closed forms for the apply pass. -/

/-- The rows a successful create loop appends to the remote table,
numbered from `nid`. -/
def createdRows (nid : Nat) : List Rec → List Row
  | [] => []
  | r :: rs => { internalID := nid, fields := r.fields } :: createdRows (nid + 1) rs

/-- The cache records a successful create loop appends, in state `new`. -/
def createdRecs (nid : Nat) : List Rec → List Rec
  | [] => []
  | r :: rs => { r with internalID := nid, state := RecState.new } :: createdRecs (nid + 1) rs

/-- The create calls a successful create loop issues. -/
def createCalls (k nid : Nat) : List Rec → List Call
  | [] => []
  | r :: rs => Call.create k r.fields.id nid :: createCalls k (nid + 1) rs

theorem set_snoc_set (tables : List (List Row)) (k : Nat) (a : Row) (Z : List Row) :
    (tables.set k ((tables.getD k []) ++ [a])).set k
        (((tables.set k ((tables.getD k []) ++ [a])).getD k []) ++ Z)
      = tables.set k ((tables.getD k []) ++ a :: Z) := by
  by_cases hk : k < tables.length
  · rw [getD_set_self _ _ _ _ hk, List.set_set, List.append_assoc, List.singleton_append]
  · have h1 : tables.set k ((tables.getD k []) ++ [a]) = tables := List.set_eq_of_length_le (by omega)
    rw [h1, List.set_eq_of_length_le (by omega), List.set_eq_of_length_le (by omega)]

/-- Characterization of the create loop when every create succeeds. -/
theorem applyCreates_success (cf : String → Bool) (k : Nat) :
    ∀ (um ct : List Rec) (remote : Remote), (∀ r ∈ um, cf r.fields.id = false) →
    applyCreates cf k um ct remote
      = (createCalls k remote.nextID um,
         { tables := remote.tables.set k ((remote.tables.getD k []) ++ createdRows remote.nextID um),
           nextID := remote.nextID + um.length },
         some (ct ++ createdRecs remote.nextID um)) := by
  intro um
  induction um with
  | nil =>
    intro ct remote _
    show ([], remote, some ct) = _
    rw [createdRows, createCalls, createdRecs, List.append_nil, List.append_nil, set_getD_self]
    rfl
  | cons r rs ih =>
    intro ct remote h
    have hr : cf r.fields.id = false := h r (by simp)
    show (if cf r.fields.id = true then _ else _) = _
    rw [hr]
    simp only [Bool.false_eq_true, if_false]
    have hih := ih (ct ++ [{ r with internalID := remote.nextID, state := RecState.new }])
      { tables := remote.tables.set k ((remote.tables.getD k []) ++ [{ internalID := remote.nextID, fields := r.fields }]),
        nextID := remote.nextID + 1 }
      (fun a ha => h a (by simp [ha]))
    rw [hih]
    refine congrArg₂ Prod.mk rfl (congrArg₂ Prod.mk ?_ ?_)
    · refine congrArg₂ Remote.mk ?_ ?_
      · exact set_snoc_set remote.tables k _ _
      · show remote.nextID + 1 + rs.length = remote.nextID + (rs.length + 1)
        omega
    · refine congrArg some ?_
      show (ct ++ [{ r with internalID := remote.nextID, state := RecState.new }])
          ++ createdRecs (remote.nextID + 1) rs = _
      rw [List.append_assoc, List.singleton_append]
      rfl

/-- Remove-by-internal-ID on a decomposed table. -/
theorem deleteRow_split (iid : Nat) (X Y : List Row) (w : Row)
    (hX : ∀ x ∈ X, x.internalID ≠ iid) (hw : w.internalID = iid)
    (hY : ∀ y ∈ Y, y.internalID ≠ iid) :
    deleteRow iid (X ++ w :: Y) = X ++ Y := by
  unfold deleteRow
  rw [List.filter_append, List.filter_cons_of_neg (by simp [hw]),
    List.filter_eq_self.mpr (fun x hx => by simpa using hX x hx),
    List.filter_eq_self.mpr (fun y hy => by simpa using hY y hy)]

/-- Update-by-internal-ID on a decomposed table. -/
theorem updateRow_split (iid : Nat) (flds : Fields) (X Y : List Row) (w : Row)
    (hX : ∀ x ∈ X, x.internalID ≠ iid) (hw : w.internalID = iid)
    (hY : ∀ y ∈ Y, y.internalID ≠ iid) :
    updateRow iid flds (X ++ w :: Y) = X ++ { w with fields := flds } :: Y := by
  unfold updateRow
  rw [List.map_append, List.map_cons, if_pos hw,
    List.map_congr_left (fun x hx => if_neg (hX x hx)),
    List.map_congr_left (fun y hy => if_neg (hY y hy)),
    List.map_id', List.map_id']

/-- The update/delete calls of one kind, read off the cached records. -/
def udCalls (k : Nat) : List Rec → List Call
  | [] => []
  | c :: cs =>
    match c.state with
    | RecState.unknown => Call.delete k c.internalID :: udCalls k cs
    | RecState.changed => Call.update k c.internalID :: udCalls k cs
    | RecState.unchanged => udCalls k cs
    | RecState.new => udCalls k cs

/-- The rows surviving the update/delete loop, paired cache record with
its remote row. -/
def udSurvivors : List (Rec × Row) → List Row
  | [] => []
  | (c, w) :: ps =>
    match c.state with
    | RecState.unknown => udSurvivors ps
    | RecState.changed => { w with fields := c.fields } :: udSurvivors ps
    | RecState.unchanged => w :: udSurvivors ps
    | RecState.new => w :: udSurvivors ps

/-- Characterization of the update/delete loop over a table decomposed as
an untouched prefix plus the rows paired with the cached records, all
internal IDs distinct. -/
theorem applyUD_char (k : Nat) :
    ∀ (ps : List (Rec × Row)) (X : List Row) (remote : Remote),
    remote.tables.getD k [] = X ++ ps.map Prod.snd →
    (∀ p ∈ ps, p.1.internalID = p.2.internalID) →
    (((X ++ ps.map Prod.snd).map (fun w => w.internalID)).Nodup) →
    applyUD k (ps.map Prod.fst) remote
      = (udCalls k (ps.map Prod.fst),
         { remote with tables := remote.tables.set k (X ++ udSurvivors ps) }) := by
  intro ps
  induction ps with
  | nil =>
    intro X remote htab _ _
    have htab' : remote.tables.getD k [] = X := by simpa using htab
    show ([], remote) = _
    rw [udSurvivors, List.append_nil, ← htab', set_getD_self]
    rfl
  | cons p ps ih =>
    obtain ⟨c, w⟩ := p
    obtain ⟨ciid, cflds, cst⟩ := c
    intro X remote htab hiid hnd
    have hcw : ciid = w.internalID := hiid (⟨ciid, cflds, cst⟩, w) (by simp)
    have hk : k < remote.tables.length := by
      by_contra hk
      have h0 : remote.tables.getD k [] = [] := by
        rw [List.getD_eq_getElem?_getD, List.getElem?_eq_none (by omega)]
        rfl
      rw [h0] at htab
      exact absurd htab.symm (by simp)
    have hnd' : ((X.map (fun v => v.internalID))
        ++ (w.internalID :: (ps.map Prod.snd).map (fun v => v.internalID))).Nodup := by
      have h := hnd
      rw [List.map_append, List.map_cons] at h
      exact h
    have hXw : ∀ x ∈ X, x.internalID ≠ w.internalID := by
      intro x hx he
      exact (List.nodup_append.mp hnd').2.2 (List.mem_map_of_mem _ hx)
        (by rw [he]; exact List.mem_cons_self _ _)
    have hYw : ∀ y ∈ ps.map Prod.snd, y.internalID ≠ w.internalID := by
      have h2 := (List.nodup_append.mp hnd').2.1
      rw [List.nodup_cons] at h2
      intro y hy he
      exact h2.1 (by rw [← he]; exact List.mem_map_of_mem _ hy)
    have hiid' : ∀ q ∈ ps, q.1.internalID = q.2.internalID :=
      fun q hq => hiid q (by simp [hq])
    cases cst with
    | unknown =>
      have hdel : deleteRow ciid (remote.tables.getD k []) = X ++ ps.map Prod.snd := by
        rw [htab]
        exact deleteRow_split ciid X _ w (fun x hx he => hXw x hx (he.trans hcw)) hcw.symm
          (fun y hy he => hYw y hy (he.trans hcw))
      have hih := ih X
        { remote with tables := remote.tables.set k (deleteRow ciid (remote.tables.getD k [])) }
        (by
          show (remote.tables.set k (deleteRow ciid (remote.tables.getD k []))).getD k [] = _
          rw [getD_set_self _ _ _ _ (by simpa using hk), hdel])
        hiid'
        (by
          have hsub : ((X ++ ps.map Prod.snd).map (fun v => v.internalID)).Sublist
              ((X ++ w :: ps.map Prod.snd).map (fun v => v.internalID)) :=
            ((List.sublist_cons_self w (ps.map Prod.snd)).append_left X).map _
          exact hsub.nodup hnd)
      show (Call.delete k ciid :: (applyUD k (ps.map Prod.fst) _).1,
        (applyUD k (ps.map Prod.fst) _).2) = _
      rw [hih]
      refine congrArg₂ Prod.mk rfl ?_
      show Remote.mk ((remote.tables.set k (deleteRow ciid (remote.tables.getD k []))).set k (X ++ udSurvivors ps)) _ = _
      rw [List.set_set]
      rfl
    | changed =>
      have hupd : updateRow ciid cflds (remote.tables.getD k [])
          = X ++ { w with fields := cflds } :: ps.map Prod.snd := by
        rw [htab]
        exact updateRow_split ciid cflds X _ w (fun x hx he => hXw x hx (he.trans hcw)) hcw.symm
          (fun y hy he => hYw y hy (he.trans hcw))
      have hassoc : (X ++ [({ w with fields := cflds } : Row)]) ++ ps.map Prod.snd
          = X ++ ({ w with fields := cflds } : Row) :: ps.map Prod.snd := by
        rw [List.append_assoc, List.singleton_append]
      have hnd2 : ((X ++ w :: ps.map Prod.snd).map (fun v => v.internalID)).Nodup := hnd
      have hih := ih (X ++ [{ w with fields := cflds }])
        { remote with tables := remote.tables.set k (updateRow ciid cflds (remote.tables.getD k [])) }
        (by
          show (remote.tables.set k (updateRow ciid cflds (remote.tables.getD k []))).getD k [] = _
          rw [getD_set_self _ _ _ _ (by simpa using hk), hupd, hassoc])
        hiid'
        (by
          rw [hassoc, List.map_append, List.map_cons]
          rw [List.map_append, List.map_cons] at hnd2
          exact hnd2)
      show (Call.update k ciid :: (applyUD k (ps.map Prod.fst) _).1,
        (applyUD k (ps.map Prod.fst) _).2) = _
      rw [hih]
      refine congrArg₂ Prod.mk rfl ?_
      show Remote.mk ((remote.tables.set k (updateRow ciid cflds (remote.tables.getD k []))).set k ((X ++ [{ w with fields := cflds }]) ++ udSurvivors ps)) _ = _
      rw [List.set_set, List.append_assoc, List.singleton_append]
      rfl
    | unchanged =>
      have hassoc : (X ++ [w]) ++ ps.map Prod.snd = X ++ w :: ps.map Prod.snd := by
        rw [List.append_assoc, List.singleton_append]
      have hih := ih (X ++ [w]) remote
        (by rw [htab, hassoc]; rfl)
        hiid'
        (by rw [hassoc]; exact hnd)
      show applyUD k (ps.map Prod.fst) remote = _
      rw [hih]
      refine congrArg₂ Prod.mk rfl ?_
      show Remote.mk (remote.tables.set k ((X ++ [w]) ++ udSurvivors ps)) _ = _
      rw [List.append_assoc, List.singleton_append]
      rfl
    | new =>
      have hassoc : (X ++ [w]) ++ ps.map Prod.snd = X ++ w :: ps.map Prod.snd := by
        rw [List.append_assoc, List.singleton_append]
      have hih := ih (X ++ [w]) remote
        (by rw [htab, hassoc]; rfl)
        hiid'
        (by rw [hassoc]; exact hnd)
      show applyUD k (ps.map Prod.fst) remote = _
      rw [hih]
      refine congrArg₂ Prod.mk rfl ?_
      show Remote.mk (remote.tables.set k ((X ++ [w]) ++ udSurvivors ps)) _ = _
      rw [List.append_assoc, List.singleton_append]
      rfl

/-! Model of one kind's full apply phase in terms of bodies and rows. -/

/-- A fetched remote row as a cached record in state `unknown`. -/
def rowToRec (w : Row) : Rec :=
  { internalID := w.internalID, fields := w.fields, state := RecState.unknown }

/-- The cache produced by a successful fetch of `n` kinds. -/
def fetchDB (remote : Remote) (n : Nat) : DB :=
  (List.range n).map (fun k => (remote.tables.getD k []).map rowToRec)

/-- Created rows for a list of new bodies, numbered from `nid`. -/
def createdRowsOf (nid : Nat) : List Fields → List Row
  | [] => []
  | b :: bs => { internalID := nid, fields := b } :: createdRowsOf (nid + 1) bs

/-- Created cache records for a list of new bodies. -/
def createdRecsOf (nid : Nat) : List Fields → List Rec
  | [] => []
  | b :: bs => { internalID := nid, fields := b, state := RecState.new } :: createdRecsOf (nid + 1) bs

/-- Create calls for a list of new bodies. -/
def createCallsOf (k nid : Nat) : List Fields → List Call
  | [] => []
  | b :: bs => Call.create k b.id nid :: createCallsOf k (nid + 1) bs

/-- What the update/delete loop leaves of one fetched row: deleted when no
body matches, otherwise carrying the matching body. -/
def specApplyRow (bs : List Fields) (w : Row) : Option Row :=
  match bs.find? (fun b => b.id == w.fields.id) with
  | none => none
  | some b => some { w with fields := b }

/-- The update/delete calls for the fetched rows of one kind. -/
def specUDCalls (k : Nat) (bs : List Fields) : List Row → List Call
  | [] => []
  | w :: ws =>
    match bs.find? (fun b => b.id == w.fields.id) with
    | none => Call.delete k w.internalID :: specUDCalls k bs ws
    | some b =>
      if w.fields = b then specUDCalls k bs ws
      else Call.update k w.internalID :: specUDCalls k bs ws

theorem createdRows_map_recOfBody (nid : Nat) :
    ∀ bs : List Fields, createdRows nid (bs.map recOfBody) = createdRowsOf nid bs := by
  intro bs
  induction bs generalizing nid with
  | nil => rfl
  | cons b bs ih =>
    simp only [List.map_cons, createdRows, createdRowsOf, ih]
    rfl

theorem createdRecs_map_recOfBody (nid : Nat) :
    ∀ bs : List Fields, createdRecs nid (bs.map recOfBody) = createdRecsOf nid bs := by
  intro bs
  induction bs generalizing nid with
  | nil => rfl
  | cons b bs ih =>
    simp only [List.map_cons, createdRecs, createdRecsOf, ih]
    rfl

theorem createCalls_map_recOfBody (k nid : Nat) :
    ∀ bs : List Fields, createCalls k nid (bs.map recOfBody) = createCallsOf k nid bs := by
  intro bs
  induction bs generalizing nid with
  | nil => rfl
  | cons b bs ih =>
    simp only [List.map_cons, createCalls, createCallsOf, ih]
    rfl

theorem udCalls_append (k : Nat) :
    ∀ cs ds : List Rec, udCalls k (cs ++ ds) = udCalls k cs ++ udCalls k ds := by
  intro cs ds
  induction cs with
  | nil => rfl
  | cons c cs ih =>
    show udCalls k (c :: (cs ++ ds)) = _
    cases hc : c.state <;> simp only [udCalls, hc, ih, List.cons_append]

theorem udSurvivors_append :
    ∀ ps qs : List (Rec × Row), udSurvivors (ps ++ qs) = udSurvivors ps ++ udSurvivors qs := by
  intro ps qs
  induction ps with
  | nil => rfl
  | cons p ps ih =>
    obtain ⟨c, w⟩ := p
    show udSurvivors ((c, w) :: (ps ++ qs)) = _
    cases hc : c.state <;> simp only [udSurvivors, hc, ih, List.cons_append]

theorem udSurvivors_created (nid : Nat) :
    ∀ bs : List Fields, udSurvivors ((createdRecsOf nid bs).zip (createdRowsOf nid bs))
      = createdRowsOf nid bs := by
  intro bs
  induction bs generalizing nid with
  | nil => rfl
  | cons b bs ih =>
    show udSurvivors (({ internalID := nid, fields := b, state := RecState.new },
        { internalID := nid, fields := b }) :: (createdRecsOf (nid + 1) bs).zip (createdRowsOf (nid + 1) bs)) = _
    rw [udSurvivors]
    rw [ih (nid + 1)]
    rfl

theorem udCalls_created (k nid : Nat) :
    ∀ bs : List Fields, udCalls k (createdRecsOf nid bs) = [] := by
  intro bs
  induction bs generalizing nid with
  | nil => rfl
  | cons b bs ih =>
    show udCalls k ({ internalID := nid, fields := b, state := RecState.new } :: createdRecsOf (nid + 1) bs) = []
    rw [udCalls]
    exact ih (nid + 1)

theorem udSurvivors_classified (bs : List Fields) :
    ∀ T : List Row, udSurvivors (((T.map rowToRec).map (specClassify bs)).zip T)
      = T.filterMap (specApplyRow bs) := by
  intro T
  induction T with
  | nil => rfl
  | cons w ws ih =>
    rw [List.map_cons, List.map_cons, List.zip_cons_cons, List.filterMap_cons]
    cases hfind : bs.find? (fun b => b.id == w.fields.id) with
    | none =>
      have hc : specClassify bs (rowToRec w) = rowToRec w := by
        unfold specClassify
        rw [show (rowToRec w).fields.id = w.fields.id from rfl, hfind]
      have happ : specApplyRow bs w = none := by
        unfold specApplyRow
        rw [hfind]
      rw [hc, happ]
      show udSurvivors (((ws.map rowToRec).map (specClassify bs)).zip ws) = _
      rw [ih]
    | some b =>
      have hval : specClassify bs (rowToRec w)
          = if (rowToRec w).fields = b then { rowToRec w with state := RecState.unchanged }
            else { rowToRec w with fields := b, state := RecState.changed } := by
        unfold specClassify
        rw [show (rowToRec w).fields.id = w.fields.id from rfl, hfind]
      by_cases heq : w.fields = b
      · have hc : specClassify bs (rowToRec w) = { rowToRec w with state := RecState.unchanged } := by
          rw [hval, if_pos (show (rowToRec w).fields = b from heq)]
        have happ : specApplyRow bs w = some { w with fields := b } := by
          unfold specApplyRow
          rw [hfind]
        rw [hc, happ]
        show w :: udSurvivors (((ws.map rowToRec).map (specClassify bs)).zip ws) = _
        rw [ih]
        show w :: ws.filterMap (specApplyRow bs)
          = { internalID := w.internalID, fields := b } :: ws.filterMap (specApplyRow bs)
        rw [← heq]
      · have hc : specClassify bs (rowToRec w)
            = { rowToRec w with fields := b, state := RecState.changed } := by
          rw [hval, if_neg (show ¬ (rowToRec w).fields = b from heq)]
        have happ : specApplyRow bs w = some { w with fields := b } := by
          unfold specApplyRow
          rw [hfind]
        rw [hc, happ]
        show ({ internalID := w.internalID, fields := b } : Row)
            :: udSurvivors (((ws.map rowToRec).map (specClassify bs)).zip ws) = _
        rw [ih]

theorem udCalls_classified (k : Nat) (bs : List Fields) :
    ∀ T : List Row, udCalls k ((T.map rowToRec).map (specClassify bs)) = specUDCalls k bs T := by
  intro T
  induction T with
  | nil => rfl
  | cons w ws ih =>
    rw [List.map_cons, List.map_cons]
    cases hfind : bs.find? (fun b => b.id == w.fields.id) with
    | none =>
      have hc : specClassify bs (rowToRec w) = rowToRec w := by
        unfold specClassify
        rw [show (rowToRec w).fields.id = w.fields.id from rfl, hfind]
      have hud : specUDCalls k bs (w :: ws) = Call.delete k w.internalID :: specUDCalls k bs ws := by
        rw [specUDCalls, hfind]
      rw [hc, hud]
      show Call.delete k (rowToRec w).internalID :: udCalls k ((ws.map rowToRec).map (specClassify bs)) = _
      rw [ih]
      rfl
    | some b =>
      have hval : specClassify bs (rowToRec w)
          = if (rowToRec w).fields = b then { rowToRec w with state := RecState.unchanged }
            else { rowToRec w with fields := b, state := RecState.changed } := by
        unfold specClassify
        rw [show (rowToRec w).fields.id = w.fields.id from rfl, hfind]
      by_cases heq : w.fields = b
      · have hc : specClassify bs (rowToRec w) = { rowToRec w with state := RecState.unchanged } := by
          rw [hval, if_pos (show (rowToRec w).fields = b from heq)]
        have hud : specUDCalls k bs (w :: ws) = specUDCalls k bs ws := by
          rw [specUDCalls, hfind]
          show (if w.fields = b then specUDCalls k bs ws
            else Call.update k w.internalID :: specUDCalls k bs ws) = _
          rw [if_pos heq]
        rw [hc, hud]
        show udCalls k ((ws.map rowToRec).map (specClassify bs)) = _
        rw [ih]
      · have hc : specClassify bs (rowToRec w)
            = { rowToRec w with fields := b, state := RecState.changed } := by
          rw [hval, if_neg (show ¬ (rowToRec w).fields = b from heq)]
        have hud : specUDCalls k bs (w :: ws) = Call.update k w.internalID :: specUDCalls k bs ws := by
          rw [specUDCalls, hfind]
          show (if w.fields = b then specUDCalls k bs ws
            else Call.update k w.internalID :: specUDCalls k bs ws) = _
          rw [if_neg heq]
        rw [hc, hud]
        show Call.update k (rowToRec w).internalID :: udCalls k ((ws.map rowToRec).map (specClassify bs)) = _
        rw [ih]
        rfl

theorem createdRowsOf_length (nid : Nat) :
    ∀ bs : List Fields, (createdRowsOf nid bs).length = bs.length := by
  intro bs
  induction bs generalizing nid with
  | nil => rfl
  | cons b bs ih => simp [createdRowsOf, ih]

theorem createdRecsOf_length (nid : Nat) :
    ∀ bs : List Fields, (createdRecsOf nid bs).length = bs.length := by
  intro bs
  induction bs generalizing nid with
  | nil => rfl
  | cons b bs ih => simp [createdRecsOf, ih]

theorem createdRowsOf_iid_bound (bs : List Fields) :
    ∀ (nid : Nat) (w : Row), w ∈ createdRowsOf nid bs →
      nid ≤ w.internalID ∧ w.internalID < nid + bs.length := by
  induction bs with
  | nil => intro nid w hw; simp [createdRowsOf] at hw
  | cons b bs ih =>
    intro nid w hw
    rw [createdRowsOf, List.mem_cons] at hw
    rcases hw with rfl | hw
    · refine ⟨le_of_eq rfl, ?_⟩
      show nid < nid + (bs.length + 1)
      omega
    · have h2 := ih (nid + 1) w hw
      refine ⟨by omega, ?_⟩
      show w.internalID < nid + (bs.length + 1)
      omega

theorem createdRowsOf_iids_nodup (bs : List Fields) :
    ∀ nid : Nat, ((createdRowsOf nid bs).map (fun w => w.internalID)).Nodup := by
  induction bs with
  | nil => intro nid; exact List.Pairwise.nil
  | cons b bs ih =>
    intro nid
    rw [createdRowsOf, List.map_cons, List.nodup_cons]
    refine ⟨?_, ih (nid + 1)⟩
    intro hmem
    obtain ⟨w, hw, hwid⟩ := List.mem_map.mp hmem
    have hwid' : w.internalID = nid := hwid
    have := (createdRowsOf_iid_bound bs (nid + 1) w hw).1
    omega

theorem zip_classified_iid (bs : List Fields) :
    ∀ T : List Row, ∀ p ∈ (((T.map rowToRec).map (specClassify bs)).zip T),
      p.1.internalID = p.2.internalID := by
  intro T
  induction T with
  | nil => intro p hp; simp at hp
  | cons w ws ih =>
    intro p hp
    rw [List.map_cons, List.map_cons, List.zip_cons_cons, List.mem_cons] at hp
    rcases hp with rfl | hp
    · exact (specClassify_key bs (rowToRec w)).2
    · exact ih p hp

theorem zip_created_iid (bs : List Fields) :
    ∀ nid : Nat, ∀ p ∈ ((createdRecsOf nid bs).zip (createdRowsOf nid bs)),
      p.1.internalID = p.2.internalID := by
  induction bs with
  | nil => intro nid p hp; simp [createdRecsOf, createdRowsOf] at hp
  | cons b bs ih =>
    intro nid p hp
    rw [createdRecsOf, createdRowsOf, List.zip_cons_cons, List.mem_cons] at hp
    rcases hp with rfl | hp
    · rfl
    · exact ih (nid + 1) p hp

/-- Characterization of one kind's apply phase on the classified cache
table and the kind's unmatched bodies, all creates succeeding. -/
theorem applyKind_char (cf : String → Bool) (hcf : ∀ s, cf s = false) (k : Nat)
    (bs : List Fields) (remote : Remote)
    (hk : k < remote.tables.length)
    (hnd : ((remote.tables.getD k []).map (fun w => w.internalID)).Nodup)
    (hlt : ∀ w ∈ remote.tables.getD k [], w.internalID < remote.nextID) :
    applyKind cf k ((specNew bs ((remote.tables.getD k []).map rowToRec)).map recOfBody)
        (((remote.tables.getD k []).map rowToRec).map (specClassify bs)) remote
      = (createCallsOf k remote.nextID (specNew bs ((remote.tables.getD k []).map rowToRec))
           ++ specUDCalls k bs (remote.tables.getD k []),
         { tables := remote.tables.set k
             ((remote.tables.getD k []).filterMap (specApplyRow bs)
               ++ createdRowsOf remote.nextID (specNew bs ((remote.tables.getD k []).map rowToRec))),
           nextID := remote.nextID + (specNew bs ((remote.tables.getD k []).map rowToRec)).length },
         some ((((remote.tables.getD k []).map rowToRec).map (specClassify bs))
           ++ createdRecsOf remote.nextID (specNew bs ((remote.tables.getD k []).map rowToRec)))) := by
  have hcreate := applyCreates_success cf k
    ((specNew bs ((remote.tables.getD k []).map rowToRec)).map recOfBody)
    (((remote.tables.getD k []).map rowToRec).map (specClassify bs)) remote
    (fun r _ => hcf r.fields.id)
  rw [createdRows_map_recOfBody, createdRecs_map_recOfBody, createCalls_map_recOfBody] at hcreate
  have hudc := applyUD_char k
    (((((remote.tables.getD k []).map rowToRec).map (specClassify bs))
        ++ createdRecsOf remote.nextID (specNew bs ((remote.tables.getD k []).map rowToRec))).zip
      ((remote.tables.getD k []) ++ createdRowsOf remote.nextID (specNew bs ((remote.tables.getD k []).map rowToRec))))
    []
    { tables := remote.tables.set k
        ((remote.tables.getD k []) ++ createdRowsOf remote.nextID (specNew bs ((remote.tables.getD k []).map rowToRec))),
      nextID := remote.nextID + ((specNew bs ((remote.tables.getD k []).map rowToRec)).map recOfBody).length }
    ?_ ?_ ?_
  · have hlen : ((((remote.tables.getD k []).map rowToRec).map (specClassify bs))
        ++ createdRecsOf remote.nextID (specNew bs ((remote.tables.getD k []).map rowToRec))).length
        = ((remote.tables.getD k []) ++ createdRowsOf remote.nextID (specNew bs ((remote.tables.getD k []).map rowToRec))).length := by
      simp [createdRecsOf_length, createdRowsOf_length]
    have hfst := List.map_fst_zip
      ((((remote.tables.getD k []).map rowToRec).map (specClassify bs))
        ++ createdRecsOf remote.nextID (specNew bs ((remote.tables.getD k []).map rowToRec)))
      ((remote.tables.getD k []) ++ createdRowsOf remote.nextID (specNew bs ((remote.tables.getD k []).map rowToRec)))
      (by omega)
    rw [hfst] at hudc
    have hzip : ((((remote.tables.getD k []).map rowToRec).map (specClassify bs))
          ++ createdRecsOf remote.nextID (specNew bs ((remote.tables.getD k []).map rowToRec))).zip
        ((remote.tables.getD k []) ++ createdRowsOf remote.nextID (specNew bs ((remote.tables.getD k []).map rowToRec)))
        = ((((remote.tables.getD k []).map rowToRec).map (specClassify bs)).zip (remote.tables.getD k []))
          ++ ((createdRecsOf remote.nextID (specNew bs ((remote.tables.getD k []).map rowToRec))).zip
            (createdRowsOf remote.nextID (specNew bs ((remote.tables.getD k []).map rowToRec)))) :=
      List.zip_append (by simp)
    show applyKind cf k _ _ remote = _
    rw [applyKind, hcreate]
    show ((createCallsOf k remote.nextID (specNew bs ((remote.tables.getD k []).map rowToRec))) ++ _, _, _) = _
    rw [hudc]
    refine congrArg₂ Prod.mk ?_ (congrArg₂ Prod.mk ?_ rfl)
    · rw [hzip, udCalls_append, udCalls_classified, udCalls_created, List.append_nil]
    · rw [hzip, udSurvivors_append, udSurvivors_classified, udSurvivors_created, List.nil_append]
      show Remote.mk ((remote.tables.set k _).set k _) _ = _
      rw [List.set_set]
      refine congrArg₂ Remote.mk rfl ?_
      simp
  · show (remote.tables.set k _).getD k [] = [] ++ _
    rw [getD_set_self _ _ _ _ (by simpa using hk), List.nil_append,
      List.map_snd_zip _ _ (by simp [createdRecsOf_length, createdRowsOf_length])]
  · intro p hp
    rw [List.zip_append (by simp), List.mem_append] at hp
    rcases hp with hp | hp
    · exact zip_classified_iid bs _ p hp
    · exact zip_created_iid _ _ p hp
  · rw [List.map_snd_zip _ _ (by simp [createdRecsOf_length, createdRowsOf_length]), List.nil_append,
      List.map_append]
    rw [List.nodup_append]
    refine ⟨hnd, createdRowsOf_iids_nodup _ _, ?_⟩
    intro a ha hb
    obtain ⟨w, hw, rfl⟩ := List.mem_map.mp ha
    obtain ⟨v, hv, hvw⟩ := List.mem_map.mp hb
    have h1 := hlt w hw
    have h2 := (createdRowsOf_iid_bound _ _ v hv).1
    omega

/-- Model of the whole apply loop over a list of kinds: per kind, the
create calls and rows for the new bodies, the update/delete calls, the
surviving rows, and the extended cache table. -/
def applyKindsModel (bodies : Nat → List Fields) : List Nat → DB → Remote → List Call × Remote × DB
  | [], db, remote => ([], remote, db)
  | k :: ks, db, remote =>
    let T := remote.tables.getD k []
    let bs := bodies k
    let nb := specNew bs (T.map rowToRec)
    let rest := applyKindsModel bodies ks
      (db.set k ((T.map rowToRec).map (specClassify bs) ++ createdRecsOf remote.nextID nb))
      { tables := remote.tables.set k (T.filterMap (specApplyRow bs) ++ createdRowsOf remote.nextID nb),
        nextID := remote.nextID + nb.length }
    (createCallsOf k remote.nextID nb ++ specUDCalls k bs T ++ rest.1, rest.2)

/-- The apply loop equals its model when every create succeeds, kinds are
distinct and in range, the cache and unmatched lists are classification
results over the current remote tables, and the internal IDs are distinct
and below the next fresh ID. -/
theorem applyKinds_eq_model (cf : String → Bool) (hcf : ∀ s, cf s = false)
    (bodies : Nat → List Fields) (um : List (List Rec)) :
    ∀ (ks : List Nat) (db : DB) (remote : Remote),
    ks.Nodup →
    (∀ k ∈ ks, k < remote.tables.length) →
    (∀ k ∈ ks, db.getD k [] = ((remote.tables.getD k []).map rowToRec).map (specClassify (bodies k))) →
    (∀ k ∈ ks, um.getD k [] = (specNew (bodies k) ((remote.tables.getD k []).map rowToRec)).map recOfBody) →
    (∀ k ∈ ks, ((remote.tables.getD k []).map (fun w => w.internalID)).Nodup) →
    (∀ k ∈ ks, ∀ w ∈ remote.tables.getD k [], w.internalID < remote.nextID) →
    applyKinds cf um ks db remote
      = ((applyKindsModel bodies ks db remote).1,
         (applyKindsModel bodies ks db remote).2.1,
         some (applyKindsModel bodies ks db remote).2.2) := by
  intro ks
  induction ks with
  | nil => intro db remote _ _ _ _ _ _; rfl
  | cons k ks ih =>
    intro db remote hksnd hrange hdb hum hnd hlt
    rw [List.nodup_cons] at hksnd
    have hkmem : ∀ P : Nat → Prop, (∀ j ∈ k :: ks, P j) → P k ∧ ∀ j ∈ ks, P j :=
      fun P h => ⟨h k (by simp), fun j hj => h j (by simp [hj])⟩
    have hchar := applyKind_char cf hcf k (bodies k) remote
      (hrange k (by simp)) (hnd k (by simp)) (hlt k (by simp))
    show (match applyKind cf k (um.getD k []) (db.getD k []) remote with
      | (calls, remote', none) => (calls, remote', none)
      | (calls, remote', some ct') =>
        let rest := applyKinds cf um ks (db.set k ct') remote'
        (calls ++ rest.1, rest.2)) = _
    rw [hdb k (by simp), hum k (by simp), hchar]
    show (createCallsOf k remote.nextID (specNew (bodies k) ((remote.tables.getD k []).map rowToRec))
        ++ specUDCalls k (bodies k) (remote.tables.getD k [])
        ++ (applyKinds cf um ks _ _).1, (applyKinds cf um ks _ _).2) = _
    have hrest := ih
      (db.set k (((remote.tables.getD k []).map rowToRec).map (specClassify (bodies k))
        ++ createdRecsOf remote.nextID (specNew (bodies k) ((remote.tables.getD k []).map rowToRec))))
      { tables := remote.tables.set k
          ((remote.tables.getD k []).filterMap (specApplyRow (bodies k))
            ++ createdRowsOf remote.nextID (specNew (bodies k) ((remote.tables.getD k []).map rowToRec))),
        nextID := remote.nextID + (specNew (bodies k) ((remote.tables.getD k []).map rowToRec)).length }
      hksnd.2
      (fun j hj => by
        show j < (remote.tables.set k _).length
        rw [List.length_set]
        exact hrange j (by simp [hj]))
      (fun j hj => by
        have hjk : j ≠ k := fun he => hksnd.1 (he ▸ hj)
        rw [getD_set_ne _ _ _ _ _ (fun he => hjk he.symm)]
        show db.getD j [] = (((remote.tables.set k _).getD j []).map rowToRec).map _
        rw [getD_set_ne _ _ _ _ _ (fun he => hjk he.symm)]
        exact hdb j (by simp [hj]))
      (fun j hj => by
        have hjk : j ≠ k := fun he => hksnd.1 (he ▸ hj)
        show um.getD j [] = (specNew (bodies j) (((remote.tables.set k _).getD j []).map rowToRec)).map recOfBody
        rw [getD_set_ne _ _ _ _ _ (fun he => hjk he.symm)]
        exact hum j (by simp [hj]))
      (fun j hj => by
        have hjk : j ≠ k := fun he => hksnd.1 (he ▸ hj)
        show (((remote.tables.set k _).getD j []).map (fun w => w.internalID)).Nodup
        rw [getD_set_ne _ _ _ _ _ (fun he => hjk he.symm)]
        exact hnd j (by simp [hj]))
      (fun j hj w hw => by
        have hjk : j ≠ k := fun he => hksnd.1 (he ▸ hj)
        rw [getD_set_ne _ _ _ _ _ (fun he => hjk he.symm)] at hw
        have := hlt j (by simp [hj]) w hw
        show w.internalID < remote.nextID + _
        omega)
    rw [hrest]
    rfl

theorem fetchTables_eq_some (ff : Nat → Bool) (remote : Remote) :
    ∀ ks : List Nat, (∀ k ∈ ks, ff k = false) →
    fetchTables ff remote ks = some (ks.map (fun k => (remote.tables.getD k []).map rowToRec)) := by
  intro ks
  induction ks with
  | nil => intro _; rfl
  | cons k ks ih =>
    intro h
    have hk : ff k = false := h k (by simp)
    show (if ff k = true then none else _) = _
    rw [hk]
    simp only [Bool.false_eq_true, if_false]
    rw [ih (fun j hj => h j (by simp [hj]))]
    rfl

theorem fetchDB_getD (remote : Remote) (n k : Nat) (hk : k < n) :
    (fetchDB remote n).getD k [] = (remote.tables.getD k []).map rowToRec := by
  unfold fetchDB
  rw [List.getD_eq_getElem?_getD, List.getElem?_map, List.getElem?_range hk]
  rfl

theorem fetchDB_length (remote : Remote) (n : Nat) : (fetchDB remote n).length = n := by
  simp [fetchDB]

theorem buildFeatures_length (n : Nat) (ds : List (Nat × Feature)) :
    (buildFeatures n ds).length = n := by
  unfold buildFeatures
  have haux : ∀ (l : List (Nat × Feature)) (fs : List (List Feature)), fs.length = n →
      (l.foldl (fun fs p => if p.1 < n then fs.set p.1 (upsert p.2 (fs.getD p.1 [])) else fs) fs).length = n := by
    intro l
    induction l with
    | nil => intro fs h; exact h
    | cons d l ih =>
      intro fs h
      rw [List.foldl_cons]
      refine ih _ ?_
      split <;> simp [h]
  exact haux ds (List.replicate n []) (by simp)

theorem buildFeatures_nodup (n : Nat) (ds : List (Nat × Feature)) (k : Nat) :
    (((buildFeatures n ds).getD k []).map (fun g => g.id)).Nodup := by
  unfold buildFeatures
  have haux : ∀ (l : List (Nat × Feature)) (fs : List (List Feature)),
      (∀ j, ((fs.getD j []).Pairwise (fun a b => a.id ≠ b.id))) →
      ∀ j, (((l.foldl (fun fs p => if p.1 < n then fs.set p.1 (upsert p.2 (fs.getD p.1 [])) else fs) fs).getD j []).Pairwise
        (fun a b => a.id ≠ b.id)) := by
    intro l
    induction l with
    | nil => intro fs h; exact h
    | cons d l ih =>
      intro fs h
      rw [List.foldl_cons]
      refine ih _ ?_
      intro j
      split
      · by_cases hj : d.1 = j
        · subst hj
          by_cases hlen : d.1 < fs.length
          · rw [getD_set_self _ _ _ _ hlen]
            exact upsert_pairwise _ _ (h d.1)
          · rw [List.set_eq_of_length_le (by omega)]
            exact h d.1
        · rw [getD_set_ne _ _ _ _ _ hj]
          exact h j
      · exact h j

  have hpw := haux ds (List.replicate n []) (fun j => by rw [getD_replicate_nil]; exact List.Pairwise.nil) k
  exact List.pairwise_map.mpr hpw

theorem enum_map_getD {α : Type} (features : List (List Feature))
    (F : Nat × List Feature → α) (d : α) (k : Nat) (hk : k < features.length) :
    (((features.enumFrom 0).map F).getD k d) = F (k, features.getD k []) := by
  show ((features.enum.map F).getD k d) = F (k, features.getD k [])
  rw [List.getD_eq_getElem?_getD, List.getElem?_map]
  have he : features.enum[k]? = some (k, features[k]) := by
    rw [List.getElem?_enum, List.getElem?_eq_getElem hk]
    rfl
  rw [he]
  show F (k, features[k]) = F (k, features.getD k [])
  rw [List.getD_eq_getElem?_getD, List.getElem?_eq_getElem hk]
  rfl

/-- The record bodies built for kind `k` during a run, resolved against
the fetched cache. -/
def syncBodies (remote : Remote) (n : Nat) (ds : List (Nat × Feature)) (k : Nat) : List Fields :=
  ((buildFeatures n ds).getD k []).map (fun g => (Feature.toRecord (fetchDB remote n) g).fields)

theorem fetchDB_getD_ge (remote : Remote) (n j : Nat) (hj : n ≤ j) :
    (fetchDB remote n).getD j [] = [] := by
  rw [List.getD_eq_getElem?_getD, List.getElem?_eq_none (by rw [fetchDB_length]; omega)]
  rfl

/-- Master characterization of a successful run: `airtableSync` with valid
credentials and no remote failures computes exactly the per-kind model —
classification against the fetched tables, creates for the unmatched
bodies, updates for the changed rows, deletes for the unmatched rows. -/
theorem airtableSync_model (opts : AirtableOptions) (n : Nat) (ds : List (Nat × Feature))
    (remote : Remote)
    (hb : ¬ opts.baseID = "") (ht : ¬ opts.token = "")
    (hlen : n ≤ remote.tables.length)
    (hnd3 : ∀ k, k < n → ((remote.tables.getD k []).map (fun w => w.internalID)).Nodup)
    (hnd2 : ∀ k, k < n → ((remote.tables.getD k []).map (fun w => w.fields.id)).Nodup)
    (hlt : ∀ k, k < n → ∀ w ∈ remote.tables.getD k [], w.internalID < remote.nextID) :
    airtableSync opts n ds (fun _ => false) (fun _ => false) remote
      = { calls := (applyKindsModel (syncBodies remote n ds) (List.range n)
            (classifyAll (fetchDB remote n) (buildFeatures n ds)).1 remote).1,
          outcome := Except.ok (applyKindsModel (syncBodies remote n ds) (List.range n)
            (classifyAll (fetchDB remote n) (buildFeatures n ds)).1 remote).2.2,
          remote := (applyKindsModel (syncBodies remote n ds) (List.range n)
            (classifyAll (fetchDB remote n) (buildFeatures n ds)).1 remote).2.1 } := by
  have hf : fetchTables (fun _ => false) remote (List.range n) = some (fetchDB remote n) :=
    fetchTables_eq_some _ _ _ (fun k _ => rfl)
  have hdbids : ∀ j, (((fetchDB remote n).getD j []).map (fun r => r.fields.id)).Nodup := by
    intro j
    by_cases hj : j < n
    · rw [fetchDB_getD remote n j hj, List.map_map]
      exact hnd2 j hj
    · rw [fetchDB_getD_ge remote n j (by omega)]
      exact List.Pairwise.nil
  obtain ⟨hc1, hc2, hc3, hc4⟩ := classifyAll_aux_char (fetchDB remote n) hdbids
    (buildFeatures n ds) 0 (fetchDB remote n) []
    (fun j => rfl) (fun j _ => rfl)
    (fun fs hfs => by
      obtain ⟨i, hi, rfl⟩ := List.mem_iff_getElem.mp hfs
      have hnd := buildFeatures_nodup n ds i
      rw [List.getD_eq_getElem?_getD, List.getElem?_eq_getElem hi] at hnd
      exact hnd)
  have hdbk : ∀ k ∈ List.range n, (classifyAll (fetchDB remote n) (buildFeatures n ds)).1.getD k []
      = ((remote.tables.getD k []).map rowToRec).map (specClassify (syncBodies remote n ds k)) := by
    intro k hk
    have hkn : k < n := List.mem_range.mp hk
    rw [classifyAll_eq_foldl]
    have h2 := hc2 k (by rw [buildFeatures_length]; exact hkn)
    rw [Nat.zero_add] at h2
    rw [h2, fetchDB_getD remote n k hkn]
    rfl
  have humk : ∀ k ∈ List.range n, (classifyAll (fetchDB remote n) (buildFeatures n ds)).2.getD k []
      = (specNew (syncBodies remote n ds k) ((remote.tables.getD k []).map rowToRec)).map recOfBody := by
    intro k hk
    have hkn : k < n := List.mem_range.mp hk
    rw [classifyAll_eq_foldl, hc4, List.nil_append]
    have hget := enum_map_getD (buildFeatures n ds)
      (fun p => (specNew (p.2.map (fun g => (Feature.toRecord (fetchDB remote n) g).fields))
        ((fetchDB remote n).getD p.1 [])).map recOfBody) [] k
      (by rw [buildFeatures_length]; exact hkn)
    rw [hget]
    show (specNew (syncBodies remote n ds k) ((fetchDB remote n).getD k [])).map recOfBody = _
    rw [fetchDB_getD remote n k hkn]
  have happly := applyKinds_eq_model (fun _ => false) (fun _ => rfl) (syncBodies remote n ds)
    (classifyAll (fetchDB remote n) (buildFeatures n ds)).2 (List.range n)
    (classifyAll (fetchDB remote n) (buildFeatures n ds)).1 remote
    (List.nodup_range n)
    (fun k hk => by have := List.mem_range.mp hk; omega)
    hdbk humk
    (fun k hk => hnd3 k (List.mem_range.mp hk))
    (fun k hk => hlt k (List.mem_range.mp hk))
  show (if opts.baseID = "" ∨ opts.token = "" then _ else _) = _
  rw [if_neg (by push_neg; exact ⟨hb, ht⟩)]
  show (match fetchTables (fun _ => false) remote (List.range n) with
    | none => _
    | some cache => _) = _
  rw [hf]
  show (match applyKinds (fun _ => false) (classifyAll (fetchDB remote n) (buildFeatures n ds)).2
      (List.range n) (classifyAll (fetchDB remote n) (buildFeatures n ds)).1 remote with
    | (calls, remote', none) =>
      ({ calls := calls, outcome := Except.error "create failed", remote := remote' } : SyncResult)
    | (calls, remote', some db) =>
      { calls := calls, outcome := Except.ok db, remote := remote' }) = _
  rw [happly]

/-! Facts used for the unresolved-reference claims. -/

theorem specNew_empty_rows (bs : List Fields) : specNew bs [] = bs := by
  unfold specNew
  exact List.filter_eq_self.mpr (fun b _ => rfl)

theorem mem_createCallsOf (k : Nat) :
    ∀ (bs : List Fields) (nid : Nat) (b : Fields), b ∈ bs →
    ∃ iid, Call.create k b.id iid ∈ createCallsOf k nid bs := by
  intro bs
  induction bs with
  | nil => intro nid b hb; simp at hb
  | cons c cs ih =>
    intro nid b hb
    rw [List.mem_cons] at hb
    rcases hb with rfl | hb
    · exact ⟨nid, by rw [createCallsOf]; exact List.mem_cons_self _ _⟩
    · obtain ⟨iid, hiid⟩ := ih (nid + 1) b hb
      exact ⟨iid, by rw [createCallsOf]; exact List.mem_cons_of_mem _ hiid⟩

theorem applyKindsModel_empty_create (bodies : Nat → List Fields) :
    ∀ (ks : List Nat) (db : DB) (remote : Remote),
    ks.Nodup → (∀ j ∈ ks, remote.tables.getD j [] = []) →
    ∀ k ∈ ks, ∀ b ∈ bodies k,
      ∃ iid, Call.create k b.id iid ∈ (applyKindsModel bodies ks db remote).1 := by
  intro ks
  induction ks with
  | nil => intro db remote _ _ k hk; simp at hk
  | cons k' ks ih =>
    intro db remote hnd hempty k hk b hb
    rw [List.nodup_cons] at hnd
    rw [List.mem_cons] at hk
    show ∃ iid, Call.create k b.id iid ∈
      createCallsOf k' remote.nextID (specNew (bodies k') ((remote.tables.getD k' []).map rowToRec))
        ++ specUDCalls k' (bodies k') (remote.tables.getD k' []) ++ _
    rcases hk with rfl | hk
    · rw [hempty k (by simp)]
      obtain ⟨iid, hiid⟩ := mem_createCallsOf k (bodies k) remote.nextID b hb
      refine ⟨iid, ?_⟩
      rw [show ((([] : List Row)).map rowToRec) = ([] : List Rec) from rfl, specNew_empty_rows]
      exact List.mem_append_left _ (List.mem_append_left _ hiid)
    · obtain ⟨iid, hiid⟩ := ih
        (db.set k' (((remote.tables.getD k' []).map rowToRec).map (specClassify (bodies k'))
          ++ createdRecsOf remote.nextID (specNew (bodies k') ((remote.tables.getD k' []).map rowToRec))))
        { tables := remote.tables.set k'
            ((remote.tables.getD k' []).filterMap (specApplyRow (bodies k'))
              ++ createdRowsOf remote.nextID (specNew (bodies k') ((remote.tables.getD k' []).map rowToRec))),
          nextID := remote.nextID + (specNew (bodies k') ((remote.tables.getD k' []).map rowToRec)).length }
        hnd.2
        (fun j hj => by
          have hjk : j ≠ k' := fun he => hnd.1 (he ▸ hj)
          show (remote.tables.set k' _).getD j [] = []
          rw [getD_set_ne _ _ _ _ _ (fun he => hjk he.symm)]
          exact hempty j (by simp [hj]))
        k hk b hb
      exact ⟨iid, List.mem_append_right _ hiid⟩

theorem resolveRef_empty_tables (db : DB) (h : ∀ j, db.getD j [] = [])
    (o : Option (Nat × String)) : resolveRef db o = none := by
  cases o with
  | none => rfl
  | some p =>
    obtain ⟨j, e⟩ := p
    show ((db.getD j []).find? (fun r => r.fields.id = e)).map (·.internalID) = none
    rw [h j]
    rfl

theorem createdRowsOf_mem_fields :
    ∀ (bs : List Fields) (nid : Nat) (w : Row), w ∈ createdRowsOf nid bs → w.fields ∈ bs := by
  intro bs
  induction bs with
  | nil => intro nid w hw; simp [createdRowsOf] at hw
  | cons b bs ih =>
    intro nid w hw
    rw [createdRowsOf, List.mem_cons] at hw
    rcases hw with rfl | hw
    · exact List.mem_cons_self _ _
    · exact List.mem_cons_of_mem _ (ih (nid + 1) w hw)

theorem applyKindsModel_rows_ref_none (bodies : Nat → List Fields)
    (hbod : ∀ k, ∀ b ∈ bodies k, b.ref = none) :
    ∀ (ks : List Nat) (db : DB) (remote : Remote),
    (∀ j, ∀ w ∈ remote.tables.getD j [], w.fields.ref = none) →
    ∀ j, ∀ w ∈ (applyKindsModel bodies ks db remote).2.1.tables.getD j [],
      w.fields.ref = none := by
  intro ks
  induction ks with
  | nil => intro db remote h j w hw; exact h j w hw
  | cons k ks ih =>
    intro db remote h j w hw
    refine ih _ _ ?_ j w hw
    intro j' w' hw'
    by_cases hj' : j' = k
    · subst hj'
      by_cases hlenk : j' < remote.tables.length
      · rw [getD_set_self _ _ _ _ hlenk, List.mem_append] at hw'
        rcases hw' with hw' | hw'
        · obtain ⟨w₀, hw₀, hsome⟩ := List.mem_filterMap.mp hw'
          unfold specApplyRow at hsome
          cases hfind : (bodies j').find? (fun b => b.id == w₀.fields.id) with
          | none => rw [hfind] at hsome; simp at hsome
          | some b =>
            rw [hfind] at hsome
            simp only [Option.some.injEq] at hsome
            subst hsome
            exact hbod j' b (List.mem_of_find?_eq_some hfind)
        · have hf := createdRowsOf_mem_fields _ _ _ hw'
          have : w'.fields ∈ bodies j' := List.mem_of_mem_filter hf
          exact hbod j' _ this
      · rw [List.set_eq_of_length_le (by omega)] at hw'
        exact h j' w' hw'
    · rw [getD_set_ne _ _ _ _ _ (fun he => hj' he.symm)] at hw'
      exact h j' w' hw'

/-- C9, counterexample: a repository entity (kind 1) referencing the
ExternalID "missing" of kind 0, which exists neither remotely nor in the
desired graph.  The claim says its build fails and the record is skipped;
instead the record is processed like any other — the run issues its create
and stores it with an empty link. -/
theorem missing_ref_target_still_processed_cex :
    (airtableSync exOpts 2 [(1, { id := "r", attr := "x", refTo := some (0, "missing") })]
        allOk allCreatesOk { tables := [[], []], nextID := 1 }).calls
      = [Call.create 1 "r" 1]
    ∧ ((airtableSync exOpts 2 [(1, { id := "r", attr := "x", refTo := some (0, "missing") })]
        allOk allCreatesOk { tables := [[], []], nextID := 1 }).remote.tables.getD 1 []).map
        (fun w => w.fields.ref) = [none] := by
  exact ⟨rfl, rfl⟩

/-- C9, amended: building a record whose reference target is absent cannot
fail and nothing is skipped — the link is left empty and the record is
processed like any other.  Against empty remote tables: (a) every deduped
desired entry of every kind gets a create call, whatever its references;
(b) every stored record's link field is empty (no target can resolve);
(c) resolution itself yields an empty link whenever the referenced kind's
cached table carries no record with the target ExternalID. -/
theorem missing_ref_target_empty_link (opts : AirtableOptions) (n : Nat)
    (ds : List (Nat × Feature)) (nid : Nat)
    (hb : ¬ opts.baseID = "") (ht : ¬ opts.token = "") :
    (∀ k, k < n → ∀ f ∈ (buildFeatures n ds).getD k [],
      ∃ iid, Call.create k f.id iid ∈
        (airtableSync opts n ds (fun _ => false) (fun _ => false)
          { tables := List.replicate n [], nextID := nid }).calls)
    ∧ (∀ j, ∀ w ∈ (airtableSync opts n ds (fun _ => false) (fun _ => false)
          { tables := List.replicate n [], nextID := nid }).remote.tables.getD j [],
        w.fields.ref = none)
    ∧ (∀ (db : DB) (j : Nat) (e : String), (∀ r ∈ db.getD j [], r.fields.id ≠ e) →
        resolveRef db (some (j, e)) = none) := by
  have hempty : ∀ j, ({ tables := List.replicate n [], nextID := nid } : Remote).tables.getD j [] = [] := by
    intro j
    show (List.replicate n ([] : List Row)).getD j [] = []
    exact getD_replicate_nil n j
  have hmodel := airtableSync_model opts n ds { tables := List.replicate n [], nextID := nid }
    hb ht (by simp) (fun k _ => by rw [hempty k]; exact List.Pairwise.nil)
    (fun k _ => by rw [hempty k]; exact List.Pairwise.nil)
    (fun k _ w hw => by rw [hempty k] at hw; simp at hw)
  have hfetchempty : ∀ j, (fetchDB { tables := List.replicate n [], nextID := nid } n).getD j [] = [] := by
    intro j
    by_cases hj : j < n
    · rw [fetchDB_getD _ _ _ hj, hempty j]
      rfl
    · exact fetchDB_getD_ge _ _ _ (by omega)
  have hbodref : ∀ k, ∀ b ∈ syncBodies { tables := List.replicate n [], nextID := nid } n ds k,
      b.ref = none := by
    intro k b hb'
    obtain ⟨g, _, rfl⟩ := List.mem_map.mp hb'
    show resolveRef _ g.refTo = none
    cases hrt : g.refTo with
    | none => rfl
    | some p =>
      rw [← hrt]
      rw [hrt]
      exact resolveRef_empty_tables _ hfetchempty _
  refine ⟨?_, ?_, ?_⟩
  · intro k hk f hf
    rw [hmodel]
    show ∃ iid, Call.create k f.id iid ∈ (applyKindsModel _ (List.range n) _ _).1
    have hcall := applyKindsModel_empty_create
      (syncBodies { tables := List.replicate n [], nextID := nid } n ds)
      (List.range n) (classifyAll (fetchDB { tables := List.replicate n [], nextID := nid } n) (buildFeatures n ds)).1
      { tables := List.replicate n [], nextID := nid }
      (List.nodup_range n) (fun j _ => hempty j) k (List.mem_range.mpr hk)
      ((Feature.toRecord (fetchDB { tables := List.replicate n [], nextID := nid } n) f).fields)
      (List.mem_map_of_mem _ hf)
    exact hcall
  · intro j w hw
    rw [hmodel] at hw
    exact applyKindsModel_rows_ref_none _ hbodref (List.range n) _ _
      (fun j' w' hw' => by rw [hempty j'] at hw'; simp at hw') j w hw
  · intro db j e h
    show ((db.getD j []).find? (fun r => r.fields.id = e)).map (·.internalID) = none
    rw [List.find?_eq_none.mpr (fun r hr => by simpa using h r hr)]
    rfl

/-- C9, witness for the amended theorem: one kind, one entity with an
unresolvable reference, empty remote: its create is issued. -/
theorem missing_ref_target_empty_link_witness :
    ¬ (exOpts.baseID = "") ∧ ¬ (exOpts.token = "")
    ∧ (∃ iid, Call.create 0 "r" iid ∈
        (airtableSync exOpts 1 [(0, { id := "r", attr := "x", refTo := some (0, "zz") })]
          (fun _ => false) (fun _ => false) { tables := List.replicate 1 [], nextID := 5 }).calls) := by
  refine ⟨by decide, by decide, ?_⟩
  have h := (missing_ref_target_empty_link exOpts 1
    [(0, { id := "r", attr := "x", refTo := some (0, "zz") })] 5 (by decide) (by decide)).1
    0 (by decide) { id := "r", attr := "x", refTo := some (0, "zz") } (by decide)
  exact h

/-! Call discipline of the apply loop, independent of remote failures:
create calls carry fresh internal IDs, update and delete calls carry
fetched ones. -/

theorem applyCreates_discipline (cf : String → Bool) (k : Nat) :
    ∀ (um ct : List Rec) (remote : Remote),
    (∀ c ∈ (applyCreates cf k um ct remote).1,
        ∃ id iid, c = Call.create k id iid ∧ remote.nextID ≤ iid)
    ∧ remote.nextID ≤ (applyCreates cf k um ct remote).2.1.nextID
    ∧ (∀ ct', (applyCreates cf k um ct remote).2.2 = some ct' →
        (∀ r ∈ ct', r ∈ ct ∨ (r.state = RecState.new ∧ remote.nextID ≤ r.internalID))
        ∧ (∀ r ∈ ct, r ∈ ct')
        ∧ (∀ id iid, Call.create k id iid ∈ (applyCreates cf k um ct remote).1 →
            ∃ r ∈ ct', r.internalID = iid ∧ r.state = RecState.new)) := by
  intro um
  induction um with
  | nil =>
    intro ct remote
    refine ⟨?_, Nat.le_refl _, ?_⟩
    · intro c hc
      have h0 : (applyCreates cf k [] ct remote).1 = [] := rfl
      rw [h0] at hc
      exact absurd hc (List.not_mem_nil c)
    · intro ct' h
      have h' : ct = ct' := Option.some.inj h
      subst h'
      refine ⟨fun r hr => Or.inl hr, fun r hr => hr, ?_⟩
      intro id iid hcall
      have h0 : (applyCreates cf k [] ct remote).1 = [] := rfl
      rw [h0] at hcall
      exact absurd hcall (List.not_mem_nil _)
  | cons r rs ih =>
    intro ct remote
    by_cases hcf : cf r.fields.id
    · have hres : applyCreates cf k (r :: rs) ct remote = ([], remote, none) := by
        unfold applyCreates
        rw [if_pos hcf]
      rw [hres]
      refine ⟨?_, Nat.le_refl _, ?_⟩
      · intro c hc
        exact absurd hc (List.not_mem_nil c)
      · intro ct' h
        exact absurd h (by simp)
    · have hres : applyCreates cf k (r :: rs) ct remote
          = (Call.create k r.fields.id remote.nextID ::
              (applyCreates cf k rs (ct ++ [{ r with internalID := remote.nextID, state := RecState.new }])
                { tables := remote.tables.set k ((remote.tables.getD k []) ++ [{ internalID := remote.nextID, fields := r.fields }]), nextID := remote.nextID + 1 }).1,
             (applyCreates cf k rs (ct ++ [{ r with internalID := remote.nextID, state := RecState.new }])
                { tables := remote.tables.set k ((remote.tables.getD k []) ++ [{ internalID := remote.nextID, fields := r.fields }]), nextID := remote.nextID + 1 }).2) := by
        simp only [applyCreates]
        rw [if_neg hcf]
      obtain ⟨iha, ihb, ihc⟩ := ih
        (ct ++ [{ r with internalID := remote.nextID, state := RecState.new }])
        { tables := remote.tables.set k ((remote.tables.getD k []) ++ [{ internalID := remote.nextID, fields := r.fields }]), nextID := remote.nextID + 1 }
      rw [hres]
      refine ⟨?_, ?_, ?_⟩
      · intro c hc
        rw [List.mem_cons] at hc
        rcases hc with rfl | hc
        · exact ⟨r.fields.id, remote.nextID, rfl, Nat.le_refl _⟩
        · obtain ⟨id, iid, heq, hle⟩ := iha c hc
          have hle' : remote.nextID + 1 ≤ iid := hle
          exact ⟨id, iid, heq, by omega⟩
      · exact Nat.le_trans (Nat.le_succ _) ihb
      · intro ct' h
        obtain ⟨hc1, hc2, hc3⟩ := ihc ct' h
        refine ⟨?_, ?_, ?_⟩
        · intro x hx
          rcases hc1 x hx with hx' | hx'
          · rw [List.mem_append] at hx'
            rcases hx' with hx' | hx'
            · exact Or.inl hx'
            · rw [List.mem_singleton] at hx'
              subst hx'
              exact Or.inr ⟨rfl, Nat.le_refl _⟩
          · obtain ⟨hst, hle⟩ := hx'
            have hle' : remote.nextID + 1 ≤ x.internalID := hle
            exact Or.inr ⟨hst, by omega⟩
        · intro x hx
          exact hc2 x (List.mem_append_left _ hx)
        · intro id iid hcall
          rw [List.mem_cons] at hcall
          rcases hcall with heq | hcall
          · injection heq with h1 h2 h3
            subst h2
            subst h3
            exact ⟨{ r with internalID := remote.nextID, state := RecState.new },
              hc2 _ (List.mem_append_right _ (List.mem_singleton.mpr rfl)), rfl, rfl⟩
          · exact hc3 id iid hcall

theorem applyUD_discipline (k : Nat) :
    ∀ (ct : List Rec) (remote : Remote),
    (∀ c ∈ (applyUD k ct remote).1,
        ∃ r ∈ ct, (r.state = RecState.unknown ∧ c = Call.delete k r.internalID)
          ∨ (r.state = RecState.changed ∧ c = Call.update k r.internalID))
    ∧ (applyUD k ct remote).2.nextID = remote.nextID := by
  intro ct
  induction ct with
  | nil =>
    intro remote
    exact ⟨fun c hc => absurd hc (List.not_mem_nil c), rfl⟩
  | cons c cs ih =>
    intro remote
    cases hst : c.state with
    | unknown =>
      have hres : applyUD k (c :: cs) remote
          = (Call.delete k c.internalID ::
              (applyUD k cs { remote with tables := remote.tables.set k (deleteRow c.internalID (remote.tables.getD k [])) }).1,
             (applyUD k cs { remote with tables := remote.tables.set k (deleteRow c.internalID (remote.tables.getD k [])) }).2) := by
        simp only [applyUD]
        rw [hst]
      rw [hres]
      refine ⟨?_, ?_⟩
      · intro x hx
        rw [List.mem_cons] at hx
        rcases hx with rfl | hx
        · exact ⟨c, List.mem_cons_self _ _, Or.inl ⟨hst, rfl⟩⟩
        · obtain ⟨r, hr, hor⟩ := (ih _).1 x hx
          exact ⟨r, List.mem_cons_of_mem _ hr, hor⟩
      · exact (ih _).2
    | changed =>
      have hres : applyUD k (c :: cs) remote
          = (Call.update k c.internalID ::
              (applyUD k cs { remote with tables := remote.tables.set k (updateRow c.internalID c.fields (remote.tables.getD k [])) }).1,
             (applyUD k cs { remote with tables := remote.tables.set k (updateRow c.internalID c.fields (remote.tables.getD k [])) }).2) := by
        simp only [applyUD]
        rw [hst]
      rw [hres]
      refine ⟨?_, ?_⟩
      · intro x hx
        rw [List.mem_cons] at hx
        rcases hx with rfl | hx
        · exact ⟨c, List.mem_cons_self _ _, Or.inr ⟨hst, rfl⟩⟩
        · obtain ⟨r, hr, hor⟩ := (ih _).1 x hx
          exact ⟨r, List.mem_cons_of_mem _ hr, hor⟩
      · exact (ih _).2
    | unchanged =>
      have hres : applyUD k (c :: cs) remote = applyUD k cs remote := by
        simp only [applyUD]
        rw [hst]
      rw [hres]
      refine ⟨?_, (ih _).2⟩
      intro x hx
      obtain ⟨r, hr, hor⟩ := (ih _).1 x hx
      exact ⟨r, List.mem_cons_of_mem _ hr, hor⟩
    | new =>
      have hres : applyUD k (c :: cs) remote = applyUD k cs remote := by
        simp only [applyUD]
        rw [hst]
      rw [hres]
      refine ⟨?_, (ih _).2⟩
      intro x hx
      obtain ⟨r, hr, hor⟩ := (ih _).1 x hx
      exact ⟨r, List.mem_cons_of_mem _ hr, hor⟩

theorem mem_getD_set {α : Type} (db : List (List α)) (k : Nat) (v : List α) (j : Nat)
    (r : α) (hr : r ∈ (db.set k v).getD j []) : r ∈ db.getD j [] ∨ r ∈ v := by
  by_cases hjk : k = j
  · subst hjk
    by_cases hlen : k < db.length
    · rw [getD_set_self _ _ _ _ hlen] at hr
      exact Or.inr hr
    · rw [List.set_eq_of_length_le (by omega)] at hr
      exact Or.inl hr
  · rw [getD_set_ne _ _ _ _ _ hjk] at hr
    exact Or.inl hr

theorem applyKinds_frame (cf : String → Bool) (um : List (List Rec)) :
    ∀ (ks : List Nat) (db : DB) (remote : Remote) (db' : DB),
    (applyKinds cf um ks db remote).2.2 = some db' →
    ∀ j, j ∉ ks → db'.getD j [] = db.getD j [] := by
  intro ks
  induction ks with
  | nil =>
    intro db remote db' h j _
    have h' : db = db' := Option.some.inj h
    rw [h']
  | cons k ks ih =>
    intro db remote db' h j hj
    rw [List.mem_cons, not_or] at hj
    cases hak : applyKind cf k (um.getD k []) (db.getD k []) remote with
    | mk calls rest =>
      obtain ⟨remote', oct⟩ := rest
      cases oct with
      | none =>
        have hnone : (applyKinds cf um (k :: ks) db remote).2.2 = none := by
          show (match applyKind cf k (um.getD k []) (db.getD k []) remote with
            | (calls, remote', none) => (calls, remote', none)
            | (calls, remote', some ct') =>
              let rest := applyKinds cf um ks (db.set k ct') remote'
              (calls ++ rest.1, rest.2)).2.2 = none
          rw [hak]
        rw [hnone] at h
        exact absurd h (by simp)
      | some ct' =>
        have hstep : (applyKinds cf um (k :: ks) db remote).2.2
            = (applyKinds cf um ks (db.set k ct') remote').2.2 := by
          show (match applyKind cf k (um.getD k []) (db.getD k []) remote with
            | (calls, remote', none) => (calls, remote', none)
            | (calls, remote', some ct') =>
              let rest := applyKinds cf um ks (db.set k ct') remote'
              (calls ++ rest.1, rest.2)).2.2 = _
          rw [hak]
        rw [hstep] at h
        rw [ih _ _ _ h j hj.2]
        exact getD_set_ne _ _ _ _ _ (fun he => hj.1 he.symm)

theorem applyKinds_discipline (cf : String → Bool) (um : List (List Rec)) (nio : Nat) :
    ∀ (ks : List Nat) (db : DB) (remote : Remote),
    ks.Nodup →
    (∀ k ∈ ks, k < db.length) →
    nio ≤ remote.nextID →
    (∀ j, ∀ r ∈ db.getD j [], (r.state = RecState.unknown ∨ r.state = RecState.changed) →
      r.internalID < nio) →
    (∀ c ∈ (applyKinds cf um ks db remote).1,
        (∃ k id iid, c = Call.create k id iid ∧ nio ≤ iid)
        ∨ (∃ k iid, (c = Call.update k iid ∨ c = Call.delete k iid) ∧ iid < nio))
    ∧ (∀ db', (applyKinds cf um ks db remote).2.2 = some db' →
        ∀ k id iid, Call.create k id iid ∈ (applyKinds cf um ks db remote).1 →
          ∃ r ∈ db'.getD k [], r.internalID = iid ∧ r.state = RecState.new) := by
  intro ks
  induction ks with
  | nil =>
    intro db remote _ _ _ _
    refine ⟨?_, ?_⟩
    · intro c hc
      exact absurd hc (List.not_mem_nil c)
    · intro db' _ k id iid hcall
      exact absurd hcall (List.not_mem_nil _)
  | cons k ks ih =>
    intro db remote hnd hrange hmono hbound
    rw [List.nodup_cons] at hnd
    obtain ⟨aca, acb, acc⟩ := applyCreates_discipline cf k (um.getD k []) (db.getD k []) remote
    cases hac : applyCreates cf k (um.getD k []) (db.getD k []) remote with
    | mk ccalls rest =>
      obtain ⟨remote', oct⟩ := rest
      rw [hac] at aca acb acc
      cases oct with
      | none =>
        have hstep : applyKinds cf um (k :: ks) db remote = (ccalls, remote', none) := by
          show (match applyKind cf k (um.getD k []) (db.getD k []) remote with
            | (calls, remote', none) => (calls, remote', none)
            | (calls, remote', some ct') =>
              let rest := applyKinds cf um ks (db.set k ct') remote'
              (calls ++ rest.1, rest.2)) = _
          unfold applyKind
          rw [hac]
        rw [hstep]
        refine ⟨?_, ?_⟩
        · intro c hc
          obtain ⟨id, iid, heq, hle⟩ := aca c hc
          exact Or.inl ⟨k, id, iid, heq, Nat.le_trans hmono hle⟩
        · intro db' h
          exact absurd h (by simp)
      | some ct' =>
        obtain ⟨hct, hsub, hcr⟩ := acc ct' rfl
        obtain ⟨uda, udb⟩ := applyUD_discipline k ct' remote'
        have hstep : applyKinds cf um (k :: ks) db remote
            = ((ccalls ++ (applyUD k ct' remote').1)
                ++ (applyKinds cf um ks (db.set k ct') (applyUD k ct' remote').2).1,
               (applyKinds cf um ks (db.set k ct') (applyUD k ct' remote').2).2) := by
          show (match applyKind cf k (um.getD k []) (db.getD k []) remote with
            | (calls, remote', none) => (calls, remote', none)
            | (calls, remote', some ct') =>
              let rest := applyKinds cf um ks (db.set k ct') remote'
              (calls ++ rest.1, rest.2)) = _
          unfold applyKind
          rw [hac]
        have hboundct : ∀ r ∈ ct',
            (r.state = RecState.unknown ∨ r.state = RecState.changed) → r.internalID < nio := by
          intro r hr hst
          rcases hct r hr with hr' | ⟨hnew, _⟩
          · exact hbound k r hr' hst
          · rcases hst with hst | hst <;> rw [hnew] at hst <;> exact absurd hst (by simp)
        have hbound' : ∀ j, ∀ r ∈ (db.set k ct').getD j [],
            (r.state = RecState.unknown ∨ r.state = RecState.changed) → r.internalID < nio := by
          intro j r hr hst
          rcases mem_getD_set db k ct' j r hr with hr' | hr'
          · exact hbound j r hr' hst
          · exact hboundct r hr' hst
        have hmono' : nio ≤ ((applyUD k ct' remote').2).nextID := by
          rw [udb]
          exact Nat.le_trans hmono acb
        obtain ⟨ka, kb⟩ := ih (db.set k ct') (applyUD k ct' remote').2 hnd.2
          (fun j hj => by rw [List.length_set]; exact hrange j (List.mem_cons_of_mem _ hj))
          hmono' hbound'
        rw [hstep]
        refine ⟨?_, ?_⟩
        · intro c hc
          rw [List.mem_append] at hc
          rcases hc with hc | hc
          · rw [List.mem_append] at hc
            rcases hc with hc | hc
            · obtain ⟨id, iid, heq, hle⟩ := aca c hc
              exact Or.inl ⟨k, id, iid, heq, Nat.le_trans hmono hle⟩
            · obtain ⟨r, hr, hor⟩ := uda c hc
              rcases hor with ⟨hst, rfl⟩ | ⟨hst, rfl⟩
              · exact Or.inr ⟨k, r.internalID, Or.inr rfl, hboundct r hr (Or.inl hst)⟩
              · exact Or.inr ⟨k, r.internalID, Or.inl rfl, hboundct r hr (Or.inr hst)⟩
          · exact ka c hc
        · intro db' h k2 id iid hcall
          rw [List.mem_append] at hcall
          rcases hcall with hcall | hcall
          · rw [List.mem_append] at hcall
            rcases hcall with hcall | hcall
            · obtain ⟨id', iid', heq, _⟩ := aca _ hcall
              injection heq with e1 e2 e3
              subst e1
              obtain ⟨r, hr, hiid, hnew⟩ := hcr id iid hcall
              refine ⟨r, ?_, hiid, hnew⟩
              have hframe := applyKinds_frame cf um ks (db.set k2 ct') (applyUD k2 ct' remote').2 db' h k2 hnd.1
              rw [hframe]
              rw [getD_set_self _ _ _ _ (hrange k2 (List.mem_cons_self _ _))]
              exact hr
            · obtain ⟨r, _, hor⟩ := uda _ hcall
              rcases hor with ⟨_, heq⟩ | ⟨_, heq⟩ <;> exact absurd heq (by simp)
          · exact kb db' h k2 id iid hcall

/-! Transfer of the internal-ID bound from the fetched tables through the
classification pass. -/

theorem classifyFeature_length (k : Nat) (st : DB × List Rec) (f : Feature) :
    (classifyFeature k st f).1.length = st.1.length := by
  cases hscan : classifyScan (Feature.toRecord st.1 f).fields (st.1.getD k []) with
  | none => simp only [classifyFeature, hscan]
  | some rows =>
    simp only [classifyFeature, hscan]
    exact List.length_set _ _ _

theorem classifyKind_length (k : Nat) (fs : List Feature) :
    ∀ st : DB × List Rec, (classifyKind k fs st).1.length = st.1.length := by
  induction fs with
  | nil => intro st; rfl
  | cons f fs ih =>
    intro st
    rw [classifyKind, List.foldl_cons, ← classifyKind, ih]
    exact classifyFeature_length k st f

theorem foldl_classifyStep_length :
    ∀ (l : List (Nat × List Feature)) (st : DB × List (List Rec)),
    (l.foldl classifyStep st).1.length = st.1.length := by
  intro l
  induction l with
  | nil => intro st; rfl
  | cons p l ih =>
    intro st
    rw [List.foldl_cons, ih]
    exact classifyKind_length p.1 p.2 _

theorem classifyAll_length (db : DB) (features : List (List Feature)) :
    (classifyAll db features).1.length = db.length := by
  rw [classifyAll_eq_foldl]
  exact foldl_classifyStep_length _ _

theorem foldl_classifyStep_tableKey :
    ∀ (l : List (Nat × List Feature)) (st : DB × List (List Rec)) (j : Nat),
    tableKey ((l.foldl classifyStep st).1.getD j []) = tableKey (st.1.getD j []) := by
  intro l
  induction l with
  | nil => intro st j; rfl
  | cons p l ih =>
    intro st j
    rw [List.foldl_cons, ih]
    exact classifyKind_tableKey p.1 p.2 _ j

theorem classifyAll_tableKey (db : DB) (features : List (List Feature)) (j : Nat) :
    tableKey ((classifyAll db features).1.getD j []) = tableKey (db.getD j []) := by
  rw [classifyAll_eq_foldl]
  exact foldl_classifyStep_tableKey _ _ j

theorem fetchTables_some_inv (ff : Nat → Bool) (remote : Remote) :
    ∀ (ks : List Nat) (cache : DB), fetchTables ff remote ks = some cache →
    cache = ks.map (fun k => (remote.tables.getD k []).map rowToRec) := by
  intro ks
  induction ks with
  | nil =>
    intro cache h
    exact (Option.some.inj h).symm
  | cons k ks ih =>
    intro cache h
    by_cases hk : ff k = true
    · rw [fetchTables_eq_none ff remote (k :: ks) ⟨k, by simp, hk⟩] at h
      exact absurd h (by simp)
    · have h' : (fetchTables ff remote ks).map ((remote.tables.getD k []).map rowToRec :: ·) = some cache := by
        rw [← h]
        show _ = (if ff k = true then none else (fetchTables ff remote ks).map _)
        rw [if_neg hk]
        rfl
      cases hrest : fetchTables ff remote ks with
      | none => rw [hrest] at h'; exact absurd h' (by simp)
      | some rest =>
        rw [hrest] at h'
        have hcons : (remote.tables.getD k []).map rowToRec :: rest = cache := Option.some.inj h'
        rw [← hcons, List.map_cons, ih rest hrest]

/-! Facts for the convergence claim: filtering the final remote table of a
kind by a desired ExternalID yields exactly one row, carrying the built
body. -/

theorem find?_eq_some_of_nodup_ids :
    ∀ (bs : List Fields), ((bs.map (fun c => c.id)).Nodup) → ∀ b ∈ bs,
    bs.find? (fun c => c.id == b.id) = some b := by
  intro bs
  induction bs with
  | nil => intro _ b h; exact absurd h (List.not_mem_nil b)
  | cons c cs ih =>
    intro hnd b hb
    rw [List.map_cons, List.nodup_cons] at hnd
    rw [List.mem_cons] at hb
    rcases hb with rfl | hb
    · simp only [List.find?]
      rw [beq_self_eq_true]
    · have hne : (c.id == b.id) = false := by
        apply beq_eq_false_iff_ne.mpr
        intro he
        have hmem : b.id ∈ cs.map (fun x => x.id) := List.mem_map_of_mem _ hb
        rw [← he] at hmem
        exact hnd.1 hmem
      simp only [List.find?]
      rw [hne]
      exact ih hnd.2 b hb

theorem id_unique_of_nodup :
    ∀ (bs : List Fields), ((bs.map (fun c => c.id)).Nodup) →
    ∀ b ∈ bs, ∀ b' ∈ bs, b.id = b'.id → b = b' := by
  intro bs
  induction bs with
  | nil => intro _ b h; exact absurd h (List.not_mem_nil b)
  | cons c cs ih =>
    intro hnd b hb b' hb' he
    rw [List.map_cons, List.nodup_cons] at hnd
    rw [List.mem_cons] at hb hb'
    rcases hb with rfl | hb
    · rcases hb' with rfl | hb'
      · rfl
      · exact absurd (he ▸ List.mem_map_of_mem (fun x => x.id) hb') hnd.1
    · rcases hb' with rfl | hb'
      · exact absurd (he ▸ List.mem_map_of_mem (fun x => x.id) hb) hnd.1
      · exact ih hnd.2 b hb b' hb' he

theorem filter_rows_by_id_nil (e : String) :
    ∀ T : List Row, (∀ w ∈ T, w.fields.id ≠ e) →
    T.filter (fun w => w.fields.id == e) = [] := by
  intro T
  induction T with
  | nil => intro _; rfl
  | cons w T ih =>
    intro h
    have hne : (w.fields.id == e) = false :=
      beq_eq_false_iff_ne.mpr (h w (List.mem_cons_self _ _))
    simp only [List.filter_cons, hne, Bool.false_eq_true, if_false]
    exact ih (fun v hv => h v (List.mem_cons_of_mem _ hv))

theorem filter_rows_by_id_single :
    ∀ (T : List Row), ((T.map (fun w => w.fields.id)).Nodup) → ∀ w ∈ T,
    T.filter (fun v => v.fields.id == w.fields.id) = [w] := by
  intro T
  induction T with
  | nil => intro _ w h; exact absurd h (List.not_mem_nil w)
  | cons u T ih =>
    intro hnd w hw
    rw [List.map_cons, List.nodup_cons] at hnd
    rw [List.mem_cons] at hw
    rcases hw with rfl | hw
    · simp only [List.filter_cons, beq_self_eq_true, if_true]
      rw [filter_rows_by_id_nil w.fields.id T
        (fun v hv he => hnd.1 (he ▸ List.mem_map_of_mem (fun x => x.fields.id) hv))]
    · have hne : (u.fields.id == w.fields.id) = false := by
        apply beq_eq_false_iff_ne.mpr
        intro he
        have hmem : w.fields.id ∈ T.map (fun x => x.fields.id) :=
          List.mem_map_of_mem _ hw
        rw [← he] at hmem
        exact hnd.1 hmem
      simp only [List.filter_cons, hne, Bool.false_eq_true, if_false]
      exact ih hnd.2 w hw

theorem filter_filterMap_spec (bs : List Fields) (e : String) :
    ∀ T : List Row, (T.filterMap (specApplyRow bs)).filter (fun w => w.fields.id == e)
      = (T.filter (fun w => w.fields.id == e)).filterMap (specApplyRow bs) := by
  intro T
  induction T with
  | nil => rfl
  | cons w T ih =>
    cases hfind : bs.find? (fun c => c.id == w.fields.id) with
    | none =>
      have hval : specApplyRow bs w = none := by
        unfold specApplyRow
        rw [hfind]
      have hl : ((w :: T).filterMap (specApplyRow bs)) = T.filterMap (specApplyRow bs) := by
        rw [List.filterMap_cons, hval]
      by_cases hwe : w.fields.id = e
      · have hb : (w.fields.id == e) = true := beq_iff_eq.mpr hwe
        have hr : (w :: T).filter (fun v => v.fields.id == e)
            = w :: T.filter (fun v => v.fields.id == e) := by
          simp [List.filter_cons, hb]
        rw [hl, hr, List.filterMap_cons, hval]
        exact ih
      · have hb : (w.fields.id == e) = false := beq_eq_false_iff_ne.mpr hwe
        have hr : (w :: T).filter (fun v => v.fields.id == e)
            = T.filter (fun v => v.fields.id == e) := by
          simp [List.filter_cons, hb]
        rw [hl, hr]
        exact ih
    | some c =>
      have hpc := List.find?_some hfind
      have hcid : c.id = w.fields.id := beq_iff_eq.mp hpc
      have hval : specApplyRow bs w = some { w with fields := c } := by
        unfold specApplyRow
        rw [hfind]
      have hl : ((w :: T).filterMap (specApplyRow bs))
          = { w with fields := c } :: T.filterMap (specApplyRow bs) := by
        rw [List.filterMap_cons, hval]
      by_cases hwe : w.fields.id = e
      · have hb : (w.fields.id == e) = true := beq_iff_eq.mpr hwe
        have hce : (({ w with fields := c } : Row).fields.id == e) = true :=
          beq_iff_eq.mpr (by rw [show ({ w with fields := c } : Row).fields.id = w.fields.id from hcid]; exact hwe)
        have hr : (w :: T).filter (fun v => v.fields.id == e)
            = w :: T.filter (fun v => v.fields.id == e) := by
          simp [List.filter_cons, hb]
        rw [hl, hr]
        rw [show ({ w with fields := c } :: T.filterMap (specApplyRow bs)).filter (fun v => v.fields.id == e)
            = { w with fields := c } :: (T.filterMap (specApplyRow bs)).filter (fun v => v.fields.id == e) from by
          simp [List.filter_cons, hce]]
        rw [List.filterMap_cons, hval, ih]
      · have hb : (w.fields.id == e) = false := beq_eq_false_iff_ne.mpr hwe
        have hce : (({ w with fields := c } : Row).fields.id == e) = false :=
          beq_eq_false_iff_ne.mpr (by rw [show ({ w with fields := c } : Row).fields.id = w.fields.id from hcid]; exact hwe)
        have hr : (w :: T).filter (fun v => v.fields.id == e)
            = T.filter (fun v => v.fields.id == e) := by
          simp [List.filter_cons, hb]
        rw [hl, hr]
        rw [show ({ w with fields := c } :: T.filterMap (specApplyRow bs)).filter (fun v => v.fields.id == e)
            = (T.filterMap (specApplyRow bs)).filter (fun v => v.fields.id == e) from by
          simp [List.filter_cons, hce]]
        exact ih

theorem createdRowsOf_filter_nil (e : String) :
    ∀ (bs : List Fields) (nid : Nat), (∀ b ∈ bs, b.id ≠ e) →
    (createdRowsOf nid bs).filter (fun w => w.fields.id == e) = [] := by
  intro bs
  induction bs with
  | nil => intro nid _; rfl
  | cons c cs ih =>
    intro nid h
    rw [createdRowsOf]
    have hne : (({ internalID := nid, fields := c } : Row).fields.id == e) = false :=
      beq_eq_false_iff_ne.mpr (h c (List.mem_cons_self _ _))
    simp only [List.filter_cons, hne, Bool.false_eq_true, if_false]
    exact ih (nid + 1) (fun b hb => h b (List.mem_cons_of_mem _ hb))

theorem createdRowsOf_filter_single (b : Fields) :
    ∀ (bs : List Fields) (nid : Nat), b ∈ bs → ((bs.map (fun c => c.id)).Nodup) →
    ∃ iid, nid ≤ iid ∧
      (createdRowsOf nid bs).filter (fun w => w.fields.id == b.id)
        = [{ internalID := iid, fields := b }] := by
  intro bs
  induction bs with
  | nil => intro nid hb; exact absurd hb (List.not_mem_nil b)
  | cons c cs ih =>
    intro nid hb hnd
    rw [List.map_cons, List.nodup_cons] at hnd
    rw [List.mem_cons] at hb
    rw [createdRowsOf]
    rcases hb with rfl | hb
    · refine ⟨nid, Nat.le_refl _, ?_⟩
      have ht : (({ internalID := nid, fields := b } : Row).fields.id == b.id) = true :=
        beq_self_eq_true _
      simp only [List.filter_cons, ht, if_true]
      rw [createdRowsOf_filter_nil b.id cs (nid + 1)
        (fun x hx he => hnd.1 (he ▸ List.mem_map_of_mem (fun y => y.id) hx))]
    · obtain ⟨iid, hge, hfil⟩ := ih (nid + 1) hb hnd.2
      refine ⟨iid, by omega, ?_⟩
      have hne : (({ internalID := nid, fields := c } : Row).fields.id == b.id) = false := by
        apply beq_eq_false_iff_ne.mpr
        intro he
        have hmem : b.id ∈ cs.map (fun x => x.id) := List.mem_map_of_mem _ hb
        rw [← he] at hmem
        exact hnd.1 hmem
      simp only [List.filter_cons, hne, Bool.false_eq_true, if_false]
      exact hfil

/-- Per kind: after applying the model, filtering the final remote table by
a desired body's ExternalID yields exactly that body, once. -/
theorem spec_table_filter (bs : List Fields) (T : List Row) (nid : Nat)
    (hnb : ((bs.map (fun c => c.id)).Nodup))
    (hnT : ((T.map (fun w => w.fields.id)).Nodup))
    (b : Fields) (hb : b ∈ bs) :
    ∃ iid, (T.filterMap (specApplyRow bs)
        ++ createdRowsOf nid (specNew bs (T.map rowToRec))).filter
        (fun w => w.fields.id == b.id)
      = [{ internalID := iid, fields := b }] := by
  rw [List.filter_append]
  by_cases hex : ∃ w ∈ T, w.fields.id = b.id
  · obtain ⟨w₀, hw₀, hid⟩ := hex
    have h1 : (T.filterMap (specApplyRow bs)).filter (fun w => w.fields.id == b.id)
        = [{ internalID := w₀.internalID, fields := b }] := by
      rw [filter_filterMap_spec]
      have hT : T.filter (fun w => w.fields.id == b.id) = [w₀] := by
        rw [← hid]
        exact filter_rows_by_id_single T hnT w₀ hw₀
      rw [hT]
      have hfind : bs.find? (fun c => c.id == w₀.fields.id) = some b := by
        rw [hid]
        exact find?_eq_some_of_nodup_ids bs hnb b hb
      have hval : specApplyRow bs w₀ = some { w₀ with fields := b } := by
        unfold specApplyRow
        rw [hfind]
      rw [List.filterMap_cons, hval]
      rfl
    have h2 : (createdRowsOf nid (specNew bs (T.map rowToRec))).filter
        (fun w => w.fields.id == b.id) = [] := by
      apply createdRowsOf_filter_nil
      intro b' hb' heq
      have hb'bs : b' ∈ bs := List.mem_of_mem_filter hb'
      have hbb : b' = b := id_unique_of_nodup bs hnb b' hb'bs b hb heq
      subst hbb
      have hall := (List.mem_filter.mp hb').2
      have hw := List.all_eq_true.mp hall (rowToRec w₀) (List.mem_map_of_mem _ hw₀)
      have hne : w₀.fields.id ≠ b'.id := by simpa using hw
      exact hne (heq ▸ hid)
    rw [h1, h2]
    exact ⟨w₀.internalID, by rw [List.append_nil]⟩
  · push_neg at hex
    have h1 : (T.filterMap (specApplyRow bs)).filter (fun w => w.fields.id == b.id) = [] := by
      rw [filter_filterMap_spec]
      rw [filter_rows_by_id_nil b.id T hex]
      rfl
    have hbnew : b ∈ specNew bs (T.map rowToRec) := by
      apply List.mem_filter.mpr
      refine ⟨hb, ?_⟩
      apply List.all_eq_true.mpr
      intro r hr
      obtain ⟨w, hw, rfl⟩ := List.mem_map.mp hr
      simpa using hex w hw
    have hnnew : ((specNew bs (T.map rowToRec)).map (fun c => c.id)).Nodup := by
      have hsub : List.Sublist (specNew bs (T.map rowToRec)) bs := List.filter_sublist _
      exact List.Nodup.sublist (hsub.map (fun c => c.id)) hnb
    obtain ⟨iid, _, hfil⟩ := createdRowsOf_filter_single b (specNew bs (T.map rowToRec)) nid hbnew hnnew
    rw [h1, hfil]
    exact ⟨iid, by rw [List.nil_append]⟩

theorem applyKindsModel_tables_frame (bodies : Nat → List Fields) :
    ∀ (ks : List Nat) (db : DB) (remote : Remote) (j : Nat), j ∉ ks →
    (applyKindsModel bodies ks db remote).2.1.tables.getD j [] = remote.tables.getD j [] := by
  intro ks
  induction ks with
  | nil => intro db remote j _; rfl
  | cons k ks ih =>
    intro db remote j hj
    rw [List.mem_cons, not_or] at hj
    have hstep : (applyKindsModel bodies (k :: ks) db remote).2.1
        = (applyKindsModel bodies ks
            (db.set k (((remote.tables.getD k []).map rowToRec).map (specClassify (bodies k))
              ++ createdRecsOf remote.nextID (specNew (bodies k) ((remote.tables.getD k []).map rowToRec))))
            { tables := remote.tables.set k
                ((remote.tables.getD k []).filterMap (specApplyRow (bodies k))
                  ++ createdRowsOf remote.nextID (specNew (bodies k) ((remote.tables.getD k []).map rowToRec))),
              nextID := remote.nextID + (specNew (bodies k) ((remote.tables.getD k []).map rowToRec)).length }).2.1 := rfl
    rw [hstep, ih _ _ j hj.2]
    show (remote.tables.set k _).getD j [] = _
    exact getD_set_ne _ _ _ _ _ (fun he => hj.1 he.symm)

theorem applyKindsModel_nextID_mono (bodies : Nat → List Fields) :
    ∀ (ks : List Nat) (db : DB) (remote : Remote),
    remote.nextID ≤ (applyKindsModel bodies ks db remote).2.1.nextID := by
  intro ks
  induction ks with
  | nil => intro db remote; exact Nat.le_refl _
  | cons k ks ih =>
    intro db remote
    have hstep : (applyKindsModel bodies (k :: ks) db remote).2.1
        = (applyKindsModel bodies ks
            (db.set k (((remote.tables.getD k []).map rowToRec).map (specClassify (bodies k))
              ++ createdRecsOf remote.nextID (specNew (bodies k) ((remote.tables.getD k []).map rowToRec))))
            { tables := remote.tables.set k
                ((remote.tables.getD k []).filterMap (specApplyRow (bodies k))
                  ++ createdRowsOf remote.nextID (specNew (bodies k) ((remote.tables.getD k []).map rowToRec))),
              nextID := remote.nextID + (specNew (bodies k) ((remote.tables.getD k []).map rowToRec)).length }).2.1 := rfl
    rw [hstep]
    have hih := ih
      (db.set k (((remote.tables.getD k []).map rowToRec).map (specClassify (bodies k))
        ++ createdRecsOf remote.nextID (specNew (bodies k) ((remote.tables.getD k []).map rowToRec))))
      { tables := remote.tables.set k
          ((remote.tables.getD k []).filterMap (specApplyRow (bodies k))
            ++ createdRowsOf remote.nextID (specNew (bodies k) ((remote.tables.getD k []).map rowToRec))),
        nextID := remote.nextID + (specNew (bodies k) ((remote.tables.getD k []).map rowToRec)).length }
    exact Nat.le_trans (Nat.le_add_right _ _) hih

theorem applyKindsModel_final_table (bodies : Nat → List Fields) :
    ∀ (ks : List Nat) (db : DB) (remote : Remote),
    ks.Nodup → (∀ k ∈ ks, k < remote.tables.length) →
    ∀ k ∈ ks, ∃ nid, remote.nextID ≤ nid ∧
      nid + (specNew (bodies k) ((remote.tables.getD k []).map rowToRec)).length
        ≤ (applyKindsModel bodies ks db remote).2.1.nextID ∧
      (applyKindsModel bodies ks db remote).2.1.tables.getD k []
        = (remote.tables.getD k []).filterMap (specApplyRow (bodies k))
          ++ createdRowsOf nid (specNew (bodies k) ((remote.tables.getD k []).map rowToRec)) := by
  intro ks
  induction ks with
  | nil => intro db remote _ _ k hk; exact absurd hk (List.not_mem_nil k)
  | cons k' ks ih =>
    intro db remote hnd hrange k hk
    rw [List.nodup_cons] at hnd
    rw [List.mem_cons] at hk
    have hstep : (applyKindsModel bodies (k' :: ks) db remote).2.1
        = (applyKindsModel bodies ks
            (db.set k' (((remote.tables.getD k' []).map rowToRec).map (specClassify (bodies k'))
              ++ createdRecsOf remote.nextID (specNew (bodies k') ((remote.tables.getD k' []).map rowToRec))))
            { tables := remote.tables.set k'
                ((remote.tables.getD k' []).filterMap (specApplyRow (bodies k'))
                  ++ createdRowsOf remote.nextID (specNew (bodies k') ((remote.tables.getD k' []).map rowToRec))),
              nextID := remote.nextID + (specNew (bodies k') ((remote.tables.getD k' []).map rowToRec)).length }).2.1 := rfl
    rcases hk with rfl | hk
    · refine ⟨remote.nextID, Nat.le_refl _, ?_, ?_⟩
      · rw [hstep]
        exact applyKindsModel_nextID_mono bodies ks
          (db.set k (((remote.tables.getD k []).map rowToRec).map (specClassify (bodies k))
            ++ createdRecsOf remote.nextID (specNew (bodies k) ((remote.tables.getD k []).map rowToRec))))
          { tables := remote.tables.set k
              ((remote.tables.getD k []).filterMap (specApplyRow (bodies k))
                ++ createdRowsOf remote.nextID (specNew (bodies k) ((remote.tables.getD k []).map rowToRec))),
            nextID := remote.nextID + (specNew (bodies k) ((remote.tables.getD k []).map rowToRec)).length }
      · rw [hstep, applyKindsModel_tables_frame bodies ks _ _ k hnd.1]
        show (remote.tables.set k _).getD k [] = _
        exact getD_set_self _ _ _ _ (hrange k (List.mem_cons_self _ _))
    · obtain ⟨nid, hge, hub, heq⟩ := ih
        (db.set k' (((remote.tables.getD k' []).map rowToRec).map (specClassify (bodies k'))
          ++ createdRecsOf remote.nextID (specNew (bodies k') ((remote.tables.getD k' []).map rowToRec))))
        { tables := remote.tables.set k'
            ((remote.tables.getD k' []).filterMap (specApplyRow (bodies k'))
              ++ createdRowsOf remote.nextID (specNew (bodies k') ((remote.tables.getD k' []).map rowToRec))),
          nextID := remote.nextID + (specNew (bodies k') ((remote.tables.getD k' []).map rowToRec)).length }
        hnd.2
        (fun j hj => by
          show j < (remote.tables.set k' _).length
          rw [List.length_set]
          exact hrange j (List.mem_cons_of_mem _ hj))
        k hk
      have hgetk : (remote.tables.set k'
            ((remote.tables.getD k' []).filterMap (specApplyRow (bodies k'))
              ++ createdRowsOf remote.nextID (specNew (bodies k') ((remote.tables.getD k' []).map rowToRec)))).getD k []
          = remote.tables.getD k [] :=
        getD_set_ne _ _ _ _ _ (fun he => hnd.1 (he ▸ hk))
      refine ⟨nid, Nat.le_trans (Nat.le_add_right _ _) hge, ?_, ?_⟩
      · rw [hstep, ← hgetk]
        exact hub
      · rw [hstep, ← hgetk]
        exact heq

/-! Facts for the idempotence claim: what a second run over the result of
a successful run does. -/

theorem applyKindsModel_tables_length (bodies : Nat → List Fields) :
    ∀ (ks : List Nat) (db : DB) (remote : Remote),
    (applyKindsModel bodies ks db remote).2.1.tables.length = remote.tables.length := by
  intro ks
  induction ks with
  | nil => intro db remote; rfl
  | cons k ks ih =>
    intro db remote
    have hstep : (applyKindsModel bodies (k :: ks) db remote).2.1
        = (applyKindsModel bodies ks
            (db.set k (((remote.tables.getD k []).map rowToRec).map (specClassify (bodies k))
              ++ createdRecsOf remote.nextID (specNew (bodies k) ((remote.tables.getD k []).map rowToRec))))
            { tables := remote.tables.set k
                ((remote.tables.getD k []).filterMap (specApplyRow (bodies k))
                  ++ createdRowsOf remote.nextID (specNew (bodies k) ((remote.tables.getD k []).map rowToRec))),
              nextID := remote.nextID + (specNew (bodies k) ((remote.tables.getD k []).map rowToRec)).length }).2.1 := rfl
    rw [hstep, ih]
    exact List.length_set _ _ _

theorem specNew_eq_nil (rows : List Rec) :
    ∀ bs : List Fields, (∀ b ∈ bs, ∃ r ∈ rows, r.fields.id = b.id) →
    specNew bs rows = [] := by
  intro bs
  induction bs with
  | nil => intro _; rfl
  | cons b bs ih =>
    intro h
    obtain ⟨r, hr, hre⟩ := h b (List.mem_cons_self _ _)
    have hfalse : (rows.all (fun x => x.fields.id != b.id)) = false := by
      cases hv : rows.all (fun x => x.fields.id != b.id) with
      | false => rfl
      | true =>
        have hx := List.all_eq_true.mp hv r hr
        simp [hre] at hx
    unfold specNew
    simp only [List.filter_cons, hfalse, Bool.false_eq_true, if_false]
    have hrest := ih (fun c hc => h c (List.mem_cons_of_mem _ hc))
    unfold specNew at hrest
    exact hrest

theorem specUDCalls_eq_nil (k : Nat) (bs : List Fields) :
    ∀ ws : List Row, (∀ w ∈ ws, bs.find? (fun c => c.id == w.fields.id) = some w.fields) →
    specUDCalls k bs ws = [] := by
  intro ws
  induction ws with
  | nil => intro _; rfl
  | cons w ws ih =>
    intro h
    have hw := h w (List.mem_cons_self _ _)
    have hres : specUDCalls k bs (w :: ws) = specUDCalls k bs ws := by
      simp only [specUDCalls]
      rw [hw]
      show (if w.fields = w.fields then specUDCalls k bs ws
        else Call.update k w.internalID :: specUDCalls k bs ws) = specUDCalls k bs ws
      rw [if_pos rfl]
    rw [hres]
    exact ih (fun v hv => h v (List.mem_cons_of_mem _ hv))

theorem mem_filterMap_spec_fields (bs : List Fields) (T : List Row) (w : Row)
    (hw : w ∈ T.filterMap (specApplyRow bs)) : w.fields ∈ bs := by
  obtain ⟨w₀, hw₀, hsome⟩ := List.mem_filterMap.mp hw
  unfold specApplyRow at hsome
  cases hfind : bs.find? (fun b => b.id == w₀.fields.id) with
  | none => rw [hfind] at hsome; simp at hsome
  | some c =>
    rw [hfind] at hsome
    simp only [Option.some.injEq] at hsome
    subst hsome
    exact List.mem_of_find?_eq_some hfind

theorem filterMap_spec_map_ids (bs : List Fields) :
    ∀ T : List Row, List.Sublist ((T.filterMap (specApplyRow bs)).map (fun w => w.fields.id))
      (T.map (fun w => w.fields.id)) := by
  intro T
  induction T with
  | nil => exact List.Sublist.refl _
  | cons w T ih =>
    cases hfind : bs.find? (fun c => c.id == w.fields.id) with
    | none =>
      have hval : specApplyRow bs w = none := by
        unfold specApplyRow
        rw [hfind]
      simp only [List.filterMap_cons, hval, List.map_cons]
      exact List.Sublist.cons _ ih
    | some c =>
      have hpc := List.find?_some hfind
      have hcid : c.id = w.fields.id := beq_iff_eq.mp hpc
      have hval : specApplyRow bs w = some { w with fields := c } := by
        unfold specApplyRow
        rw [hfind]
      simp only [List.filterMap_cons, hval, List.map_cons]
      rw [show ({ w with fields := c } : Row).fields.id = w.fields.id from hcid]
      exact List.Sublist.cons₂ _ ih

theorem filterMap_spec_map_iids (bs : List Fields) :
    ∀ T : List Row, List.Sublist ((T.filterMap (specApplyRow bs)).map (fun w => w.internalID))
      (T.map (fun w => w.internalID)) := by
  intro T
  induction T with
  | nil => exact List.Sublist.refl _
  | cons w T ih =>
    cases hfind : bs.find? (fun c => c.id == w.fields.id) with
    | none =>
      have hval : specApplyRow bs w = none := by
        unfold specApplyRow
        rw [hfind]
      simp only [List.filterMap_cons, hval, List.map_cons]
      exact List.Sublist.cons _ ih
    | some c =>
      have hval : specApplyRow bs w = some { w with fields := c } := by
        unfold specApplyRow
        rw [hfind]
      simp only [List.filterMap_cons, hval, List.map_cons]
      exact List.Sublist.cons₂ _ ih

theorem createdRowsOf_map_ids :
    ∀ (bs : List Fields) (nid : Nat),
    (createdRowsOf nid bs).map (fun w => w.fields.id) = bs.map (fun c => c.id) := by
  intro bs
  induction bs with
  | nil => intro nid; rfl
  | cons c cs ih =>
    intro nid
    rw [createdRowsOf, List.map_cons, List.map_cons, ih]

theorem map_congr_mem {α β : Type} (f g : α → β) :
    ∀ l : List α, (∀ a ∈ l, f a = g a) → l.map f = l.map g := by
  intro l
  induction l with
  | nil => intro _; rfl
  | cons a l ih =>
    intro h
    rw [List.map_cons, List.map_cons, h a (List.mem_cons_self _ _),
      ih (fun x hx => h x (List.mem_cons_of_mem _ hx))]

theorem buildFeatures_mem (n : Nat) (ds : List (Nat × Feature)) (k : Nat) (f : Feature)
    (hf : f ∈ (buildFeatures n ds).getD k []) : ∃ p ∈ ds, p.2 = f := by
  have haux : ∀ (l : List (Nat × Feature)) (fs : List (List Feature)) (j : Nat) (g : Feature),
      g ∈ (l.foldl (fun fs p => if p.1 < n then fs.set p.1 (upsert p.2 (fs.getD p.1 [])) else fs) fs).getD j [] →
      (∃ i, g ∈ fs.getD i []) ∨ ∃ p ∈ l, p.2 = g := by
    intro l
    induction l with
    | nil => intro fs j g hg; exact Or.inl ⟨j, hg⟩
    | cons q l ih =>
      intro fs j g hg
      rw [List.foldl_cons] at hg
      rcases ih _ j g hg with ⟨i, hi⟩ | ⟨p, hp, hpe⟩
      · by_cases hq : q.1 < n
        · rw [if_pos hq] at hi
          rcases mem_getD_set fs q.1 (upsert q.2 (fs.getD q.1 [])) i g hi with hi' | hi'
          · exact Or.inl ⟨i, hi'⟩
          · rcases mem_upsert hi' with rfl | hig
            · exact Or.inr ⟨q, List.mem_cons_self _ _, rfl⟩
            · exact Or.inl ⟨q.1, hig⟩
        · rw [if_neg hq] at hi
          exact Or.inl ⟨i, hi⟩
      · exact Or.inr ⟨p, List.mem_cons_of_mem _ hp, hpe⟩
  unfold buildFeatures at hf
  rcases haux ds (List.replicate n []) k f hf with ⟨i, hi⟩ | h
  · rw [getD_replicate_nil] at hi
    exact absurd hi (List.not_mem_nil f)
  · exact h

theorem toRecord_reffree (f : Feature) (h : f.refTo = none) (d1 d2 : DB) :
    Feature.toRecord d1 f = Feature.toRecord d2 f := by
  unfold Feature.toRecord
  rw [h]
  rfl

theorem syncBodies_reffree (n : Nat) (ds : List (Nat × Feature))
    (h : ∀ p ∈ ds, p.2.refTo = none) (r1 r2 : Remote) (k : Nat) :
    syncBodies r1 n ds k = syncBodies r2 n ds k := by
  unfold syncBodies
  apply map_congr_mem
  intro g hg
  obtain ⟨p, hp, hpe⟩ := buildFeatures_mem n ds k g hg
  exact congrArg Rec.fields (toRecord_reffree g (hpe ▸ h p hp) _ _)

theorem applyKindsModel_calls_nil (bodies : Nat → List Fields) :
    ∀ (ks : List Nat) (db : DB) (remote : Remote),
    ks.Nodup →
    (∀ k ∈ ks, specNew (bodies k) ((remote.tables.getD k []).map rowToRec) = []) →
    (∀ k ∈ ks, specUDCalls k (bodies k) (remote.tables.getD k []) = []) →
    (applyKindsModel bodies ks db remote).1 = [] := by
  intro ks
  induction ks with
  | nil => intro db remote _ _ _; rfl
  | cons k ks ih =>
    intro db remote hnd h1 h2
    rw [List.nodup_cons] at hnd
    have hstep : (applyKindsModel bodies (k :: ks) db remote).1
        = createCallsOf k remote.nextID (specNew (bodies k) ((remote.tables.getD k []).map rowToRec))
          ++ specUDCalls k (bodies k) (remote.tables.getD k [])
          ++ (applyKindsModel bodies ks
            (db.set k (((remote.tables.getD k []).map rowToRec).map (specClassify (bodies k))
              ++ createdRecsOf remote.nextID (specNew (bodies k) ((remote.tables.getD k []).map rowToRec))))
            { tables := remote.tables.set k
                ((remote.tables.getD k []).filterMap (specApplyRow (bodies k))
                  ++ createdRowsOf remote.nextID (specNew (bodies k) ((remote.tables.getD k []).map rowToRec))),
              nextID := remote.nextID + (specNew (bodies k) ((remote.tables.getD k []).map rowToRec)).length }).1 := rfl
    rw [hstep, h1 k (List.mem_cons_self _ _), h2 k (List.mem_cons_self _ _)]
    rw [show createCallsOf k remote.nextID ([] : List Fields) = [] from rfl]
    rw [List.nil_append, List.nil_append]
    apply ih _ _ hnd.2
    · intro j hj
      have hjk : ¬ k = j := fun he => hnd.1 (he ▸ hj)
      show specNew (bodies j) (((remote.tables.set k _).getD j []).map rowToRec) = []
      rw [getD_set_ne _ _ _ _ _ hjk]
      exact h1 j (List.mem_cons_of_mem _ hj)
    · intro j hj
      have hjk : ¬ k = j := fun he => hnd.1 (he ▸ hj)
      show specUDCalls j (bodies j) ((remote.tables.set k _).getD j []) = []
      rw [getD_set_ne _ _ _ _ _ hjk]
      exact h2 j (List.mem_cons_of_mem _ hj)

theorem applyKindsModel_db_frame (bodies : Nat → List Fields) :
    ∀ (ks : List Nat) (db : DB) (remote : Remote) (j : Nat), j ∉ ks →
    (applyKindsModel bodies ks db remote).2.2.getD j [] = db.getD j [] := by
  intro ks
  induction ks with
  | nil => intro db remote j _; rfl
  | cons k ks ih =>
    intro db remote j hj
    rw [List.mem_cons, not_or] at hj
    have hstep : (applyKindsModel bodies (k :: ks) db remote).2.2
        = (applyKindsModel bodies ks
            (db.set k (((remote.tables.getD k []).map rowToRec).map (specClassify (bodies k))
              ++ createdRecsOf remote.nextID (specNew (bodies k) ((remote.tables.getD k []).map rowToRec))))
            { tables := remote.tables.set k
                ((remote.tables.getD k []).filterMap (specApplyRow (bodies k))
                  ++ createdRowsOf remote.nextID (specNew (bodies k) ((remote.tables.getD k []).map rowToRec))),
              nextID := remote.nextID + (specNew (bodies k) ((remote.tables.getD k []).map rowToRec)).length }).2.2 := rfl
    rw [hstep, ih _ _ j hj.2]
    exact getD_set_ne _ _ _ _ _ (fun he => hj.1 he.symm)

theorem applyKindsModel_final_cache (bodies : Nat → List Fields) :
    ∀ (ks : List Nat) (db : DB) (remote : Remote),
    ks.Nodup → (∀ k ∈ ks, k < db.length) →
    ∀ k ∈ ks, ∃ nid,
      (applyKindsModel bodies ks db remote).2.2.getD k []
        = ((remote.tables.getD k []).map rowToRec).map (specClassify (bodies k))
          ++ createdRecsOf nid (specNew (bodies k) ((remote.tables.getD k []).map rowToRec)) := by
  intro ks
  induction ks with
  | nil => intro db remote _ _ k hk; exact absurd hk (List.not_mem_nil k)
  | cons k' ks ih =>
    intro db remote hnd hrange k hk
    rw [List.nodup_cons] at hnd
    rw [List.mem_cons] at hk
    have hstep : (applyKindsModel bodies (k' :: ks) db remote).2.2
        = (applyKindsModel bodies ks
            (db.set k' (((remote.tables.getD k' []).map rowToRec).map (specClassify (bodies k'))
              ++ createdRecsOf remote.nextID (specNew (bodies k') ((remote.tables.getD k' []).map rowToRec))))
            { tables := remote.tables.set k'
                ((remote.tables.getD k' []).filterMap (specApplyRow (bodies k'))
                  ++ createdRowsOf remote.nextID (specNew (bodies k') ((remote.tables.getD k' []).map rowToRec))),
              nextID := remote.nextID + (specNew (bodies k') ((remote.tables.getD k' []).map rowToRec)).length }).2.2 := rfl
    rcases hk with rfl | hk
    · refine ⟨remote.nextID, ?_⟩
      rw [hstep, applyKindsModel_db_frame bodies ks _ _ k hnd.1]
      exact getD_set_self _ _ _ _ (hrange k (List.mem_cons_self _ _))
    · obtain ⟨nid, heq⟩ := ih
        (db.set k' (((remote.tables.getD k' []).map rowToRec).map (specClassify (bodies k'))
          ++ createdRecsOf remote.nextID (specNew (bodies k') ((remote.tables.getD k' []).map rowToRec))))
        { tables := remote.tables.set k'
            ((remote.tables.getD k' []).filterMap (specApplyRow (bodies k'))
              ++ createdRowsOf remote.nextID (specNew (bodies k') ((remote.tables.getD k' []).map rowToRec))),
          nextID := remote.nextID + (specNew (bodies k') ((remote.tables.getD k' []).map rowToRec)).length }
        hnd.2
        (fun j hj => by
          show j < (db.set k' _).length
          rw [List.length_set]
          exact hrange j (List.mem_cons_of_mem _ hj))
        k hk
      have hgetk : (remote.tables.set k'
            ((remote.tables.getD k' []).filterMap (specApplyRow (bodies k'))
              ++ createdRowsOf remote.nextID (specNew (bodies k') ((remote.tables.getD k' []).map rowToRec)))).getD k []
          = remote.tables.getD k [] :=
        getD_set_ne _ _ _ _ _ (fun he => hnd.1 (he ▸ hk))
      refine ⟨nid, ?_⟩
      rw [hstep, ← hgetk]
      exact heq

theorem specClassify_unchanged (bs : List Fields) (r : Rec)
    (hnb : ((bs.map (fun c => c.id)).Nodup)) (hmem : r.fields ∈ bs) :
    specClassify bs r = { r with state := RecState.unchanged } := by
  unfold specClassify
  rw [find?_eq_some_of_nodup_ids bs hnb r.fields hmem]
  show (if r.fields = r.fields then ({ internalID := r.internalID, fields := r.fields, state := RecState.unchanged } : Rec)
    else ({ internalID := r.internalID, fields := r.fields, state := RecState.changed } : Rec))
    = ({ internalID := r.internalID, fields := r.fields, state := RecState.unchanged } : Rec)
  rw [if_pos rfl]

/-- C4, counterexample: the Account ← Repository ← Issue chain against an
empty remote.  The first run succeeds, creating all three records (with
empty references in R and I, see C3).  The second run, with the graph
unchanged, rebuilds R's and I's bodies — now the referenced records exist,
so the references resolve — finds them different from the stored fields,
classifies them Changed and issues two Update calls instead of zero. -/
theorem second_run_not_idempotent_cex :
    (airtableSync exOpts 3 chainDS allOk allCreatesOk emptyRemote3).calls
      = [Call.create 0 "acct" 1, Call.create 1 "repo" 2, Call.create 2 "iss" 3]
    ∧ (∃ db, (airtableSync exOpts 3 chainDS allOk allCreatesOk emptyRemote3).outcome = Except.ok db)
    ∧ (airtableSync exOpts 3 chainDS allOk allCreatesOk
        (airtableSync exOpts 3 chainDS allOk allCreatesOk emptyRemote3).remote).calls
      = [Call.update 1 2, Call.update 2 3] := by
  exact ⟨rfl, ⟨_, rfl⟩, rfl⟩

/-- C4, amended: a second run over an unchanged graph is idempotent only
when every record body rebuilds identically, which holds for
reference-free graphs (and fails when a reference resolves against a
record the first run created, see the counterexample): with valid
credentials, no remote failures, and duplicate-free fetched tables whose
internal IDs sit below the ID counter, if no desired entity carries a
reference then the second run issues zero create/update/delete calls,
succeeds, and classifies every cached record Unchanged. -/
theorem reffree_second_run_idempotent (opts : AirtableOptions) (n : Nat)
    (ds : List (Nat × Feature)) (remote : Remote)
    (hb : ¬ opts.baseID = "") (ht : ¬ opts.token = "")
    (hlen : n ≤ remote.tables.length)
    (hnd3 : ∀ k, k < n → ((remote.tables.getD k []).map (fun w => w.internalID)).Nodup)
    (hnd2 : ∀ k, k < n → ((remote.tables.getD k []).map (fun w => w.fields.id)).Nodup)
    (hlt : ∀ k, k < n → ∀ w ∈ remote.tables.getD k [], w.internalID < remote.nextID)
    (hrf : ∀ p ∈ ds, p.2.refTo = none) :
    (airtableSync opts n ds (fun _ => false) (fun _ => false)
        ((airtableSync opts n ds (fun _ => false) (fun _ => false) remote).remote)).calls = []
    ∧ ∃ db2, (airtableSync opts n ds (fun _ => false) (fun _ => false)
          ((airtableSync opts n ds (fun _ => false) (fun _ => false) remote).remote)).outcome
        = Except.ok db2
      ∧ ∀ k, k < n → ∀ r ∈ db2.getD k [], r.state = RecState.unchanged := by
  have hm1 := airtableSync_model opts n ds remote hb ht hlen hnd3 hnd2 hlt
  have hR1 : (airtableSync opts n ds (fun _ => false) (fun _ => false) remote).remote
      = (applyKindsModel (syncBodies remote n ds) (List.range n)
          (classifyAll (fetchDB remote n) (buildFeatures n ds)).1 remote).2.1 := by
    rw [hm1]
  have hmono := applyKindsModel_nextID_mono (syncBodies remote n ds) (List.range n)
    (classifyAll (fetchDB remote n) (buildFeatures n ds)).1 remote
  have htab := fun (k : Nat) (hk : k < n) =>
    applyKindsModel_final_table (syncBodies remote n ds) (List.range n)
      (classifyAll (fetchDB remote n) (buildFeatures n ds)).1 remote (List.nodup_range n)
      (fun j hj => by have := List.mem_range.mp hj; omega) k (List.mem_range.mpr hk)
  have hBids : ∀ k, ((syncBodies remote n ds k).map (fun c => c.id)).Nodup := by
    intro k
    have hids : (syncBodies remote n ds k).map (fun c => c.id)
        = ((buildFeatures n ds).getD k []).map (fun g => g.id) := by
      unfold syncBodies
      rw [List.map_map]
      rfl
    rw [hids]
    exact buildFeatures_nodup n ds k
  have hlen1 : n ≤ (applyKindsModel (syncBodies remote n ds) (List.range n)
      (classifyAll (fetchDB remote n) (buildFeatures n ds)).1 remote).2.1.tables.length := by
    rw [applyKindsModel_tables_length]
    exact hlen
  have hmu : ∀ k, k < n → ∀ w ∈ (applyKindsModel (syncBodies remote n ds) (List.range n)
      (classifyAll (fetchDB remote n) (buildFeatures n ds)).1 remote).2.1.tables.getD k [],
      w.fields ∈ syncBodies remote n ds k := by
    intro k hk w hw
    obtain ⟨nid, _, _, heq⟩ := htab k hk
    rw [heq, List.mem_append] at hw
    rcases hw with hw | hw
    · exact mem_filterMap_spec_fields _ _ _ hw
    · exact List.mem_of_mem_filter (createdRowsOf_mem_fields _ _ _ hw)
  have hnd2' : ∀ k, k < n → (((applyKindsModel (syncBodies remote n ds) (List.range n)
      (classifyAll (fetchDB remote n) (buildFeatures n ds)).1 remote).2.1.tables.getD k []).map
        (fun w => w.fields.id)).Nodup := by
    intro k hk
    obtain ⟨nid, hge, hub, heq⟩ := htab k hk
    rw [heq, List.map_append]
    apply List.Nodup.append
    · exact List.Nodup.sublist (filterMap_spec_map_ids _ _) (hnd2 k hk)
    · rw [createdRowsOf_map_ids]
      exact List.Nodup.sublist ((List.filter_sublist _).map _) (hBids k)
    · intro a ha hbm
      have haT : a ∈ (remote.tables.getD k []).map (fun w => w.fields.id) :=
        (filterMap_spec_map_ids _ _).subset ha
      obtain ⟨w, hw, hwe⟩ := List.mem_map.mp haT
      rw [createdRowsOf_map_ids] at hbm
      obtain ⟨b', hb', hbe⟩ := List.mem_map.mp hbm
      have hall := (List.mem_filter.mp hb').2
      have hx := List.all_eq_true.mp hall (rowToRec w) (List.mem_map_of_mem _ hw)
      have hne : w.fields.id ≠ b'.id := by simpa using hx
      exact hne (hwe.trans hbe.symm)
  have hnd3' : ∀ k, k < n → (((applyKindsModel (syncBodies remote n ds) (List.range n)
      (classifyAll (fetchDB remote n) (buildFeatures n ds)).1 remote).2.1.tables.getD k []).map
        (fun w => w.internalID)).Nodup := by
    intro k hk
    obtain ⟨nid, hge, hub, heq⟩ := htab k hk
    rw [heq, List.map_append]
    apply List.Nodup.append
    · exact List.Nodup.sublist (filterMap_spec_map_iids _ _) (hnd3 k hk)
    · exact createdRowsOf_iids_nodup _ _
    · intro a ha hbm
      have haT : a ∈ (remote.tables.getD k []).map (fun w => w.internalID) :=
        (filterMap_spec_map_iids _ _).subset ha
      obtain ⟨w, hw, hwe⟩ := List.mem_map.mp haT
      have h1 : a < remote.nextID := hwe ▸ hlt k hk w hw
      obtain ⟨w', hw', hbe⟩ := List.mem_map.mp hbm
      have h2 := (createdRowsOf_iid_bound _ _ _ hw').1
      rw [hbe] at h2
      omega
  have hlt' : ∀ k, k < n → ∀ w ∈ (applyKindsModel (syncBodies remote n ds) (List.range n)
      (classifyAll (fetchDB remote n) (buildFeatures n ds)).1 remote).2.1.tables.getD k [],
      w.internalID < (applyKindsModel (syncBodies remote n ds) (List.range n)
        (classifyAll (fetchDB remote n) (buildFeatures n ds)).1 remote).2.1.nextID := by
    intro k hk w hw
    obtain ⟨nid, hge, hub, heq⟩ := htab k hk
    rw [heq, List.mem_append] at hw
    rcases hw with hw | hw
    · have haT : w.internalID ∈ (remote.tables.getD k []).map (fun v => v.internalID) :=
        (filterMap_spec_map_iids _ _).subset (List.mem_map_of_mem _ hw)
      obtain ⟨w₀, hw₀, hwe⟩ := List.mem_map.mp haT
      have h1 : w.internalID < remote.nextID := hwe ▸ hlt k hk w₀ hw₀
      omega
    · have h2 := (createdRowsOf_iid_bound _ _ _ hw).2
      omega
  have hm2 := airtableSync_model opts n ds
    ((applyKindsModel (syncBodies remote n ds) (List.range n)
      (classifyAll (fetchDB remote n) (buildFeatures n ds)).1 remote).2.1)
    hb ht hlen1 hnd3' hnd2' hlt'
  have hsn : ∀ k ∈ List.range n,
      specNew (syncBodies ((applyKindsModel (syncBodies remote n ds) (List.range n)
          (classifyAll (fetchDB remote n) (buildFeatures n ds)).1 remote).2.1) n ds k)
        (((applyKindsModel (syncBodies remote n ds) (List.range n)
          (classifyAll (fetchDB remote n) (buildFeatures n ds)).1 remote).2.1.tables.getD k []).map rowToRec)
      = [] := by
    intro k hk
    have hkn : k < n := List.mem_range.mp hk
    rw [syncBodies_reffree n ds hrf _ remote k]
    obtain ⟨nid, hge, hub, heq⟩ := htab k hkn
    rw [heq]
    apply specNew_eq_nil
    intro b hbmem
    obtain ⟨iid, hfil⟩ := spec_table_filter (syncBodies remote n ds k) (remote.tables.getD k []) nid
      (hBids k) (hnd2 k hkn) b hbmem
    have hxmem : ({ internalID := iid, fields := b } : Row)
        ∈ (remote.tables.getD k []).filterMap (specApplyRow (syncBodies remote n ds k))
          ++ createdRowsOf nid (specNew (syncBodies remote n ds k) ((remote.tables.getD k []).map rowToRec)) := by
      have hone : ({ internalID := iid, fields := b } : Row) ∈ [({ internalID := iid, fields := b } : Row)] :=
        List.mem_singleton.mpr rfl
      rw [← hfil] at hone
      exact List.mem_of_mem_filter hone
    exact ⟨rowToRec { internalID := iid, fields := b }, List.mem_map_of_mem _ hxmem, rfl⟩
  have hud : ∀ k ∈ List.range n,
      specUDCalls k (syncBodies ((applyKindsModel (syncBodies remote n ds) (List.range n)
          (classifyAll (fetchDB remote n) (buildFeatures n ds)).1 remote).2.1) n ds k)
        ((applyKindsModel (syncBodies remote n ds) (List.range n)
          (classifyAll (fetchDB remote n) (buildFeatures n ds)).1 remote).2.1.tables.getD k [])
      = [] := by
    intro k hk
    have hkn : k < n := List.mem_range.mp hk
    rw [syncBodies_reffree n ds hrf _ remote k]
    apply specUDCalls_eq_nil
    intro w hw
    exact find?_eq_some_of_nodup_ids _ (hBids k) _ (hmu k hkn w hw)
  refine ⟨?_, ?_⟩
  · rw [hR1, hm2]
    exact applyKindsModel_calls_nil _ (List.range n) _ _ (List.nodup_range n) hsn hud
  · refine ⟨(applyKindsModel (syncBodies ((applyKindsModel (syncBodies remote n ds) (List.range n)
        (classifyAll (fetchDB remote n) (buildFeatures n ds)).1 remote).2.1) n ds) (List.range n)
        (classifyAll (fetchDB ((applyKindsModel (syncBodies remote n ds) (List.range n)
          (classifyAll (fetchDB remote n) (buildFeatures n ds)).1 remote).2.1) n) (buildFeatures n ds)).1
        ((applyKindsModel (syncBodies remote n ds) (List.range n)
          (classifyAll (fetchDB remote n) (buildFeatures n ds)).1 remote).2.1)).2.2, ?_, ?_⟩
    · rw [hR1, hm2]
    · intro k hk r hr
      obtain ⟨nid2, heq2⟩ := applyKindsModel_final_cache
        (syncBodies ((applyKindsModel (syncBodies remote n ds) (List.range n)
          (classifyAll (fetchDB remote n) (buildFeatures n ds)).1 remote).2.1) n ds)
        (List.range n)
        (classifyAll (fetchDB ((applyKindsModel (syncBodies remote n ds) (List.range n)
          (classifyAll (fetchDB remote n) (buildFeatures n ds)).1 remote).2.1) n) (buildFeatures n ds)).1
        ((applyKindsModel (syncBodies remote n ds) (List.range n)
          (classifyAll (fetchDB remote n) (buildFeatures n ds)).1 remote).2.1)
        (List.nodup_range n)
        (fun j hj => by
          rw [classifyAll_length, fetchDB_length]
          exact List.mem_range.mp hj)
        k (List.mem_range.mpr hk)
      rw [heq2, hsn k (List.mem_range.mpr hk)] at hr
      rw [show createdRecsOf nid2 ([] : List Fields) = [] from rfl, List.append_nil] at hr
      obtain ⟨r₀, hr₀, hre⟩ := List.mem_map.mp hr
      have hrf0 : r₀.fields ∈ syncBodies ((applyKindsModel (syncBodies remote n ds) (List.range n)
          (classifyAll (fetchDB remote n) (buildFeatures n ds)).1 remote).2.1) n ds k := by
        rw [syncBodies_reffree n ds hrf _ remote k]
        obtain ⟨w, hw, hwe⟩ := List.mem_map.mp hr₀
        rw [← hwe]
        exact hmu k hk w hw
      have hBids2 : ((syncBodies ((applyKindsModel (syncBodies remote n ds) (List.range n)
          (classifyAll (fetchDB remote n) (buildFeatures n ds)).1 remote).2.1) n ds k).map
            (fun c => c.id)).Nodup := by
        rw [syncBodies_reffree n ds hrf _ remote k]
        exact hBids k
      rw [specClassify_unchanged _ _ hBids2 hrf0] at hre
      rw [← hre]

/-- C4, witness for the amended theorem: one reference-free account against
an empty remote; the second run issues no call. -/
theorem reffree_second_run_idempotent_witness :
    (∀ p ∈ [((0 : Nat), exAccount)], p.2.refTo = none)
    ∧ (airtableSync exOpts 1 [(0, exAccount)] (fun _ => false) (fun _ => false)
        ((airtableSync exOpts 1 [(0, exAccount)] (fun _ => false) (fun _ => false)
          { tables := [[]], nextID := 1 }).remote)).calls = [] := by
  refine ⟨by decide, ?_⟩
  exact (reffree_second_run_idempotent exOpts 1 [(0, exAccount)] { tables := [[]], nextID := 1 }
    (by decide) (by decide) (by decide)
    (fun k hk => by
      have h0 : k = 0 := by omega
      subst h0
      exact List.Pairwise.nil)
    (fun k hk => by
      have h0 : k = 0 := by omega
      subst h0
      exact List.Pairwise.nil)
    (fun k hk w hw => by
      have h0 : k = 0 := by omega
      subst h0
      exact absurd hw (List.not_mem_nil w))
    (by decide)).1

/-- C5: after one successful run every deduplicated desired entry has
exactly one remote record with its ExternalID, and that record's fields
are the built body (references resolved against the fetched state).  The
hypotheses say the credentials are valid, the fetched tables cover the
kinds, their ExternalIDs and internal IDs are duplicate-free and the
internal IDs sit below the remote ID counter; the run itself succeeds
because no remote operation fails. -/
theorem convergence_after_successful_run (opts : AirtableOptions) (n : Nat)
    (ds : List (Nat × Feature)) (remote : Remote)
    (hb : ¬ opts.baseID = "") (ht : ¬ opts.token = "")
    (hlen : n ≤ remote.tables.length)
    (hnd3 : ∀ k, k < n → ((remote.tables.getD k []).map (fun w => w.internalID)).Nodup)
    (hnd2 : ∀ k, k < n → ((remote.tables.getD k []).map (fun w => w.fields.id)).Nodup)
    (hlt : ∀ k, k < n → ∀ w ∈ remote.tables.getD k [], w.internalID < remote.nextID) :
    ∀ k, k < n → ∀ f ∈ (buildFeatures n ds).getD k [],
      ∃ iid, (((airtableSync opts n ds (fun _ => false) (fun _ => false) remote).remote.tables.getD k []).filter
          (fun w => w.fields.id == f.id))
        = [{ internalID := iid, fields := (Feature.toRecord (fetchDB remote n) f).fields }] := by
  intro k hk f hf
  rw [airtableSync_model opts n ds remote hb ht hlen hnd3 hnd2 hlt]
  obtain ⟨nid, hge, hub, heq⟩ := applyKindsModel_final_table (syncBodies remote n ds) (List.range n)
    (classifyAll (fetchDB remote n) (buildFeatures n ds)).1 remote (List.nodup_range n)
    (fun j hj => by have := List.mem_range.mp hj; omega) k (List.mem_range.mpr hk)
  show ∃ iid, (((applyKindsModel (syncBodies remote n ds) (List.range n)
      (classifyAll (fetchDB remote n) (buildFeatures n ds)).1 remote).2.1.tables.getD k []).filter
      (fun w => w.fields.id == f.id)) = _
  rw [heq]
  have hids : (syncBodies remote n ds k).map (fun c => c.id)
      = ((buildFeatures n ds).getD k []).map (fun g => g.id) := by
    unfold syncBodies
    rw [List.map_map]
    rfl
  have hnb : ((syncBodies remote n ds k).map (fun c => c.id)).Nodup := by
    rw [hids]
    exact buildFeatures_nodup n ds k
  have hbmem : (Feature.toRecord (fetchDB remote n) f).fields ∈ syncBodies remote n ds k :=
    List.mem_map_of_mem _ hf
  exact spec_table_filter (syncBodies remote n ds k) (remote.tables.getD k []) nid
    hnb (hnd2 k hk) _ hbmem

/-- C5, witness: one kind, the account entry, empty remote: the final table
filtered by its ExternalID is exactly the created row. -/
theorem convergence_after_successful_run_witness :
    ¬ (exOpts.baseID = "") ∧ (0 : Nat) < 1
    ∧ exAccount ∈ (buildFeatures 1 [(0, exAccount)]).getD 0 []
    ∧ ∃ iid, (((airtableSync exOpts 1 [(0, exAccount)] (fun _ => false) (fun _ => false)
          { tables := [[]], nextID := 0 }).remote.tables.getD 0 []).filter
        (fun w => w.fields.id == exAccount.id))
      = [{ internalID := iid,
           fields := (Feature.toRecord (fetchDB { tables := [[]], nextID := 0 } 1) exAccount).fields }] := by
  refine ⟨by decide, by decide, by decide, ?_⟩
  exact convergence_after_successful_run exOpts 1 [(0, exAccount)] { tables := [[]], nextID := 0 }
    (by decide) (by decide) (by decide)
    (fun k hk => by
      have hk0 : k = 0 := by omega
      subst hk0
      exact List.Pairwise.nil)
    (fun k hk => by
      have hk0 : k = 0 := by omega
      subst hk0
      exact List.Pairwise.nil)
    (fun k hk w hw => by
      have hk0 : k = 0 := by omega
      subst hk0
      exact absurd hw (List.not_mem_nil w))
    0 (by decide) exAccount (by decide)

/-- C10: the apply pass gives every successfully created record a fresh
internal ID at or above the fetched `nextID` and appends it to the cache in
state `new`; the update/delete pass calls only records in state `unknown`
or `changed`, whose internal IDs all come from the fetched tables and so
lie below `nextID`.  Hence no internal ID ever appears in both a create
call and an update or delete call of the same run, and on a successful run
every created record sits in the final cache with state `new`.  Holds for
any failure oracles. -/
theorem created_records_never_updated_or_deleted (opts : AirtableOptions) (n : Nat)
    (ds : List (Nat × Feature)) (ff : Nat → Bool) (cf : String → Bool) (remote : Remote)
    (H : ∀ k, ∀ w ∈ remote.tables.getD k [], w.internalID < remote.nextID) :
    (∀ k id iid, Call.create k id iid ∈ (airtableSync opts n ds ff cf remote).calls →
        remote.nextID ≤ iid)
    ∧ (∀ k iid, (Call.update k iid ∈ (airtableSync opts n ds ff cf remote).calls
          ∨ Call.delete k iid ∈ (airtableSync opts n ds ff cf remote).calls) →
        iid < remote.nextID)
    ∧ (∀ k k2 id iid, Call.create k id iid ∈ (airtableSync opts n ds ff cf remote).calls →
        ¬ (Call.update k2 iid ∈ (airtableSync opts n ds ff cf remote).calls
            ∨ Call.delete k2 iid ∈ (airtableSync opts n ds ff cf remote).calls))
    ∧ (∀ db, (airtableSync opts n ds ff cf remote).outcome = Except.ok db →
        ∀ k id iid, Call.create k id iid ∈ (airtableSync opts n ds ff cf remote).calls →
          ∃ r ∈ db.getD k [], r.internalID = iid ∧ r.state = RecState.new) := by
  by_cases hcred : opts.baseID = "" ∨ opts.token = ""
  · have hsync : airtableSync opts n ds ff cf remote
        = { calls := [], outcome := Except.error "missing token or baseid, check '-h'", remote := remote } := by
      unfold airtableSync
      rw [if_pos hcred]
    rw [hsync]
    refine ⟨?_, ?_, ?_, ?_⟩
    · intro k id iid hc; exact absurd hc (List.not_mem_nil _)
    · intro k iid hc; rcases hc with hc | hc <;> exact absurd hc (List.not_mem_nil _)
    · intro k k2 id iid hc; exact absurd hc (List.not_mem_nil _)
    · intro db h; exact absurd h (by simp)
  · cases hft : fetchTables ff remote (List.range n) with
    | none =>
      have hsync : airtableSync opts n ds ff cf remote
          = { calls := [], outcome := Except.error "fetch failed", remote := remote } := by
        unfold airtableSync
        rw [if_neg hcred, hft]
      rw [hsync]
      refine ⟨?_, ?_, ?_, ?_⟩
      · intro k id iid hc; exact absurd hc (List.not_mem_nil _)
      · intro k iid hc; rcases hc with hc | hc <;> exact absurd hc (List.not_mem_nil _)
      · intro k k2 id iid hc; exact absurd hc (List.not_mem_nil _)
      · intro db h; exact absurd h (by simp)
    | some cache =>
      have hcache : cache = fetchDB remote n := fetchTables_some_inv ff remote (List.range n) cache hft
      have hlen : (classifyAll cache (buildFeatures n ds)).1.length = n := by
        rw [classifyAll_length, hcache, fetchDB_length]
      have hbound : ∀ j, ∀ r ∈ (classifyAll cache (buildFeatures n ds)).1.getD j [],
          (r.state = RecState.unknown ∨ r.state = RecState.changed) →
          r.internalID < remote.nextID := by
        intro j r hr _
        have hkey : (r.fields.id, r.internalID) ∈ tableKey ((classifyAll cache (buildFeatures n ds)).1.getD j []) :=
          List.mem_map_of_mem _ hr
        rw [classifyAll_tableKey] at hkey
        by_cases hj : j < n
        · rw [hcache, fetchDB_getD remote n j hj] at hkey
          obtain ⟨x, hx, hxe⟩ := List.mem_map.mp hkey
          obtain ⟨w, hw, rfl⟩ := List.mem_map.mp hx
          have hiid : r.internalID = w.internalID := congrArg Prod.snd hxe.symm
          rw [hiid]
          exact H j w hw
        · rw [hcache, fetchDB_getD_ge remote n j (by omega)] at hkey
          exact absurd hkey (List.not_mem_nil _)
      obtain ⟨da, dbm⟩ := applyKinds_discipline cf (classifyAll cache (buildFeatures n ds)).2
        remote.nextID (List.range n) (classifyAll cache (buildFeatures n ds)).1 remote
        (List.nodup_range n)
        (fun k hk => by rw [hlen]; exact List.mem_range.mp hk)
        (Nat.le_refl _) hbound
      cases hak : applyKinds cf (classifyAll cache (buildFeatures n ds)).2
          (List.range n) (classifyAll cache (buildFeatures n ds)).1 remote with
      | mk calls rest =>
        obtain ⟨remote', odb⟩ := rest
        rw [hak] at da dbm
        cases odb with
        | none =>
          have hsync : airtableSync opts n ds ff cf remote
              = { calls := calls, outcome := Except.error "create failed", remote := remote' } := by
            unfold airtableSync
            rw [if_neg hcred, hft]
            show (match applyKinds cf (classifyAll cache (buildFeatures n ds)).2
                (List.range n) (classifyAll cache (buildFeatures n ds)).1 remote with
              | (calls, remote', none) =>
                ({ calls := calls, outcome := Except.error "create failed", remote := remote' } : SyncResult)
              | (calls, remote', some db) =>
                { calls := calls, outcome := Except.ok db, remote := remote' }) = _
            rw [hak]
          rw [hsync]
          refine ⟨?_, ?_, ?_, ?_⟩
          · intro k id iid hc
            rcases da _ hc with ⟨k', id', iid', heq, hle⟩ | ⟨k', iid', hor, _⟩
            · injection heq with e1 e2 e3
              rw [e3]
              exact hle
            · rcases hor with heq | heq <;> exact absurd heq (by simp)
          · intro k iid hc
            rcases hc with hc | hc <;>
              rcases da _ hc with ⟨k', id', iid', heq, _⟩ | ⟨k', iid', hor, hlt⟩
            · exact absurd heq (by simp)
            · rcases hor with heq | heq
              · injection heq with e1 e2
                rw [e2]
                exact hlt
              · exact absurd heq (by simp)
            · exact absurd heq (by simp)
            · rcases hor with heq | heq
              · exact absurd heq (by simp)
              · injection heq with e1 e2
                rw [e2]
                exact hlt
          · intro k k2 id iid hcreate hud
            have h1 : remote.nextID ≤ iid := by
              rcases da _ hcreate with ⟨k', id', iid', heq, hle⟩ | ⟨k', iid', hor, _⟩
              · injection heq with e1 e2 e3
                rw [e3]
                exact hle
              · rcases hor with heq | heq <;> exact absurd heq (by simp)
            have h2 : iid < remote.nextID := by
              rcases hud with hc | hc <;>
                rcases da _ hc with ⟨k', id', iid', heq, _⟩ | ⟨k', iid', hor, hlt⟩
              · exact absurd heq (by simp)
              · rcases hor with heq | heq
                · injection heq with e1 e2
                  rw [e2]
                  exact hlt
                · exact absurd heq (by simp)
              · exact absurd heq (by simp)
              · rcases hor with heq | heq
                · exact absurd heq (by simp)
                · injection heq with e1 e2
                  rw [e2]
                  exact hlt
            omega
          · intro db h
            exact absurd h (by simp)
        | some db0 =>
          have hsync : airtableSync opts n ds ff cf remote
              = { calls := calls, outcome := Except.ok db0, remote := remote' } := by
            unfold airtableSync
            rw [if_neg hcred, hft]
            show (match applyKinds cf (classifyAll cache (buildFeatures n ds)).2
                (List.range n) (classifyAll cache (buildFeatures n ds)).1 remote with
              | (calls, remote', none) =>
                ({ calls := calls, outcome := Except.error "create failed", remote := remote' } : SyncResult)
              | (calls, remote', some db) =>
                { calls := calls, outcome := Except.ok db, remote := remote' }) = _
            rw [hak]
          rw [hsync]
          refine ⟨?_, ?_, ?_, ?_⟩
          · intro k id iid hc
            rcases da _ hc with ⟨k', id', iid', heq, hle⟩ | ⟨k', iid', hor, _⟩
            · injection heq with e1 e2 e3
              rw [e3]
              exact hle
            · rcases hor with heq | heq <;> exact absurd heq (by simp)
          · intro k iid hc
            rcases hc with hc | hc <;>
              rcases da _ hc with ⟨k', id', iid', heq, _⟩ | ⟨k', iid', hor, hlt⟩
            · exact absurd heq (by simp)
            · rcases hor with heq | heq
              · injection heq with e1 e2
                rw [e2]
                exact hlt
              · exact absurd heq (by simp)
            · exact absurd heq (by simp)
            · rcases hor with heq | heq
              · exact absurd heq (by simp)
              · injection heq with e1 e2
                rw [e2]
                exact hlt
          · intro k k2 id iid hcreate hud
            have h1 : remote.nextID ≤ iid := by
              rcases da _ hcreate with ⟨k', id', iid', heq, hle⟩ | ⟨k', iid', hor, _⟩
              · injection heq with e1 e2 e3
                rw [e3]
                exact hle
              · rcases hor with heq | heq <;> exact absurd heq (by simp)
            have h2 : iid < remote.nextID := by
              rcases hud with hc | hc <;>
                rcases da _ hc with ⟨k', id', iid', heq, _⟩ | ⟨k', iid', hor, hlt⟩
              · exact absurd heq (by simp)
              · rcases hor with heq | heq
                · injection heq with e1 e2
                  rw [e2]
                  exact hlt
                · exact absurd heq (by simp)
              · exact absurd heq (by simp)
              · rcases hor with heq | heq
                · exact absurd heq (by simp)
                · injection heq with e1 e2
                  rw [e2]
                  exact hlt
            omega
          · intro db h k id iid hc
            have hdb : db0 = db := by
              have := congrArg (fun o => match o with | Except.ok d => some d | Except.error _ => none) h
              exact Option.some.inj this
            rw [← hdb]
            exact dbm db0 rfl k id iid hc

/-- C10, witness: one kind, one fresh account, empty remote table with
`nextID = 1`; the create call's internal ID is at least 1. -/
theorem created_records_never_updated_or_deleted_witness :
    (∀ k, ∀ w ∈ ({ tables := [[]], nextID := 1 } : Remote).tables.getD k [], w.internalID < 1)
    ∧ (∀ k id iid,
        Call.create k id iid ∈
          (airtableSync exOpts 1 [(0, exAccount)] allOk allCreatesOk
            { tables := [[]], nextID := 1 }).calls → 1 ≤ iid) := by
  have hH : ∀ k, ∀ w ∈ ({ tables := [[]], nextID := 1 } : Remote).tables.getD k [], w.internalID < 1 := by
    intro k w hw
    cases k with
    | zero => exact absurd hw (List.not_mem_nil w)
    | succ m => exact absurd hw (List.not_mem_nil w)
  exact ⟨hH, (created_records_never_updated_or_deleted exOpts 1 [(0, exAccount)]
    allOk allCreatesOk { tables := [[]], nextID := 1 } hH).1⟩

end Depviz
